import Mathlib

/-!
# query_builder: fragments and the statement assembler

A shallow embedding of `part.go` and `query.go`.

* Go's `builder` interface is the inductive type `builder`, one constructor per
  dynamic type that implements it in the package (`partByte`, `partString`,
  `partParam`, `parts`, `Part`, `partQuery`, `*Query`, `ValueBuilder`) and one
  for the nil interface value.
* `Build() (string, []interface{})` returns `Option (String × List Any)`;
  `none` stands for a run-time panic (a method call on a nil interface).
* A slice is modelled by the list of its elements (its value when it is read),
  a `*Query` by the statement it points to, the methods of `*Query` by state
  passing.
* In the namespace `Mem` the fragments are modelled once more with slices as
  they are in Go: windows on backing arrays in a memory, where `append` writes
  into the backing array of its receiver when the capacity allows. What
  depends on two fragments sharing a backing array is settled there.
* Go strings are modelled by `String`, `interface{}` parameter values by `Any`,
  `int` by `Int`.
-/

namespace QueryBuilder

/-! ## Values -/

/-- A `time.Time` value: seconds since the epoch and the nanosecond part. -/
structure Time where
  sec : Int
  nsec : Nat
  deriving DecidableEq, Repr

/-- The values an `interface{}` parameter can hold, by runtime type. -/
inductive Any where
  | nil
  | string (s : String)
  | int (n : Int)
  | bool (b : Bool)
  | time (t : Time)
  | other (tag : Nat)
  deriving DecidableEq, Repr

/-! ## Data model -/

/-- The struct `Part`, over the type of its embedded `builder` field. -/
structure PartOf (β : Type) where
  builder : β

/-- The struct `Query`, over the type of its parts. -/
structure QueryOf (π : Type) where
  from_ : π
  selectParts : List π
  joinParts : List π
  whereParts : List π
  groupByParts : List π
  orderByParts : List π
  withParts : List π
  limit : Int

/-- The interface `builder`: the dynamic types that implement it, and nil. -/
inductive builder where
  | nil
  | partByte (b : Fin 256)
  | partString (t : String)
  | partParam (v : Any)
  | parts (ps : List builder)
  | ofPart (p : PartOf builder)
  | partQuery (s : String) (params : List Any)
  | ofQuery (q : QueryOf (PartOf builder))
  | ValueBuilder (ps : List builder)

abbrev Part := PartOf builder

abbrev Query := QueryOf Part

/-- The result of `Build`: the text and the parameters, or a panic. -/
abbrev Built := Option (String × List Any)

/-- A byte constant written as a character, such as `partByte('(')`. -/
def byte (c : Char) : Fin 256 := ⟨c.toNat % 256, Nat.mod_lt _ (by decide)⟩

/-- The function `strconv.Itoa`: the decimal text of an integer. -/
def Itoa (n : Int) : String := toString n

/-! ## The statement assembler: the list of parts built by `Query.Build` -/

/-- The loop `for i, v := range vs { if i != 0 { parts = append(parts, sep) };
parts = append(parts, v) }`, from index `i` on. -/
def rangeSep (sep : builder) : Nat → List Part → List builder → List builder
  | _, [], parts => parts
  | i, v :: vs, parts =>
    let parts := if i ≠ 0 then parts ++ [sep] else parts
    rangeSep sep (i + 1) vs (parts ++ [builder.ofPart v])

/-- The loop `for _, v := range q.joinParts { parts = append(parts, partByte(' '), v) }`. -/
def rangeJoin : List Part → List builder → List builder
  | [], parts => parts
  | v :: vs, parts => rangeJoin vs (parts ++ [builder.partByte (byte ' '), builder.ofPart v])

/-- The local variable `parts` of `Query.Build` when it reaches `parts.Build()`. -/
def Query.Build.parts (q : Query) : List builder :=
  let parts : List builder := []
  let parts :=
    if q.withParts.length > 0 then
      let parts := parts ++ [builder.partString "WITH "]
      let parts := rangeSep (builder.partString ", ") 0 q.withParts parts
      parts ++ [builder.partByte (byte ' ')]
    else parts
  let parts := parts ++ [builder.partString "SELECT "]
  let parts := rangeSep (builder.partString ", ") 0 q.selectParts parts
  let parts := parts ++ [builder.partString " FROM "]
  let parts := parts ++ [builder.ofPart q.from_]
  let parts := if q.joinParts.length ≠ 0 then rangeJoin q.joinParts parts else parts
  let parts :=
    if q.whereParts.length ≠ 0 then
      let parts := parts ++ [builder.partString " WHERE "]
      rangeSep (builder.partString " AND ") 0 q.whereParts parts
    else parts
  let parts :=
    if q.groupByParts.length ≠ 0 then
      let parts := parts ++ [builder.partString " GROUP BY "]
      rangeSep (builder.partString ", ") 0 q.groupByParts parts
    else parts
  let parts :=
    if q.orderByParts.length ≠ 0 then
      let parts := parts ++ [builder.partString " ORDER BY "]
      rangeSep (builder.partString ", ") 0 q.orderByParts parts
    else parts
  let parts :=
    if q.limit ≠ 0 then parts ++ [builder.partString (" LIMIT " ++ Itoa q.limit)] else parts
  parts

/-! ## Termination measure for `Build` -/

mutual
/-- A size of a fragment that bounds the depth of the calls of `Build`. -/
def builder.weight : builder → Nat
  | .nil => 1
  | .partByte _ => 1
  | .partString _ => 1
  | .partParam _ => 1
  | .parts ps => 3 + weightList ps
  | .ofPart p => 1 + weightPart p
  | .partQuery _ _ => 1
  | .ofQuery q => 1 + weightQuery q
  | .ValueBuilder ps => 4 + weightList ps
/-- The size of a `Part`. -/
def weightPart : PartOf builder → Nat
  | ⟨b⟩ => 1 + b.weight
/-- The size of a `Query`; it pays for the parts the assembler adds. -/
def weightQuery : QueryOf (PartOf builder) → Nat
  | ⟨f, s, j, w, g, o, wi, _⟩ =>
    20 + weightPart f + weightParts s + weightParts j + weightParts w + weightParts g
      + weightParts o + weightParts wi
/-- The size of a list of builders. -/
def weightList : List builder → Nat
  | [] => 0
  | b :: bs => b.weight + weightList bs
/-- The size of a list of parts. -/
def weightParts : List (PartOf builder) → Nat
  | [] => 0
  | p :: ps => 3 + weightPart p + weightParts ps
end

theorem builder_weight_pos (b : builder) : 0 < b.weight := by
  cases b <;> simp [builder.weight]

theorem weightPart_eq (p : Part) : weightPart p = 1 + p.builder.weight := by
  cases p
  simp [weightPart]

theorem weightList_append (a b : List builder) :
    weightList (a ++ b) = weightList a + weightList b := by
  induction a with
  | nil => simp [weightList]
  | cons x xs ih => simp [weightList, ih, Nat.add_assoc]

theorem weightList_rangeSep (sep : builder) (hsep : sep.weight = 1) (vs : List Part) :
    ∀ (i : Nat) (parts : List builder),
      weightList (rangeSep sep i vs parts) ≤ weightList parts + weightParts vs := by
  induction vs with
  | nil => intro i parts; simp [rangeSep, weightParts]
  | cons v vs ih =>
    intro i parts
    have h := ih (i + 1) ((if i ≠ 0 then parts ++ [sep] else parts) ++ [builder.ofPart v])
    simp only [rangeSep, weightParts]
    refine le_trans h ?_
    split <;> simp [weightList_append, weightList, builder.weight, hsep] <;> omega

theorem weightList_rangeJoin (vs : List Part) :
    ∀ parts : List builder,
      weightList (rangeJoin vs parts) ≤ weightList parts + weightParts vs := by
  induction vs with
  | nil => intro parts; simp [rangeJoin, weightParts]
  | cons v vs ih =>
    intro parts
    have h := ih (parts ++ [builder.partByte (byte ' '), builder.ofPart v])
    simp only [rangeJoin, weightParts]
    refine le_trans h ?_
    simp [weightList_append, weightList, builder.weight]
    omega

theorem weightList_rangeSep_le (sep : builder) (hsep : sep.weight = 1) (vs : List Part)
    (i n k : Nat) (parts : List builder)
    (h : weightList parts + (weightParts vs + n) ≤ k) :
    weightList (rangeSep sep i vs parts) + n ≤ k := by
  have := weightList_rangeSep sep hsep vs i parts
  omega

theorem weightList_rangeJoin_le (vs : List Part) (n k : Nat) (parts : List builder)
    (h : weightList parts + (weightParts vs + n) ≤ k) :
    weightList (rangeJoin vs parts) + n ≤ k := by
  have := weightList_rangeJoin vs parts
  omega

theorem weightList_append_le (a b : List builder) (n k : Nat)
    (h : weightList a + (weightList b + n) ≤ k) : weightList (a ++ b) + n ≤ k := by
  rw [weightList_append]
  omega

theorem weightList_ite_le (c : Prop) [Decidable c] (a b : List builder) (n k : Nat)
    (ha : weightList a + n ≤ k) (hb : weightList b + n ≤ k) :
    weightList (if c then a else b) + n ≤ k := by
  split <;> assumption

theorem weightList_Query_parts (q : Query) :
    2 + weightList (Query.Build.parts q) < weightQuery q := by
  obtain ⟨f, s, j, w, g, o, wi, l⟩ := q
  have hc : (builder.partString ", ").weight = 1 := by simp [builder.weight]
  have ha : (builder.partString " AND ").weight = 1 := by simp [builder.weight]
  suffices h : weightList (Query.Build.parts ⟨f, s, j, w, g, o, wi, l⟩) + 3
      ≤ weightQuery ⟨f, s, j, w, g, o, wi, l⟩ by omega
  simp only [Query.Build.parts, weightQuery]
  repeat' first
    | with_reducible apply weightList_ite_le
    | with_reducible apply weightList_append_le
    | with_reducible apply weightList_rangeSep_le _ hc
    | with_reducible apply weightList_rangeSep_le _ ha
    | with_reducible apply weightList_rangeJoin_le
  all_goals simp [weightList, builder.weight, weightPart]
  all_goals omega

/-! ## Rendering: the `Build` methods -/

mutual
/-- The method `Build` called on a `builder` interface value: the dispatch on
the dynamic type, with the bodies of `partByte.Build`, `partString.Build`,
`partParam.Build` and `partQuery.Build`. A call on the nil interface panics. -/
def builder.Build : builder → Built
  | .nil => none
  | .partByte b => some (String.singleton (Char.ofNat b.val), [])
  | .partString t => some (t, [])
  | .partParam v => some ("?", [v])
  | .parts ps => parts.Build ps
  | .ofPart p => Part.Build p
  | .partQuery s params => some (s, params)
  | .ofQuery q => Query.Build q
  | .ValueBuilder ps => ValueBuilder.Build ps
termination_by b => b.weight
decreasing_by
  all_goals simp_wf
  all_goals simp only [builder.weight]
  all_goals omega
/-- The loop of `parts.Build`, with the string builder `sb` and the slice `vs`. -/
def parts.Build.range : List builder → String → List Any → Built
  | [], sb, vs => some (sb, vs)
  | p :: ps, sb, vs =>
    match p.Build with
    | none => none
    | some (s, v) => parts.Build.range ps (sb ++ s) (vs ++ v)
termination_by ps => 1 + weightList ps
decreasing_by
  all_goals simp_wf
  all_goals simp only [weightList]
  · omega
  · have := builder_weight_pos p
    omega
/-- The method `parts.Build`. -/
def parts.Build (ps : List builder) : Built :=
  parts.Build.range ps "" []
termination_by 2 + weightList ps
decreasing_by
  all_goals simp_wf
/-- The method `Part.Build`. -/
def Part.Build (p : Part) : Built :=
  p.builder.Build
termination_by weightPart p
decreasing_by
  all_goals simp_wf
  rw [weightPart_eq]
  omega
/-- The method `ValueBuilder.Build`. -/
def ValueBuilder.Build (vb : List builder) : Built :=
  parts.Build vb
termination_by 3 + weightList vb
decreasing_by
  all_goals simp_wf
/-- The method `Query.Build`. -/
def Query.Build (q : Query) : Built :=
  parts.Build (Query.Build.parts q)
termination_by weightQuery q
decreasing_by
  all_goals simp_wf
  exact weightList_Query_parts q
end

/-! ## Fragments: `part.go` -/

/-- The method `Part.append`, on the elements of the slices: the result holds
the elements of the receiver's slice and the new ones when the receiver holds a
`parts`, and the receiver and the new ones otherwise. This is what the result
holds when the call returns. That `append` writes the new elements into the
backing array of the receiver when its capacity allows, and what this does to
other fragments on that array, is `Mem.Part.append`; the two render the same
where the call writes no cell that is read on its operands
(`Part_append_agrees`). -/
def Part.append (p : Part) (vs : List builder) : Part :=
  match p.builder with
  | .parts ps => ⟨.parts (ps ++ vs)⟩
  | _ => ⟨.parts ([builder.ofPart p] ++ vs)⟩

def Part.IsZero (p : Part) : Bool :=
  match p.builder with
  | .nil => true
  | _ => false

def Part.As (p : Part) (v : String) : Part :=
  p.append [.partString (" AS " ++ v)]

def Part.Eq (p v : Part) : Part :=
  p.append [.partString " = ", .ofPart v]

def Part.Ne (p v : Part) : Part :=
  p.append [.partString " != ", .ofPart v]

def Part.Lt (p v : Part) : Part :=
  p.append [.partString " < ", .ofPart v]

def Part.Lte (p v : Part) : Part :=
  p.append [.partString " <= ", .ofPart v]

def Part.Gt (p v : Part) : Part :=
  p.append [.partString " > ", .ofPart v]

def Part.Gte (p v : Part) : Part :=
  p.append [.partString " >= ", .ofPart v]

/-- The loop of `Part.In` over the candidates, from index `i` on. -/
def Part.In.range : Nat → List Part → Part → Part
  | _, [], p => p
  | i, v :: vs, p =>
    let p := if i ≠ 0 then p.append [.partString ", "] else p
    Part.In.range (i + 1) vs (p.append [.ofPart v])

def Part.In (p : Part) (vs : List Part) : Part :=
  if vs.length = 0 then
    p.append [.partString " IN (NULL)"]
  else
    let p := p.append [.partString " IN ("]
    let p := Part.In.range 0 vs p
    p.append [.partByte (byte ')')]

def Part.NotIn (p : Part) (vs : List Part) : Part :=
  (p.append [.partString " NOT"]).In vs

def Part.Add (p v : Part) : Part :=
  p.append [.partString " + ", .ofPart v]

def Part.Sub (p v : Part) : Part :=
  p.append [.partString " - ", .ofPart v]

def Part.Is (p v : Part) : Part :=
  p.append [.partString " IS ", .ofPart v]

def Part.IsNot (p v : Part) : Part :=
  p.append [.partString " IS NOT ", .ofPart v]

def Part.And (p v : Part) : Part :=
  p.append [.partString " AND ", .ofPart v]

def And (l r : Part) : Part :=
  ⟨.parts [.ofPart l, .partString " AND ", .ofPart r]⟩

def Part.Or (p v : Part) : Part :=
  p.append [.partString " OR ", .ofPart v]

def Or (l r : Part) : Part :=
  ⟨.parts [.ofPart l, .partString " OR ", .ofPart r]⟩

def Part.Xor (p v : Part) : Part :=
  p.append [.partString " XOR ", .ofPart v]

def Xor (l r : Part) : Part :=
  ⟨.parts [.ofPart l, .partString " XOR ", .ofPart r]⟩

def Cond (v : Part) : Part :=
  ⟨.parts [.partByte (byte '('), .ofPart v, .partByte (byte ')')]⟩

def Count (v : Part) : Part :=
  ⟨.parts [.partString "COUNT(", .ofPart v, .partByte (byte ')')]⟩

def cAll : Part := ⟨.partString "*"⟩

def All : Part := cAll

def cNull : Part := ⟨.partString "NULL"⟩

def Null : Part := cNull

def cTrue : Part := ⟨.partString "TRUE"⟩

def cFalse : Part := ⟨.partString "FALSE"⟩

def True : Part := cTrue

def False : Part := cFalse

def ValueString (v : String) : Part :=
  ⟨.partString ("'" ++ v ++ "'")⟩

def ValueInt (v : Int) : Part :=
  ⟨.partString (Itoa v)⟩

/-- The function `ValueTime`. `Format` stands for the method `time.Time.Format`
of the standard library, which takes the layout. -/
def ValueTime (Format : Time → String → String) (v : Time) : Part :=
  ⟨.partString ("'" ++ Format v "2006-01-02 15:04:05" ++ "'")⟩

def ValueBool (v : Bool) : Part :=
  if v then True else False

/-- The function `Value`: the type switch on the runtime type of `v`; `none` is
the panic of the default case. Each case wraps the typed result in a `Part`. -/
def Value (Format : Time → String → String) (v : Any) : Option Part :=
  match v with
  | .string t => some ⟨.ofPart (ValueString t)⟩
  | .int t => some ⟨.ofPart (ValueInt t)⟩
  | .time t => some ⟨.ofPart (ValueTime Format t)⟩
  | .bool t => some ⟨.ofPart (ValueBool t)⟩
  | _ => none

def Table (name : String) : Part :=
  ⟨.partString name⟩

def Field (field : String) : Part :=
  ⟨.partString field⟩

def FieldNp (np : String) (field : String) : Part :=
  ⟨.parts [.partString np, .partByte (byte '.'), .partString field]⟩

def Alias (name : String) : Part :=
  ⟨.partString name⟩

def ParamBool (v : Bool) : Part :=
  ⟨.partParam (.bool v)⟩

def ParamInt (v : Int) : Part :=
  ⟨.partParam (.int v)⟩

def ParamString (v : String) : Part :=
  ⟨.partParam (.string v)⟩

def Param (v : Any) : Part :=
  ⟨.partParam v⟩

/-- The function `ParamBools`: one placeholder per value, in order. -/
def ParamBools : List Bool → List Part
  | [] => []
  | v :: vs => ParamBool v :: ParamBools vs

/-- The function `ParamInts`: one placeholder per value, in order. -/
def ParamInts : List Int → List Part
  | [] => []
  | v :: vs => ParamInt v :: ParamInts vs

/-- The function `ParamStrings`: one placeholder per value, in order. -/
def ParamStrings : List String → List Part
  | [] => []
  | v :: vs => ParamString v :: ParamStrings vs

/-- The function `Params`: one placeholder per value, in order. -/
def Params : List Any → List Part
  | [] => []
  | v :: vs => Param v :: Params vs

/-- The method `time.Time.Unix`: the seconds since the epoch. -/
def Time.Unix (t : Time) : Int := t.sec

/-- The zero value `time.Time{}`: January 1 of year 1, 00:00:00 UTC. -/
def Time.zero : Time := ⟨-62135596800, 0⟩

/-- The instant `t` is the epoch or earlier. -/
def Time.atOrBeforeEpoch (t : Time) : Bool :=
  decide (t.sec < 0) || (t.sec == 0 && t.nsec == 0)

/-- The function `DateOverlaps`. `now₁` and `now₂` are what `time.Now()` returns
at its first and at its second call site. -/
def DateOverlaps (startA endA : Part) (startB endB : Time) (now₁ now₂ : Time) : Part :=
  let startB := if startB.Unix ≤ 0 then now₁ else startB
  let endB := if endB.Unix ≤ 0 then now₂ else endB
  Cond (Or
    (Or (startA.Is Null) (endA.Is Null))
    (And ((Param (.time startB)).Lte endA) ((Param (.time endB)).Gte startA)))

/-! ## Statements: `query.go` -/

def NewQueryFrom (table : Part) : Query :=
  { from_ := table, selectParts := [], joinParts := [], whereParts := [], groupByParts := [],
    orderByParts := [], withParts := [], limit := 0 }

/-- The function `NewQuery`: the zero `Query`, whose `from` holds the nil builder. -/
def NewQuery : Query :=
  { from_ := ⟨.nil⟩, selectParts := [], joinParts := [], whereParts := [], groupByParts := [],
    orderByParts := [], withParts := [], limit := 0 }

def Query.From (q : Query) (table : Part) : Query :=
  { q with from_ := table }

def Query.Select (q : Query) (v : List Part) : Query :=
  { q with selectParts := q.selectParts ++ v }

def Query.LeftJoin (q : Query) (table cond : Part) : Query :=
  { q with joinParts := q.joinParts ++
      [⟨.parts [.partString "LEFT JOIN ", .ofPart table, .partString " ON ", .ofPart cond]⟩] }

def Query.InnerJoin (q : Query) (table cond : Part) : Query :=
  { q with joinParts := q.joinParts ++
      [⟨.parts [.partString "INNER JOIN ", .ofPart table, .partString " ON ", .ofPart cond]⟩] }

def Query.Where (q : Query) (v : List Part) : Query :=
  { q with whereParts := q.whereParts ++ v }

def Query.GroupBy (q : Query) (v : List Part) : Query :=
  { q with groupByParts := q.groupByParts ++ v }

abbrev OrderDirection := Int

def OrderDirectionAsc : OrderDirection := 0

def OrderDirectionDesc : OrderDirection := 1

def Query.OrderBy (q : Query) (v : Part) (dir : OrderDirection) : Query :=
  if dir = OrderDirectionAsc then
    { q with orderByParts := q.orderByParts ++ [⟨.parts [.ofPart v, .partString " ASC"]⟩] }
  else if dir = OrderDirectionDesc then
    { q with orderByParts := q.orderByParts ++ [⟨.parts [.ofPart v, .partString " DESC"]⟩] }
  else q

def Query.Limit (q : Query) (limit : Int) : Query :=
  { q with limit := limit }

def Query.With (q : Query) (part name : Part) : Query :=
  { q with withParts := q.withParts ++
      [⟨.parts [.ofPart name, .partString " AS (", part.builder, .partByte (byte ')')]⟩] }

def Query.WithRecursive (q : Query) (part : Part) (name : String) : Query :=
  { q with withParts := q.withParts ++
      [⟨.parts [.partString ("RECURSIVE " ++ name ++ " AS ("), part.builder,
        .partByte (byte ')')]⟩] }

def Union (lhs rhs : Query) : Part :=
  ⟨.parts [.partByte (byte '('), .ofQuery lhs, .partByte (byte ')'), .partString " UNION ",
    .partByte (byte '('), .ofQuery rhs, .partByte (byte ')')]⟩

/-- The method `Query.Part`; `none` when `q.Build()` panics. -/
def Query.Part (q : Query) : Option Part :=
  match Query.Build q with
  | none => none
  | some (s, ps) => some ⟨.parts [.partByte (byte '('), .partQuery s ps, .partByte (byte ')')]⟩

/-- The function `Exists`; `none` when `query.Part()` panics. -/
def Exists (query : Query) : Option Part :=
  match query.Part with
  | none => none
  | some p => some ⟨.parts [.partString "EXISTS", .ofPart p]⟩

/-! ## Fragment trees -/

mutual
/-- The leaves of a fragment, left to right: what is left when sequences and
`Part` wrappers are flattened. -/
def builder.leaves : builder → List builder
  | .parts ps => leavesList ps
  | .ofPart p => leavesPart p
  | .ValueBuilder ps => leavesList ps
  | .nil => [.nil]
  | .partByte b => [.partByte b]
  | .partString t => [.partString t]
  | .partParam v => [.partParam v]
  | .partQuery s params => [.partQuery s params]
  | .ofQuery q => [.ofQuery q]
/-- The leaves of a `Part`. -/
def leavesPart : PartOf builder → List builder
  | ⟨b⟩ => b.leaves
/-- The leaves of a list of builders. -/
def leavesList : List builder → List builder
  | [] => []
  | b :: bs => b.leaves ++ leavesList bs
end

mutual
/-- The number of placeholder nodes of a fragment. -/
def builder.countPlaceholders : builder → Nat
  | .parts ps => countPlaceholdersList ps
  | .ofPart p => countPlaceholdersPart p
  | .ValueBuilder ps => countPlaceholdersList ps
  | .partParam _ => 1
  | .nil => 0
  | .partByte _ => 0
  | .partString _ => 0
  | .partQuery _ _ => 0
  | .ofQuery _ => 0
/-- The number of placeholder nodes of a `Part`. -/
def countPlaceholdersPart : PartOf builder → Nat
  | ⟨b⟩ => b.countPlaceholders
/-- The number of placeholder nodes of a list of builders. -/
def countPlaceholdersList : List builder → Nat
  | [] => 0
  | b :: bs => b.countPlaceholders + countPlaceholdersList bs
end

/-- A leaf is a byte literal, a text literal or a placeholder. -/
def isLeaf : builder → Bool
  | .partByte _ => true
  | .partString _ => true
  | .partParam _ => true
  | _ => false

/-- A fragment tree: byte literals, text literals and placeholders under
sequences (and the `Part` structs that hold them). -/
def builder.isTree (b : builder) : Bool := b.leaves.all isLeaf

/-- The text of a leaf. -/
def leafText : builder → String
  | .partByte b => String.singleton (Char.ofNat b.val)
  | .partString t => t
  | .partParam _ => "?"
  | _ => ""

/-- The value of a placeholder leaf. -/
def placeholderValue : builder → Option Any
  | .partParam v => some v
  | _ => none

mutual
/-- The pieces that `Build` renders on a fragment, left to right: byte literals,
text literals, placeholders, pre-rendered statements and nil values. Sequences
and `Part` structs are opened, and so is a statement held as a builder, into
the pieces of the parts that its `Query.Build` assembles. -/
def builder.flat : builder → List builder
  | .parts ps => flatList ps
  | .ofPart p => p.builder.flat
  | .ValueBuilder ps => flatList ps
  | .ofQuery q => flatList (Query.Build.parts q)
  | .nil => [.nil]
  | .partByte b => [.partByte b]
  | .partString t => [.partString t]
  | .partParam v => [.partParam v]
  | .partQuery s params => [.partQuery s params]
termination_by b => b.weight
decreasing_by
  all_goals simp_wf
  all_goals simp only [builder.weight]
  · omega
  · rw [weightPart_eq]
    omega
  · omega
  · have := weightList_Query_parts q
    omega
/-- The pieces of a list of builders. -/
def flatList : List builder → List builder
  | [] => []
  | b :: bs => b.flat ++ flatList bs
termination_by bs => 1 + weightList bs
decreasing_by
  all_goals simp_wf
  all_goals simp only [weightList]
  · omega
  · have := builder_weight_pos b
    omega
end

/-- The characters of a pre-rendered text, each `?` with the next of the
parameters that come with the text. -/
def pairMarks : List Char → List Any → List (Char × Option Any)
  | [], _ => []
  | c :: cs, [] => (c, none) :: pairMarks cs []
  | c :: cs, v :: vs =>
    if c = '?' then (c, some v) :: pairMarks cs vs else (c, none) :: pairMarks cs (v :: vs)

/-- The characters a piece renders, each with the parameter value bound at it,
if one is. -/
def leafMarks : builder → List (Char × Option Any)
  | .partByte b => [(Char.ofNat b.val, none)]
  | .partString t => t.toList.map (fun c => (c, none))
  | .partParam v => [('?', some v)]
  | .partQuery s params => pairMarks s.toList params
  | _ => []

/-- The characters a fragment renders, left to right, each with the parameter
value bound at it, if one is. -/
def builder.marks (b : builder) : List (Char × Option Any) :=
  b.flat.flatMap leafMarks

/-- A piece is a placeholder, a byte or text literal without the character `?`,
or a pre-rendered statement with as many parameters as its text has `?`. -/
def leafPlain : builder → Bool
  | .partByte b => Char.ofNat b.val != '?'
  | .partString t => t.toList.all (fun c => c != '?')
  | .partParam _ => true
  | .partQuery s params => s.toList.count '?' == params.length
  | _ => false

/-- A fragment that holds no nil value and in which no byte or text literal
holds the character `?`, the fragments of the statements it holds included. -/
def builder.plain (b : builder) : Bool := b.flat.all leafPlain

/-- A statement whose from fragment and clause fragments are plain. -/
def Query.plain (q : Query) : Bool :=
  (builder.ofPart q.from_).plain
    && q.withParts.all (fun p => (builder.ofPart p).plain)
    && q.selectParts.all (fun p => (builder.ofPart p).plain)
    && q.joinParts.all (fun p => (builder.ofPart p).plain)
    && q.whereParts.all (fun p => (builder.ofPart p).plain)
    && q.groupByParts.all (fun p => (builder.ofPart p).plain)
    && q.orderByParts.all (fun p => (builder.ofPart p).plain)

/-- The rendering `r` has as many `?` as parameters, and its `?` are, in order,
the marks bound to its parameters. -/
def Built.matchesMarks (r : Built) (ms : List (Char × Option Any)) : Prop :=
  ∃ (s : String) (v : List Any), r = some (s, v)
    ∧ s.toList.count '?' = v.length
    ∧ s.toList = ms.map Prod.fst
    ∧ (ms.filter (fun m => m.1 == '?')).map Prod.snd = v.map some

/-! ## Slices with backing arrays

The fragments of `part.go` once more, with Go's slices as they are: a slice is a
window `(array, len, cap)` on a backing array in memory, `append` writes in
place when the capacity allows and allocates otherwise. -/

namespace Mem

/-- A slice header: the backing array, the length and the capacity. -/
structure Slice where
  array : Nat
  len : Nat
  cap : Nat
  deriving DecidableEq, Repr

/-- The interface `builder`, with a `parts` value and a `ValueBuilder` value held
as slice headers. A `*Query` is held by the statement it points to. -/
inductive builder where
  | nil
  | partByte (b : Fin 256)
  | partString (t : String)
  | partParam (v : Any)
  | parts (s : Slice)
  | ofPart (p : PartOf builder)
  | partQuery (s : String) (params : List Any)
  | ofQuery (q : QueryOf (PartOf builder))
  | ValueBuilder (s : Slice)

abbrev Part := PartOf builder

abbrev Query := QueryOf Part

/-- The memory: the backing arrays, in the order of their allocation. -/
abbrev Memory := List (List builder)

/-- The cells of a backing array. -/
def cells (m : Memory) (array : Nat) : List builder :=
  m.getD array []

/-- The elements of a slice. -/
def elems (m : Memory) (s : Slice) : List builder :=
  (cells m s.array).take s.len

/-- The built-in `make(parts, 0, cap)`: a new backing array of `cap` zero cells. -/
def make (cap : Nat) (m : Memory) : Slice × Memory :=
  (⟨m.length, 0, cap⟩, m ++ [List.replicate cap .nil])

/-- The composite literal `parts{...}`: a new backing array holding the elements. -/
def literal (vs : List builder) (m : Memory) : Slice × Memory :=
  (⟨m.length, vs.length, vs.length⟩, m ++ [vs])

/-- The built-in `append(s, vs...)`. It writes into the backing array of `s`
when `len(s) + len(vs) <= cap(s)`; otherwise it allocates an array of capacity
`grow cap(s) (len(s) + len(vs))` (at least the new length) and copies the
elements of `s`. -/
def sliceAppend (grow : Nat → Nat → Nat) (s : Slice) (vs : List builder) (m : Memory) :
    Slice × Memory :=
  let n := s.len + vs.length
  if n ≤ s.cap then
    let old := cells m s.array
    (⟨s.array, n, s.cap⟩, m.set s.array (old.take s.len ++ vs ++ old.drop n))
  else
    let newcap := max (grow s.cap n) n
    (⟨m.length, n, newcap⟩, m ++ [elems m s ++ vs ++ List.replicate (newcap - n) .nil])

/-- The growth of `append` in the Go runtime for a slice of fewer than 256
elements: the capacity doubles, or becomes the new length when that is larger.
(The runtime then rounds the size up to an allocation class; for the 16-byte
elements of `parts` this changes no capacity up to 16.) -/
def growslice (cap n : Nat) : Nat :=
  if cap + cap < n then n else cap + cap

/-- The loop `for i, v := range vs { if i != 0 { parts = append(parts, sep) };
parts = append(parts, v) }` of `Query.Build`, from index `i` on. The local slice
is `ps` and `app` is `append` on it. -/
def Query.Build.rangeSep {σ : Type} (app : σ → List builder → σ) (sep : builder) :
    Nat → List Part → σ → σ
  | _, [], ps => ps
  | i, v :: vs, ps =>
    let ps := if i ≠ 0 then app ps [sep] else ps
    Query.Build.rangeSep app sep (i + 1) vs (app ps [.ofPart v])

/-- The loop `for _, v := range q.joinParts { parts = append(parts, partByte(' '), v) }`. -/
def Query.Build.rangeJoin {σ : Type} (app : σ → List builder → σ) : List Part → σ → σ
  | [], ps => ps
  | v :: vs, ps => Query.Build.rangeJoin app vs (app ps [.partByte (byte ' '), .ofPart v])

/-- The body of `Query.Build` up to the call `parts.Build()`: what becomes of
the local slice `ps`, with `app` for `append` on it. -/
def Query.Build.fill {σ : Type} (app : σ → List builder → σ) (q : Query) (ps : σ) : σ :=
  let ps :=
    if q.withParts.length > 0 then
      let ps := app ps [.partString "WITH "]
      let ps := Query.Build.rangeSep app (.partString ", ") 0 q.withParts ps
      app ps [.partByte (byte ' ')]
    else ps
  let ps := app ps [.partString "SELECT "]
  let ps := Query.Build.rangeSep app (.partString ", ") 0 q.selectParts ps
  let ps := app ps [.partString " FROM "]
  let ps := app ps [.ofPart q.from_]
  let ps := if q.joinParts.length ≠ 0 then Query.Build.rangeJoin app q.joinParts ps else ps
  let ps :=
    if q.whereParts.length ≠ 0 then
      let ps := app ps [.partString " WHERE "]
      Query.Build.rangeSep app (.partString " AND ") 0 q.whereParts ps
    else ps
  let ps :=
    if q.groupByParts.length ≠ 0 then
      let ps := app ps [.partString " GROUP BY "]
      Query.Build.rangeSep app (.partString ", ") 0 q.groupByParts ps
    else ps
  let ps :=
    if q.orderByParts.length ≠ 0 then
      let ps := app ps [.partString " ORDER BY "]
      Query.Build.rangeSep app (.partString ", ") 0 q.orderByParts ps
    else ps
  let ps :=
    if q.limit ≠ 0 then app ps [.partString (" LIMIT " ++ Itoa q.limit)] else ps
  ps

/-- The elements of the local slice of `Query.Build` when it reaches
`parts.Build()`. -/
def Query.Build.parts (q : Query) : List builder :=
  Query.Build.fill (fun ps vs => ps ++ vs) q []

/-- The loop of `parts.Build` over the elements `ps`, with `build` the method
`Build` of an element. -/
def parts.Build.range (build : builder → Built) (ps : List builder) : Built :=
  ps.foldl
    (fun acc p =>
      match acc, build p with
      | some (sb, vs), some (s, v) => some (sb ++ s, vs ++ v)
      | _, _ => none)
    (some ("", []))

/-- The method `Build` on a `builder` in memory `m`. The recursion is bounded by
`fuel`; `none` is a panic or the end of the fuel. A `*Query` renders the
elements that its `Query.Build` assembles. -/
def builder.Build (m : Memory) : Nat → builder → Built
  | 0, _ => none
  | _ + 1, .nil => none
  | _ + 1, .partByte b => some (String.singleton (Char.ofNat b.val), [])
  | _ + 1, .partString t => some (t, [])
  | _ + 1, .partParam v => some ("?", [v])
  | fuel + 1, .parts s => parts.Build.range (builder.Build m fuel) (elems m s)
  | fuel + 1, .ofPart p => builder.Build m fuel p.builder
  | _ + 1, .partQuery s params => some (s, params)
  | fuel + 1, .ofQuery q => parts.Build.range (builder.Build m fuel) (Query.Build.parts q)
  | fuel + 1, .ValueBuilder s => parts.Build.range (builder.Build m fuel) (elems m s)

/-- The method `Part.Build`. -/
def Part.Build (m : Memory) (fuel : Nat) (p : Part) : Built :=
  builder.Build m fuel p.builder

/-- The method `Query.Build` as it runs: the local slice starts as `parts{}`,
of length 0 and capacity 0; every `append` on it goes through memory, and
`parts.Build()` reads it back. -/
def Query.Build (grow : Nat → Nat → Nat) (q : Query) (fuel : Nat) (m : Memory) :
    Built × Memory :=
  let st : Slice × Memory :=
    Query.Build.fill (fun st vs => sliceAppend grow st.1 vs st.2) q (⟨0, 0, 0⟩, m)
  (builder.Build st.2 fuel (.parts st.1), st.2)

/-- The slice lies within its backing array: its length is at most its
capacity, and the array has that many cells. -/
def Slice.Valid (m : Memory) (s : Slice) : Prop :=
  s.len ≤ s.cap ∧ s.cap ≤ (cells m s.array).length

/-- The slices that `Build` reads: `Reads m b s` when rendering `b` in memory
`m` ranges over the slice `s`, in `b` itself or in a fragment below it. -/
inductive Reads (m : Memory) : builder → Slice → Prop
  | parts (s : Slice) : Reads m (.parts s) s
  | partsElem {s : Slice} {e : builder} {t : Slice} :
    e ∈ elems m s → Reads m e t → Reads m (.parts s) t
  | ofPart {p : Part} {t : Slice} : Reads m p.builder t → Reads m (.ofPart p) t
  | ofQuery {q : Query} {e : builder} {t : Slice} :
    e ∈ Query.Build.parts q → Reads m e t → Reads m (.ofQuery q) t
  | valueBuilder (s : Slice) : Reads m (.ValueBuilder s) s
  | valueBuilderElem {s : Slice} {e : builder} {t : Slice} :
    e ∈ elems m s → Reads m e t → Reads m (.ValueBuilder s) t

/-- Every backing array of `m` is in `m'` as it was. -/
def Extends (m m' : Memory) : Prop :=
  m.length ≤ m'.length ∧ ∀ a, a < m.length → cells m' a = cells m a

/-- The local slice of `Query.Build` and the memory, against the list of the
elements appended so far: the slice holds the list, its backing array is not one
of `m`, and the backing arrays of `m` are as they were. -/
def Local (m : Memory) (l : List builder) (st : Slice × Memory) : Prop :=
  st.1.Valid st.2 ∧ elems st.2 st.1 = l ∧ (st.1.cap = 0 ∨ m.length ≤ st.1.array) ∧
    Extends m st.2

/-- With enough fuel `b` renders `r` in memory `m`. -/
def Renders (m : Memory) (b : builder) (r : String × List Any) : Prop :=
  ∃ f, ∀ F, f ≤ F → builder.Build m F b = some r

/-- With enough fuel the elements `bs` render `r` in memory `m`, one after the
other. -/
def RendersAll (m : Memory) (bs : List builder) (r : String × List Any) : Prop :=
  ∃ f, ∀ F, f ≤ F → parts.Build.range (builder.Build m F) bs = some r

/-- Every slice that `Build` reads on `b` lies within its backing array. -/
def builder.Sound (m : Memory) (b : builder) : Prop :=
  ∀ t, Reads m b t → t.Valid m

/-- The fragment `b` renders `r` with enough fuel, and every slice read on it
lies within its backing array. -/
def Live (m : Memory) (b : builder) (r : String × List Any) : Prop :=
  Renders m b r ∧ builder.Sound m b

/-- The elements that `Part.append` starts from: those of the slice of `p`, or
`p` alone. -/
def Part.base (m : Memory) (p : Part) : List builder :=
  match p.builder with
  | .parts s => elems m s
  | _ => [.ofPart p]

/-- An `append` of `n` elements to `p` writes no cell that `Build` reads on `b`:
when `p` holds a slice with room for `n` more elements, no slice read on `b`
reaches beyond the length of that slice on its backing array. -/
def Part.Unshared (m : Memory) (p : Part) (n : Nat) (b : builder) : Prop :=
  ∀ s, p.builder = .parts s → s.len + n ≤ s.cap →
    ∀ t, Reads m b t → t.array = s.array → t.len ≤ s.len

/-- The method `Part.append`. -/
def Part.append (grow : Nat → Nat → Nat) (p : Part) (vs : List builder) (m : Memory) :
    Part × Memory :=
  match p.builder with
  | .parts ps =>
    let (s, m) := sliceAppend grow ps vs m
    (⟨.parts s⟩, m)
  | _ =>
    let (s, m) := literal [.ofPart p] m
    let (s, m) := sliceAppend grow s vs m
    (⟨.parts s⟩, m)

def Field (field : String) : Part :=
  ⟨.partString field⟩

def cNull : Part := ⟨.partString "NULL"⟩

def Null : Part := cNull

def Param (v : Any) : Part :=
  ⟨.partParam v⟩

/-- The method `Part.As`. -/
def Part.As (grow : Nat → Nat → Nat) (p : Part) (v : String) (m : Memory) : Part × Memory :=
  Part.append grow p [.partString (" AS " ++ v)] m

/-- The method `Part.Eq`. -/
def Part.Eq (grow : Nat → Nat → Nat) (p v : Part) (m : Memory) : Part × Memory :=
  Part.append grow p [.partString " = ", .ofPart v] m

/-- The method `Part.Ne`. -/
def Part.Ne (grow : Nat → Nat → Nat) (p v : Part) (m : Memory) : Part × Memory :=
  Part.append grow p [.partString " != ", .ofPart v] m

/-- The method `Part.Lt`. -/
def Part.Lt (grow : Nat → Nat → Nat) (p v : Part) (m : Memory) : Part × Memory :=
  Part.append grow p [.partString " < ", .ofPart v] m

/-- The method `Part.Lte`. -/
def Part.Lte (grow : Nat → Nat → Nat) (p v : Part) (m : Memory) : Part × Memory :=
  Part.append grow p [.partString " <= ", .ofPart v] m

/-- The method `Part.Gt`. -/
def Part.Gt (grow : Nat → Nat → Nat) (p v : Part) (m : Memory) : Part × Memory :=
  Part.append grow p [.partString " > ", .ofPart v] m

/-- The method `Part.Gte`. -/
def Part.Gte (grow : Nat → Nat → Nat) (p v : Part) (m : Memory) : Part × Memory :=
  Part.append grow p [.partString " >= ", .ofPart v] m

/-- The method `Part.Add`. -/
def Part.Add (grow : Nat → Nat → Nat) (p v : Part) (m : Memory) : Part × Memory :=
  Part.append grow p [.partString " + ", .ofPart v] m

/-- The method `Part.Sub`. -/
def Part.Sub (grow : Nat → Nat → Nat) (p v : Part) (m : Memory) : Part × Memory :=
  Part.append grow p [.partString " - ", .ofPart v] m

/-- The method `Part.Is`. -/
def Part.Is (grow : Nat → Nat → Nat) (p v : Part) (m : Memory) : Part × Memory :=
  Part.append grow p [.partString " IS ", .ofPart v] m

/-- The method `Part.IsNot`. -/
def Part.IsNot (grow : Nat → Nat → Nat) (p v : Part) (m : Memory) : Part × Memory :=
  Part.append grow p [.partString " IS NOT ", .ofPart v] m

/-- The method `Part.And`. -/
def Part.And (grow : Nat → Nat → Nat) (p v : Part) (m : Memory) : Part × Memory :=
  Part.append grow p [.partString " AND ", .ofPart v] m

/-- The function `And`. -/
def And (l r : Part) (m : Memory) : Part × Memory :=
  let (s, m) := literal [.ofPart l, .partString " AND ", .ofPart r] m
  (⟨.parts s⟩, m)

/-- The method `Part.Or`. -/
def Part.Or (grow : Nat → Nat → Nat) (p v : Part) (m : Memory) : Part × Memory :=
  Part.append grow p [.partString " OR ", .ofPart v] m

/-- The function `Or`. -/
def Or (l r : Part) (m : Memory) : Part × Memory :=
  let (s, m) := literal [.ofPart l, .partString " OR ", .ofPart r] m
  (⟨.parts s⟩, m)

/-- The method `Part.Xor`. -/
def Part.Xor (grow : Nat → Nat → Nat) (p v : Part) (m : Memory) : Part × Memory :=
  Part.append grow p [.partString " XOR ", .ofPart v] m

/-- The function `Xor`. -/
def Xor (l r : Part) (m : Memory) : Part × Memory :=
  let (s, m) := literal [.ofPart l, .partString " XOR ", .ofPart r] m
  (⟨.parts s⟩, m)

/-- The function `Cond`. -/
def Cond (v : Part) (m : Memory) : Part × Memory :=
  let (s, m) := literal [.partByte (byte '('), .ofPart v, .partByte (byte ')')] m
  (⟨.parts s⟩, m)

/-- The loop of `Part.In` over the candidates, from index `i` on. -/
def Part.In.range (grow : Nat → Nat → Nat) : Nat → List Part → Part → Memory → Part × Memory
  | _, [], p, m => (p, m)
  | i, v :: vs, p, m =>
    let (p, m) := if i ≠ 0 then Part.append grow p [.partString ", "] m else (p, m)
    let (p, m) := Part.append grow p [.ofPart v] m
    Part.In.range grow (i + 1) vs p m

/-- The method `Part.In`. -/
def Part.In (grow : Nat → Nat → Nat) (p : Part) (vs : List Part) (m : Memory) :
    Part × Memory :=
  if vs.length = 0 then
    Part.append grow p [.partString " IN (NULL)"] m
  else
    let (p, m) := Part.append grow p [.partString " IN ("] m
    let (p, m) := Part.In.range grow 0 vs p m
    Part.append grow p [.partByte (byte ')')] m

/-- The method `Part.NotIn`. -/
def Part.NotIn (grow : Nat → Nat → Nat) (p : Part) (vs : List Part) (m : Memory) :
    Part × Memory :=
  let (p, m) := Part.append grow p [.partString " NOT"] m
  Part.In grow p vs m

/-- The function `DateOverlaps`; `now₁` and `now₂` are what the two calls of
`time.Now()` return. The calls run in the order in which Go evaluates them. -/
def DateOverlaps (grow : Nat → Nat → Nat) (startA endA : Part) (startB endB : Time)
    (now₁ now₂ : Time) (m : Memory) : Part × Memory :=
  let startB := if startB.Unix ≤ 0 then now₁ else startB
  let endB := if endB.Unix ≤ 0 then now₂ else endB
  let (x1, m) := Part.Is grow startA Null m
  let (x2, m) := Part.Is grow endA Null m
  let (o1, m) := Or x1 x2 m
  let (y1, m) := Part.Lte grow (Param (.time startB)) endA m
  let (y2, m) := Part.Gte grow (Param (.time endB)) startA m
  let (a1, m) := And y1 y2 m
  let (o2, m) := Or o1 a1 m
  Cond o2 m

/-- The loop of `List` over its arguments, from index `i` on. -/
def List.range (grow : Nat → Nat → Nat) :
    Nat → List Part → Slice → Memory → Slice × Memory
  | _, [], p, m => (p, m)
  | i, v :: vs, p, m =>
    let (p, m) := if i ≠ 0 then sliceAppend grow p [.partString ", "] m else (p, m)
    let (p, m) := sliceAppend grow p [.ofPart v] m
    List.range grow (i + 1) vs p m

/-- The function `List`. -/
def List (grow : Nat → Nat → Nat) (vs : List Part) (m : Memory) : Part × Memory :=
  let (p, m) := make (vs.length <<< 1) m
  let (p, m) := List.range grow 0 vs p m
  (⟨.parts p⟩, m)

/-- What a run leaves: the fragments `p`, `d1`, `d2`, the memory when `d1` has
been made and the memory when `d2` has been made. -/
structure Run where
  p : Part
  d1 : Part
  d2 : Part
  afterD1 : Memory
  afterD2 : Memory

/-- The run `p := List(Field("a"), Field("b")); d1 := p.As(x); d2 := p.As(y)`
from the empty memory. -/
def asTwice (grow : Nat → Nat → Nat) (x y : String) : Run :=
  let (p, m) := List grow [Field "a", Field "b"] []
  let (d1, m1) := Part.As grow p x m
  let (d2, m2) := Part.As grow p y m1
  { p := p, d1 := d1, d2 := d2, afterD1 := m1, afterD2 := m2 }

/-- The run `l := Field("a").Eq(Field("b")).And(Field("c")).And(Field("d"));
r := l.As("x")` from the empty memory, with the growth of the Go runtime: the
slice of `l` has length 7 and capacity 12, and `r` is a window of length 8 on
the same backing array. -/
def chain : Part × Part × Memory :=
  let (l, m) := Part.Eq growslice (Field "a") (Field "b") []
  let (l, m) := Part.And growslice l (Field "c") m
  let (l, m) := Part.And growslice l (Field "d") m
  let (r, m) := Part.As growslice l "x" m
  (l, r, m)

/-- What the two forms of an operator render. -/
structure Forms where
  free : Built
  method : Built

/-- The run `f := And(l, r); f.Build(); g := l.And(r); g.Build()` after `chain`. -/
def andForms : Forms :=
  let (l, r, m) := chain
  let (f, m) := And l r m
  let free := Part.Build m 8 f
  let (g, m) := Part.And growslice l r m
  { free := free, method := Part.Build m 8 g }

/-- The run `f := Or(l, r); f.Build(); g := l.Or(r); g.Build()` after `chain`. -/
def orForms : Forms :=
  let (l, r, m) := chain
  let (f, m) := Or l r m
  let free := Part.Build m 8 f
  let (g, m) := Part.Or growslice l r m
  { free := free, method := Part.Build m 8 g }

/-- The run `f := Xor(l, r); f.Build(); g := l.Xor(r); g.Build()` after `chain`. -/
def xorForms : Forms :=
  let (l, r, m) := chain
  let (f, m) := Xor l r m
  let free := Part.Build m 8 f
  let (g, m) := Part.Xor growslice l r m
  { free := free, method := Part.Build m 8 g }

/-- What the operands of a call render before the call, and what its result
renders. -/
structure Call where
  left : Built
  right : Built
  result : Built

/-- The run `p.Build(); v.Build(); e := p.op(v); e.Build()` after `chain`, with
`p` its `l`, `v` its `r` and `op` an operator method. -/
def opShared (op : (Nat → Nat → Nat) → Part → Part → Memory → Part × Memory) : Call :=
  let (p, v, m) := chain
  let left := Part.Build m 8 p
  let right := Part.Build m 8 v
  let (e, m) := op growslice p v m
  { left := left, right := right, result := Part.Build m 8 e }

/-- The run `p := List(Field("a"), Field("b")); v := p.As("x"); p.Build();
v.Build(); e := p.In([]Part{v}); e.Build()` from the empty memory. -/
def inShared (grow : Nat → Nat → Nat) : Call :=
  let (p, m) := List grow [Field "a", Field "b"] []
  let (v, m) := Part.As grow p "x" m
  let left := Part.Build m 8 p
  let right := Part.Build m 8 v
  let (e, m) := Part.In grow p [v] m
  { left := left, right := right, result := Part.Build m 8 e }

/-- The run `p := List(Field("a"), Field("b")); v := p.As("x"); p.Build();
v.Build(); e := p.NotIn([]Part{v}); e.Build()` from the empty memory. -/
def notInShared (grow : Nat → Nat → Nat) : Call :=
  let (p, m) := List grow [Field "a", Field "b"] []
  let (v, m) := Part.As grow p "x" m
  let left := Part.Build m 8 p
  let right := Part.Build m 8 v
  let (e, m) := Part.NotIn grow p [v] m
  { left := left, right := right, result := Part.Build m 8 e }

/-- The statement `SELECT * FROM t WHERE l LIMIT 1`, with `l` the fragment of
`chain`. -/
def chainQuery : Query :=
  ⟨Field "t", [⟨.partString "*"⟩], [], [chain.1], [], [], [], 1⟩

end Mem

/-- The statement of the test `TestQuery_BuildQuery`. -/
def testQuery : Query :=
  (((((((((((((NewQueryFrom ((Table "table_name").As "tb")).Select
    [(Field "field_name_1").As "field_alias_1"]).Select
    [Count All, Field "field_name_3"]).InnerJoin (Table "table_name_2")
      ((Field "table_name.id").Eq (Field "table_name_2.eid"))).InnerJoin (Table "table_name_3")
      ((Field "table_name_2.id").Eq (Field "table_name_3.eid"))).Where
    [(Field "field_name_1").Eq (ValueInt 123)]).Where
    [(Field "field_name_2").Eq (ValueString "string"), (Field "field_name_3").Is cTrue]).Where
    [(Alias "field_alias_1").In (Params [Any.int 123, Any.int 456]),
      (Alias "field_alias_1").Lt (ParamInt 789)]).GroupBy
    [Field "field_name_1"]).GroupBy
    [Field "field_name_2", Field "field_name_3"]).OrderBy
    (Field "field_name_1") OrderDirectionAsc).OrderBy
    (Field "field_name_2") OrderDirectionDesc).Limit 1)

/-- The statement `SELECT * FROM t WHERE a = ?`. -/
def innerQuery : Query :=
  ((NewQueryFrom (Table "t")).Select [All]).Where [(Field "a").Eq (ParamInt 1)]

/-- A statement that holds the union of two statements as the body of a `WITH`
entry. -/
def outerQuery : Query :=
  (((NewQueryFrom (Table "c")).Select [All]).With (Union innerQuery innerQuery) (Table "c")).Where
    [(Field "b").Eq (ParamInt 2)]

/-! ## Observations on renderings -/

/-- Concatenation of two renderings; a panic on either side is a panic. -/
def Built.cat (a b : Built) : Built :=
  match a, b with
  | some r, some t => some (r.1 ++ t.1, r.2 ++ t.2)
  | _, _ => none

/-- The rendering of the empty text with no parameters. -/
def Built.empty : Built := some ("", [])

/-- The text a fragment renders (the empty text when `Build` panics). -/
def Part.text (p : Part) : String :=
  match Part.Build p with
  | some r => r.1
  | none => ""

/-- The parameters a fragment renders (none when `Build` panics). -/
def Part.params (p : Part) : List Any :=
  match Part.Build p with
  | some r => r.2
  | none => []

/-! ## Rendering lemmas -/

theorem Built_cat_some (s t : String) (v w : List Any) :
    Built.cat (some (s, v)) (some (t, w)) = some (s ++ t, v ++ w) := rfl

theorem Built_cat_none_left (b : Built) : Built.cat none b = none := rfl

theorem Built_cat_none_right (a : Built) : Built.cat a none = none := by
  cases a <;> rfl

theorem Built_empty_cat (a : Built) : Built.cat Built.empty a = a := by
  cases a <;> simp [Built.cat, Built.empty]

theorem Built_cat_empty (a : Built) : Built.cat a Built.empty = a := by
  cases a <;> simp [Built.cat, Built.empty]

theorem Built_cat_assoc (a b c : Built) :
    Built.cat (Built.cat a b) c = Built.cat a (Built.cat b c) := by
  cases a <;> cases b <;> cases c <;> simp [Built.cat, String.append_assoc]

theorem builder_Build_nil : builder.nil.Build = none := by
  rw [builder.Build]

theorem builder_Build_partByte (b : Fin 256) :
    (builder.partByte b).Build = some (String.singleton (Char.ofNat b.val), []) := by
  rw [builder.Build]

theorem builder_Build_partString (t : String) :
    (builder.partString t).Build = some (t, []) := by
  rw [builder.Build]

theorem builder_Build_partParam (v : Any) :
    (builder.partParam v).Build = some ("?", [v]) := by
  rw [builder.Build]

theorem builder_Build_partQuery (s : String) (params : List Any) :
    (builder.partQuery s params).Build = some (s, params) := by
  rw [builder.Build]

theorem builder_Build_parts (ps : List builder) :
    (builder.parts ps).Build = parts.Build ps := by
  rw [builder.Build]

theorem builder_Build_ofPart (p : Part) : (builder.ofPart p).Build = Part.Build p := by
  rw [builder.Build]

theorem builder_Build_ofQuery (q : Query) : (builder.ofQuery q).Build = Query.Build q := by
  rw [builder.Build]

theorem builder_Build_ValueBuilder (ps : List builder) :
    (builder.ValueBuilder ps).Build = parts.Build ps := by
  rw [builder.Build, ValueBuilder.Build]

theorem Part_Build_eq (p : Part) : Part.Build p = p.builder.Build := by
  rw [Part.Build]

theorem Part_Build_mk (b : builder) : Part.Build ⟨b⟩ = b.Build := by
  rw [Part.Build]

theorem Query_Build_eq (q : Query) : Query.Build q = parts.Build (Query.Build.parts q) := by
  rw [Query.Build]

theorem parts_Build_range_eq (ps : List builder) :
    ∀ (sb : String) (vs : List Any),
      parts.Build.range ps sb vs = Built.cat (some (sb, vs)) (parts.Build.range ps "" []) := by
  induction ps with
  | nil => intro sb vs; simp [parts.Build.range, Built.cat]
  | cons p ps ih =>
    intro sb vs
    rw [parts.Build.range, parts.Build.range]
    cases h : p.Build with
    | none => simp [Built.cat]
    | some r =>
      obtain ⟨s, v⟩ := r
      simp only []
      rw [ih (sb ++ s) (vs ++ v), ih ("" ++ s) ([] ++ v)]
      cases parts.Build.range ps "" [] <;> simp [Built.cat, String.append_assoc]

theorem parts_Build_nil : parts.Build [] = Built.empty := by
  rw [parts.Build, parts.Build.range]
  rfl

theorem parts_Build_cons (p : builder) (ps : List builder) :
    parts.Build (p :: ps) = Built.cat p.Build (parts.Build ps) := by
  rw [parts.Build, parts.Build, parts.Build.range]
  cases h : p.Build with
  | none => simp [Built.cat]
  | some r =>
    obtain ⟨s, v⟩ := r
    simp only []
    rw [parts_Build_range_eq]
    simp

theorem parts_Build_append (a b : List builder) :
    parts.Build (a ++ b) = Built.cat (parts.Build a) (parts.Build b) := by
  induction a with
  | nil => simp [parts_Build_nil, Built_empty_cat]
  | cons p ps ih => simp [parts_Build_cons, ih, Built_cat_assoc]

theorem parts_Build_singleton (p : builder) : parts.Build [p] = p.Build := by
  rw [parts_Build_cons, parts_Build_nil, Built_cat_empty]

theorem Part_Build_append (p : Part) (vs : List builder) :
    Part.Build (p.append vs) = Built.cat (Part.Build p) (parts.Build vs) := by
  obtain ⟨b⟩ := p
  cases b <;>
    simp [Part.append, Part_Build_mk, builder_Build_parts, parts_Build_append, parts_Build_cons,
      builder_Build_ofPart]

theorem Part_Build_some (p : Part) (h : Part.Build p ≠ none) :
    Part.Build p = some (p.text, p.params) := by
  unfold Part.text Part.params
  cases hb : Part.Build p with
  | none => exact absurd hb h
  | some r => rfl

theorem Part_text_of_Build (p : Part) (s : String) (v : List Any)
    (h : Part.Build p = some (s, v)) : p.text = s := by
  simp [Part.text, h]

theorem Part_params_of_Build (p : Part) (s : String) (v : List Any)
    (h : Part.Build p = some (s, v)) : p.params = v := by
  simp [Part.params, h]

/-! ## Texts: joins and cancellation -/

theorem String_append_left_cancel (a b c : String) (h : a ++ b = a ++ c) : b = c := by
  have hd := congrArg String.data h
  simp only [String.data_append, List.append_cancel_left_eq] at hd
  exact String.ext hd

theorem String_join_acc (l : List String) :
    ∀ acc : String, List.foldl (fun r s => r ++ s) acc l = acc ++ String.join l := by
  induction l with
  | nil => intro acc; simp [String.join]
  | cons a l ih =>
    intro acc
    rw [String.join, List.foldl_cons, List.foldl_cons, ih, ih ("" ++ a)]
    simp [String.append_assoc]

theorem String_join_nil : String.join [] = "" := rfl

theorem String_join_cons (a : String) (l : List String) :
    String.join (a :: l) = a ++ String.join l := by
  rw [String.join, List.foldl_cons, String_join_acc]
  simp

theorem String_intercalate_go (sep : String) (l : List String) :
    ∀ acc : String,
      String.intercalate.go acc sep l = acc ++ String.join (l.map (fun t => sep ++ t)) := by
  induction l with
  | nil => intro acc; simp [String.intercalate.go, String_join_nil]
  | cons a l ih =>
    intro acc
    rw [String.intercalate.go, ih, List.map_cons, String_join_cons]
    simp [String.append_assoc]

theorem String_intercalate_cons (sep a : String) (l : List String) :
    sep.intercalate (a :: l) = a ++ String.join (l.map (fun t => sep ++ t)) := by
  rw [String.intercalate, String_intercalate_go]

/-! ## Separated lists of fragments -/

theorem rangeSep_acc (sep : builder) (vs : List Part) :
    ∀ (i : Nat) (parts : List builder),
      rangeSep sep i vs parts = parts ++ rangeSep sep i vs [] := by
  induction vs with
  | nil => intro i parts; simp [rangeSep]
  | cons v vs ih =>
    intro i parts
    rw [rangeSep, rangeSep, ih (i + 1), ih (i + 1) ((if i ≠ 0 then [] ++ [sep] else []) ++ _)]
    split <;> simp

theorem rangeSep_succ_Build (sep : String) (vs : List Part)
    (hvs : ∀ v ∈ vs, Part.Build v ≠ none) :
    ∀ i : Nat, i ≠ 0 →
      parts.Build (rangeSep (builder.partString sep) i vs [])
        = some (String.join (vs.map (fun v => sep ++ v.text)),
            (vs.map Part.params).flatten) := by
  induction vs with
  | nil => intro i _; simp [rangeSep, parts_Build_nil, Built.empty, String_join_nil]
  | cons v vs ih =>
    intro i hi
    have hv := Part_Build_some v (hvs v (List.mem_cons_self _ _))
    have hrest := ih (fun w hw => hvs w (List.mem_cons_of_mem _ hw)) (i + 1) (Nat.succ_ne_zero i)
    rw [rangeSep, rangeSep_acc, parts_Build_append, hrest]
    simp [hi, parts_Build_cons, parts_Build_nil, builder_Build_partString, builder_Build_ofPart,
      hv, Built.cat, Built.empty, String_join_cons, String.append_assoc]

theorem rangeSep_zero_Build (sep : String) (vs : List Part)
    (hvs : ∀ v ∈ vs, Part.Build v ≠ none) :
    parts.Build (rangeSep (builder.partString sep) 0 vs [])
      = some (sep.intercalate (vs.map Part.text), (vs.map Part.params).flatten) := by
  cases vs with
  | nil => simp [rangeSep, parts_Build_nil, Built.empty, String.intercalate]
  | cons v vs =>
    have hv := Part_Build_some v (hvs v (List.mem_cons_self _ _))
    have hrest := rangeSep_succ_Build sep vs (fun w hw => hvs w (List.mem_cons_of_mem _ hw)) 1
      (by decide)
    rw [rangeSep, rangeSep_acc, parts_Build_append, hrest]
    simp [parts_Build_cons, parts_Build_nil, builder_Build_ofPart, hv, Built.cat, Built.empty,
      String_intercalate_cons, List.map_map, Function.comp_def]

theorem Part_In_range_Build (vs : List Part) :
    ∀ (i : Nat) (p : Part),
      Part.Build (Part.In.range i vs p)
        = Built.cat (Part.Build p) (parts.Build (rangeSep (builder.partString ", ") i vs [])) := by
  induction vs with
  | nil => intro i p; simp [Part.In.range, rangeSep, parts_Build_nil, Built_cat_empty]
  | cons v vs ih =>
    intro i p
    rw [Part.In.range, ih, rangeSep,
      rangeSep_acc _ vs (i + 1) ((if i ≠ 0 then [] ++ [builder.partString ", "] else []) ++ _),
      parts_Build_append]
    split <;>
      simp [Part_Build_append, parts_Build_cons, parts_Build_nil, Built_cat_empty,
        Built_cat_assoc, Built_empty_cat]

/-- The rendering of what `In` appends after its receiver. -/
theorem Part_In_Build (p : Part) (vs : List Part) :
    Part.Build (p.In vs)
      = Built.cat (Part.Build p)
          (if vs.length = 0 then some (" IN (NULL)", [])
           else Built.cat (some (" IN (", []))
             (Built.cat (parts.Build (rangeSep (builder.partString ", ") 0 vs []))
               (some (")", [])))) := by
  unfold Part.In
  split
  · simp [Part_Build_append, parts_Build_singleton, builder_Build_partString]
  · have hb : String.singleton (Char.ofNat (byte ')').val) = ")" := by decide
    simp [Part_Build_append, Part_In_range_Build, parts_Build_singleton,
      builder_Build_partString, builder_Build_partByte, Built_cat_assoc, hb]

/-! ## The statement assembler -/

theorem rangeJoin_acc (vs : List Part) :
    ∀ parts : List builder, rangeJoin vs parts = parts ++ rangeJoin vs [] := by
  induction vs with
  | nil => intro parts; simp [rangeJoin]
  | cons v vs ih =>
    intro parts
    rw [rangeJoin, rangeJoin, ih, ih ([] ++ _)]
    simp

theorem rangeJoin_Build (vs : List Part) (hvs : ∀ v ∈ vs, Part.Build v ≠ none) :
    parts.Build (rangeJoin vs [])
      = some (String.join (vs.map (fun v => " " ++ v.text)), (vs.map Part.params).flatten) := by
  induction vs with
  | nil => simp [rangeJoin, parts_Build_nil, Built.empty, String_join_nil]
  | cons v vs ih =>
    have hv := Part_Build_some v (hvs v (List.mem_cons_self _ _))
    have hrest := ih (fun w hw => hvs w (List.mem_cons_of_mem _ hw))
    have hb : String.singleton (Char.ofNat (byte ' ').val) = " " := by decide
    rw [rangeJoin, rangeJoin_acc, parts_Build_append, hrest]
    simp [parts_Build_cons, parts_Build_nil, builder_Build_partByte, builder_Build_ofPart,
      hv, hb, Built.cat, Built.empty, String_join_cons, String.append_assoc]

theorem clause_Build (acc : List builder) (hdr sep : String) (vs : List Part) :
    parts.Build (if vs.length ≠ 0 then
        rangeSep (builder.partString sep) 0 vs (acc ++ [builder.partString hdr]) else acc)
      = Built.cat (parts.Build acc)
          (if vs.length ≠ 0 then Built.cat (some (hdr, []))
            (parts.Build (rangeSep (builder.partString sep) 0 vs [])) else Built.empty) := by
  split
  · rw [rangeSep_acc, parts_Build_append, parts_Build_append, parts_Build_singleton,
      builder_Build_partString, Built_cat_assoc]
  · rw [Built_cat_empty]

theorem clause_some (hdr sep : String) (vs : List Part)
    (hvs : ∀ v ∈ vs, Part.Build v ≠ none) :
    (if vs.length ≠ 0 then Built.cat (some (hdr, []))
        (parts.Build (rangeSep (builder.partString sep) 0 vs [])) else Built.empty)
      = some (if vs.isEmpty then "" else hdr ++ sep.intercalate (vs.map Part.text),
          (vs.map Part.params).flatten) := by
  cases vs with
  | nil => simp [Built.empty]
  | cons v vs =>
    rw [rangeSep_zero_Build sep _ hvs]
    simp [Built.cat]

theorem Query_Build_parts_Build (q : Query) :
    parts.Build (Query.Build.parts q)
      = Built.cat
          (if q.withParts.length > 0 then Built.cat (some ("WITH ", []))
            (Built.cat (parts.Build (rangeSep (builder.partString ", ") 0 q.withParts []))
              (some (" ", []))) else Built.empty)
        (Built.cat (some ("SELECT ", []))
        (Built.cat (parts.Build (rangeSep (builder.partString ", ") 0 q.selectParts []))
        (Built.cat (some (" FROM ", []))
        (Built.cat (Part.Build q.from_)
        (Built.cat (parts.Build (rangeJoin q.joinParts []))
        (Built.cat (if q.whereParts.length ≠ 0 then Built.cat (some (" WHERE ", []))
            (parts.Build (rangeSep (builder.partString " AND ") 0 q.whereParts []))
            else Built.empty)
        (Built.cat (if q.groupByParts.length ≠ 0 then Built.cat (some (" GROUP BY ", []))
            (parts.Build (rangeSep (builder.partString ", ") 0 q.groupByParts []))
            else Built.empty)
        (Built.cat (if q.orderByParts.length ≠ 0 then Built.cat (some (" ORDER BY ", []))
            (parts.Build (rangeSep (builder.partString ", ") 0 q.orderByParts []))
            else Built.empty)
          (if q.limit ≠ 0 then some (" LIMIT " ++ Itoa q.limit, []) else Built.empty))))))))) := by
  have hlimit : ∀ (acc : List builder) (x : builder) (c : Prop) [Decidable c],
      parts.Build (if c then acc ++ [x] else acc)
        = Built.cat (parts.Build acc) (if c then x.Build else Built.empty) := by
    intro acc x c _
    split
    · rw [parts_Build_append, parts_Build_singleton]
    · rw [Built_cat_empty]
  have hjoin : ∀ (acc : List builder) (vs : List Part),
      parts.Build (if vs.length ≠ 0 then rangeJoin vs acc else acc)
        = Built.cat (parts.Build acc) (parts.Build (rangeJoin vs [])) := by
    intro acc vs
    split
    · rw [rangeJoin_acc, parts_Build_append]
    · have : vs = [] := by
        cases vs with
        | nil => rfl
        | cons v vs => simp at *
      subst this
      simp [rangeJoin, parts_Build_nil, Built_cat_empty]
  have hwith : ∀ (vs : List Part),
      parts.Build (if vs.length > 0 then
          rangeSep (builder.partString ", ") 0 vs ([] ++ [builder.partString "WITH "])
            ++ [builder.partByte (byte ' ')] else [])
        = (if vs.length > 0 then Built.cat (some ("WITH ", []))
            (Built.cat (parts.Build (rangeSep (builder.partString ", ") 0 vs []))
              (some (" ", []))) else Built.empty) := by
    intro vs
    have hb : String.singleton (Char.ofNat (byte ' ').val) = " " := by decide
    split
    · rw [rangeSep_acc, parts_Build_append, parts_Build_append, parts_Build_singleton,
        List.nil_append, parts_Build_singleton, builder_Build_partString,
        builder_Build_partByte, hb, Built_cat_assoc]
    · exact parts_Build_nil
  unfold Query.Build.parts
  simp only []
  rw [hlimit, clause_Build, clause_Build, clause_Build, hjoin, parts_Build_append,
    parts_Build_append, rangeSep_acc, parts_Build_append, parts_Build_append, hwith]
  simp only [parts_Build_singleton, builder_Build_partString, builder_Build_ofPart,
    Built_cat_assoc]


theorem Query_Build_some (q : Query)
    (hf : Part.Build q.from_ ≠ none)
    (hW : ∀ p ∈ q.withParts, Part.Build p ≠ none)
    (hS : ∀ p ∈ q.selectParts, Part.Build p ≠ none)
    (hJ : ∀ p ∈ q.joinParts, Part.Build p ≠ none)
    (hP : ∀ p ∈ q.whereParts, Part.Build p ≠ none)
    (hG : ∀ p ∈ q.groupByParts, Part.Build p ≠ none)
    (hO : ∀ p ∈ q.orderByParts, Part.Build p ≠ none) :
    Query.Build q = some (
      (if q.withParts.isEmpty then ""
        else "WITH " ++ ", ".intercalate (q.withParts.map Part.text) ++ " ")
      ++ "SELECT " ++ ", ".intercalate (q.selectParts.map Part.text)
      ++ " FROM " ++ q.from_.text
      ++ String.join (q.joinParts.map (fun j => " " ++ j.text))
      ++ (if q.whereParts.isEmpty then ""
        else " WHERE " ++ " AND ".intercalate (q.whereParts.map Part.text))
      ++ (if q.groupByParts.isEmpty then ""
        else " GROUP BY " ++ ", ".intercalate (q.groupByParts.map Part.text))
      ++ (if q.orderByParts.isEmpty then ""
        else " ORDER BY " ++ ", ".intercalate (q.orderByParts.map Part.text))
      ++ (if q.limit = 0 then "" else " LIMIT " ++ Itoa q.limit),
      (q.withParts.map Part.params).flatten ++ (q.selectParts.map Part.params).flatten
      ++ q.from_.params ++ (q.joinParts.map Part.params).flatten
      ++ (q.whereParts.map Part.params).flatten ++ (q.groupByParts.map Part.params).flatten
      ++ (q.orderByParts.map Part.params).flatten) := by
  have hwith : (if q.withParts.length > 0 then Built.cat (some ("WITH ", []))
            (Built.cat (parts.Build (rangeSep (builder.partString ", ") 0 q.withParts []))
              (some (" ", []))) else Built.empty)
      = some (if q.withParts.isEmpty then ""
          else "WITH " ++ ", ".intercalate (q.withParts.map Part.text) ++ " ",
          (q.withParts.map Part.params).flatten) := by
    rw [rangeSep_zero_Build ", " _ hW]
    cases q.withParts <;> simp [Built.cat, Built.empty, String.append_assoc]
  have hlim : (if q.limit ≠ 0 then (some (" LIMIT " ++ Itoa q.limit, []) : Built)
        else Built.empty)
      = some (if q.limit = 0 then "" else " LIMIT " ++ Itoa q.limit, []) := by
    by_cases h : q.limit = 0 <;> simp [h, Built.empty]
  rw [Query_Build_eq, Query_Build_parts_Build, hwith, hlim, clause_some _ _ _ hP,
    clause_some _ _ _ hG, clause_some _ _ _ hO, rangeSep_zero_Build ", " _ hS,
    rangeJoin_Build _ hJ, Part_Build_some _ hf]
  simp [Built.cat, String.append_assoc]

theorem Part_Build_ne_none (p : Part) (r : String × List Any) (h : Part.Build p = some r) :
    Part.Build p ≠ none := by
  simp [h]

theorem partByte_Build_open : (builder.partByte (byte '(')).Build = some ("(", []) := by
  rw [builder_Build_partByte]
  decide

theorem partByte_Build_close : (builder.partByte (byte ')')).Build = some (")", []) := by
  rw [builder_Build_partByte]
  decide

theorem partByte_Build_space : (builder.partByte (byte ' ')).Build = some (" ", []) := by
  rw [builder_Build_partByte]
  decide

theorem renders_of_map_Build (ps : List Part) :
    ∀ rs : List (String × List Any), ps.map Part.Build = rs.map some →
      (∀ p ∈ ps, Part.Build p ≠ none) ∧ ps.map Part.text = rs.map Prod.fst
        ∧ ps.map Part.params = rs.map Prod.snd := by
  induction ps with
  | nil => intro rs h; cases rs <;> simp_all
  | cons p ps ih =>
    intro rs h
    cases rs with
    | nil => simp at h
    | cons r rs =>
      simp only [List.map_cons, List.cons.injEq] at h
      obtain ⟨h1, h2, h3⟩ := ih rs h.2
      refine ⟨?_, ?_, ?_⟩
      · intro x hx
        rcases List.mem_cons.mp hx with rfl | hx
        · simp [h.1]
        · exact h1 x hx
      · simp [h2, Part.text, h.1]
      · simp [h3, Part.params, h.1]

theorem testQuery_parts_Build :
    (testQuery.withParts.map Part.Build = [].map some)
    ∧ (testQuery.selectParts.map Part.Build
        = [("field_name_1 AS field_alias_1", []), ("COUNT(*)", []),
            ("field_name_3", [])].map some)
    ∧ (Part.Build testQuery.from_ = some ("table_name AS tb", []))
    ∧ (testQuery.joinParts.map Part.Build
        = [("INNER JOIN table_name_2 ON table_name.id = table_name_2.eid", []),
            ("INNER JOIN table_name_3 ON table_name_2.id = table_name_3.eid", [])].map some)
    ∧ (testQuery.whereParts.map Part.Build
        = [("field_name_1 = 123", []), ("field_name_2 = 'string'", []),
            ("field_name_3 IS TRUE", []),
            ("field_alias_1 IN (?, ?)", [Any.int 123, Any.int 456]),
            ("field_alias_1 < ?", [Any.int 789])].map some)
    ∧ (testQuery.groupByParts.map Part.Build
        = [("field_name_1", []), ("field_name_2", []), ("field_name_3", [])].map some)
    ∧ (testQuery.orderByParts.map Part.Build
        = [("field_name_1 ASC", []), ("field_name_2 DESC", [])].map some) := by
  have hi : Itoa 123 = "123" := by decide
  refine ⟨rfl, ?_, ?_, ?_, ?_, ?_, ?_⟩ <;>
    simp [testQuery, NewQueryFrom, Query.Select, Query.InnerJoin, Query.Where, Query.GroupBy,
      Query.OrderBy, Query.Limit, OrderDirectionAsc, OrderDirectionDesc, rangeSep,
      parts_Build_cons, parts_Build_nil, builder_Build_partString,
      builder_Build_ofPart, builder_Build_parts, builder_Build_partParam, Part_Build_mk,
      Part_Build_append, Part.As, Part.Eq, Part.Is, Part.Lt, Part_In_Build, Table, Field, Alias,
      Count, All, cAll, ValueInt, ValueString, cTrue, Params, Param, ParamInt, Built.cat,
      Built.empty, hi, partByte_Build_open, partByte_Build_close, partByte_Build_space]

/-- C1: for a statement whose fragments render, `Query.Build` returns the text
`WITH ` + with list joined by `, ` + ` ` (when the with list is non-empty),
`SELECT ` + select list joined by `, `, ` FROM ` + the from text, ` ` + text
for each join in order, ` WHERE ` + predicates joined by ` AND `, ` GROUP BY `
and ` ORDER BY ` + lists joined by `, ` (each when its list is non-empty),
` LIMIT ` + the decimal limit (when the limit is not 0), and the parameters of
the with, select, from, join, where, group-by and order-by fragments in that
order. -/
theorem Query_Build_renders (q : Query)
    (hf : Part.Build q.from_ ≠ none)
    (hW : ∀ p ∈ q.withParts, Part.Build p ≠ none)
    (hS : ∀ p ∈ q.selectParts, Part.Build p ≠ none)
    (hJ : ∀ p ∈ q.joinParts, Part.Build p ≠ none)
    (hP : ∀ p ∈ q.whereParts, Part.Build p ≠ none)
    (hG : ∀ p ∈ q.groupByParts, Part.Build p ≠ none)
    (hO : ∀ p ∈ q.orderByParts, Part.Build p ≠ none) :
    Query.Build q = some (
      (if q.withParts.isEmpty then ""
        else "WITH " ++ ", ".intercalate (q.withParts.map Part.text) ++ " ")
      ++ "SELECT " ++ ", ".intercalate (q.selectParts.map Part.text)
      ++ " FROM " ++ q.from_.text
      ++ String.join (q.joinParts.map (fun j => " " ++ j.text))
      ++ (if q.whereParts.isEmpty then ""
        else " WHERE " ++ " AND ".intercalate (q.whereParts.map Part.text))
      ++ (if q.groupByParts.isEmpty then ""
        else " GROUP BY " ++ ", ".intercalate (q.groupByParts.map Part.text))
      ++ (if q.orderByParts.isEmpty then ""
        else " ORDER BY " ++ ", ".intercalate (q.orderByParts.map Part.text))
      ++ (if q.limit = 0 then "" else " LIMIT " ++ Itoa q.limit),
      (q.withParts.map Part.params).flatten ++ (q.selectParts.map Part.params).flatten
      ++ q.from_.params ++ (q.joinParts.map Part.params).flatten
      ++ (q.whereParts.map Part.params).flatten ++ (q.groupByParts.map Part.params).flatten
      ++ (q.orderByParts.map Part.params).flatten) :=
  Query_Build_some q hf hW hS hJ hP hG hO

set_option maxRecDepth 100000 in
/-- Witness of C1: the statement of the test `TestQuery_BuildQuery`. -/
theorem Query_Build_renders_witness :
    Query.Build testQuery = some ("SELECT field_name_1 AS field_alias_1, COUNT(*), field_name_3 FROM table_name AS tb INNER JOIN table_name_2 ON table_name.id = table_name_2.eid INNER JOIN table_name_3 ON table_name_2.id = table_name_3.eid WHERE field_name_1 = 123 AND field_name_2 = 'string' AND field_name_3 IS TRUE AND field_alias_1 IN (?, ?) AND field_alias_1 < ? GROUP BY field_name_1, field_name_2, field_name_3 ORDER BY field_name_1 ASC, field_name_2 DESC LIMIT 1", [Any.int 123, Any.int 456, Any.int 789]) := by
  obtain ⟨hW, hS, hF, hJ, hP, hG, hO⟩ := testQuery_parts_Build
  obtain ⟨hW1, hW2, hW3⟩ := renders_of_map_Build _ _ hW
  obtain ⟨hS1, hS2, hS3⟩ := renders_of_map_Build _ _ hS
  obtain ⟨hJ1, hJ2, hJ3⟩ := renders_of_map_Build _ _ hJ
  obtain ⟨hP1, hP2, hP3⟩ := renders_of_map_Build _ _ hP
  obtain ⟨hG1, hG2, hG3⟩ := renders_of_map_Build _ _ hG
  obtain ⟨hO1, hO2, hO3⟩ := renders_of_map_Build _ _ hO
  have h := Query_Build_renders testQuery (Part_Build_ne_none _ _ hF) hW1 hS1 hJ1 hP1 hG1 hO1
  have hl : testQuery.limit = 1 := rfl
  have hj : testQuery.joinParts.map (fun j => " " ++ j.text)
      = (testQuery.joinParts.map Part.text).map (fun t => " " ++ t) := by
    simp [List.map_map, Function.comp_def]
  have hWe : testQuery.withParts.isEmpty = true := rfl
  have hPe : testQuery.whereParts.isEmpty = false := rfl
  have hGe : testQuery.groupByParts.isEmpty = false := rfl
  have hOe : testQuery.orderByParts.isEmpty = false := rfl
  rw [h, hj, hW2, hW3, hS2, hS3, hJ2, hJ3, hP2, hP3, hG2, hG3, hO2, hO3, hl, hWe, hPe, hGe, hOe,
    Part_text_of_Build _ _ _ hF, Part_params_of_Build _ _ _ hF]
  decide

/-! ## Clause omission and the missing FROM target -/

theorem mem_rangeSep (sep x : builder) (vs : List Part) :
    ∀ i : Nat, x ∈ rangeSep sep i vs [] → x = sep ∨ ∃ v ∈ vs, x = builder.ofPart v := by
  induction vs with
  | nil => intro i h; simp [rangeSep] at h
  | cons v vs ih =>
    intro i h
    rw [rangeSep, rangeSep_acc] at h
    rcases List.mem_append.mp h with h | h
    · split at h
      · simp at h
        rcases h with h | h
        · exact .inl h
        · exact .inr ⟨v, List.mem_cons_self _ _, h⟩
      · simp at h
        exact .inr ⟨v, List.mem_cons_self _ _, h⟩
    · rcases ih (i + 1) h with h | ⟨w, hw, h⟩
      · exact .inl h
      · exact .inr ⟨w, List.mem_cons_of_mem _ hw, h⟩

theorem mem_rangeJoin (x : builder) (vs : List Part) :
    x ∈ rangeJoin vs [] → x = builder.partByte (byte ' ') ∨ ∃ v ∈ vs, x = builder.ofPart v := by
  induction vs with
  | nil => intro h; simp [rangeJoin] at h
  | cons v vs ih =>
    intro h
    rw [rangeJoin, rangeJoin_acc] at h
    rcases List.mem_append.mp h with h | h
    · simp at h
      rcases h with h | h
      · exact .inl h
      · exact .inr ⟨v, List.mem_cons_self _ _, h⟩
    · rcases ih h with h | ⟨w, hw, h⟩
      · exact .inl h
      · exact .inr ⟨w, List.mem_cons_of_mem _ hw, h⟩

theorem Query_Build_parts_eq (q : Query) :
    Query.Build.parts q
      = (if q.withParts.length > 0 then
          [builder.partString "WITH "] ++ rangeSep (builder.partString ", ") 0 q.withParts []
            ++ [builder.partByte (byte ' ')] else [])
        ++ [builder.partString "SELECT "]
        ++ rangeSep (builder.partString ", ") 0 q.selectParts []
        ++ [builder.partString " FROM ", builder.ofPart q.from_]
        ++ rangeJoin q.joinParts []
        ++ (if q.whereParts.length ≠ 0 then
          [builder.partString " WHERE "]
            ++ rangeSep (builder.partString " AND ") 0 q.whereParts [] else [])
        ++ (if q.groupByParts.length ≠ 0 then
          [builder.partString " GROUP BY "]
            ++ rangeSep (builder.partString ", ") 0 q.groupByParts [] else [])
        ++ (if q.orderByParts.length ≠ 0 then
          [builder.partString " ORDER BY "]
            ++ rangeSep (builder.partString ", ") 0 q.orderByParts [] else [])
        ++ (if q.limit ≠ 0 then [builder.partString (" LIMIT " ++ Itoa q.limit)] else []) := by
  have hclause : ∀ (acc : List builder) (hdr sep : builder) (vs : List Part),
      (if vs.length ≠ 0 then rangeSep sep 0 vs (acc ++ [hdr]) else acc)
        = acc ++ (if vs.length ≠ 0 then [hdr] ++ rangeSep sep 0 vs [] else []) := by
    intro acc hdr sep vs
    split
    · rw [rangeSep_acc]; simp
    · simp
  have hjoin : ∀ (acc : List builder) (vs : List Part),
      (if vs.length ≠ 0 then rangeJoin vs acc else acc) = acc ++ rangeJoin vs [] := by
    intro acc vs
    split
    · rw [rangeJoin_acc]
    · cases vs with
      | nil => simp [rangeJoin]
      | cons v vs => simp at *
  have hlimit : ∀ (acc : List builder) (x : builder) (c : Prop) [Decidable c],
      (if c then acc ++ [x] else acc) = acc ++ (if c then [x] else []) := by
    intro acc x c _
    split <;> simp
  unfold Query.Build.parts
  simp only []
  rw [hlimit, hclause, hclause, hclause, hjoin,
    rangeSep_acc _ q.selectParts, rangeSep_acc _ q.withParts]
  simp only [List.nil_append, List.append_assoc, List.singleton_append, List.cons_append]


theorem length_ne_zero_iff (vs : List Part) : vs.length ≠ 0 ↔ vs ≠ [] := by
  cases vs <;> simp

theorem mem_Query_Build_parts (q : Query) (x : builder) (h : x ∈ Query.Build.parts q) :
    x = builder.partString "WITH " ∨ x = builder.partString ", "
    ∨ x = builder.partByte (byte ' ') ∨ x = builder.partString "SELECT "
    ∨ x = builder.partString " FROM " ∨ (∃ v : Part, x = builder.ofPart v)
    ∨ (x = builder.partString " WHERE " ∧ q.whereParts ≠ [])
    ∨ x = builder.partString " AND "
    ∨ (x = builder.partString " GROUP BY " ∧ q.groupByParts ≠ [])
    ∨ (x = builder.partString " ORDER BY " ∧ q.orderByParts ≠ [])
    ∨ (x = builder.partString (" LIMIT " ++ Itoa q.limit) ∧ q.limit ≠ 0) := by
  rw [Query_Build_parts_eq] at h
  simp only [List.mem_append, List.mem_cons, List.mem_singleton, List.not_mem_nil,
    or_false] at h
  rcases h with ((((((((h | h) | h) | h) | h) | h) | h) | h) | h)
  · split at h
    · simp only [List.mem_append, List.mem_cons, List.mem_singleton, List.not_mem_nil,
        or_false] at h
      rcases h with ((h | h) | h)
      · exact .inl h
      · rcases mem_rangeSep _ _ _ _ h with h | ⟨v, _, h⟩
        · exact .inr (.inl h)
        · exact .inr (.inr (.inr (.inr (.inr (.inl ⟨v, h⟩)))))
      · exact .inr (.inr (.inl h))
    · simp at h
  · exact .inr (.inr (.inr (.inl h)))
  · rcases mem_rangeSep _ _ _ _ h with h | ⟨v, _, h⟩
    · exact .inr (.inl h)
    · exact .inr (.inr (.inr (.inr (.inr (.inl ⟨v, h⟩)))))
  · rcases h with h | h
    · exact .inr (.inr (.inr (.inr (.inl h))))
    · exact .inr (.inr (.inr (.inr (.inr (.inl ⟨_, h⟩)))))
  · rcases mem_rangeJoin _ _ h with h | ⟨v, _, h⟩
    · exact .inr (.inr (.inl h))
    · exact .inr (.inr (.inr (.inr (.inr (.inl ⟨v, h⟩)))))
  · split at h
    · rename_i hc
      simp only [List.mem_append, List.mem_cons, List.mem_singleton, List.not_mem_nil,
        or_false] at h
      rcases h with h | h
      · exact .inr (.inr (.inr (.inr (.inr (.inr (.inl ⟨h, (length_ne_zero_iff _).mp hc⟩))))))
      · rcases mem_rangeSep _ _ _ _ h with h | ⟨v, _, h⟩
        · exact .inr (.inr (.inr (.inr (.inr (.inr (.inr (.inl h)))))))
        · exact .inr (.inr (.inr (.inr (.inr (.inl ⟨v, h⟩)))))
    · simp at h
  · split at h
    · rename_i hc
      simp only [List.mem_append, List.mem_cons, List.mem_singleton, List.not_mem_nil,
        or_false] at h
      rcases h with h | h
      · exact .inr (.inr (.inr (.inr (.inr (.inr (.inr (.inr (.inl
          ⟨h, (length_ne_zero_iff _).mp hc⟩))))))))
      · rcases mem_rangeSep _ _ _ _ h with h | ⟨v, _, h⟩
        · exact .inr (.inl h)
        · exact .inr (.inr (.inr (.inr (.inr (.inl ⟨v, h⟩)))))
    · simp at h
  · split at h
    · rename_i hc
      simp only [List.mem_append, List.mem_cons, List.mem_singleton, List.not_mem_nil,
        or_false] at h
      rcases h with h | h
      · exact .inr (.inr (.inr (.inr (.inr (.inr (.inr (.inr (.inr (.inl
          ⟨h, (length_ne_zero_iff _).mp hc⟩)))))))))
      · rcases mem_rangeSep _ _ _ _ h with h | ⟨v, _, h⟩
        · exact .inr (.inl h)
        · exact .inr (.inr (.inr (.inr (.inr (.inl ⟨v, h⟩)))))
    · simp at h
  · split at h
    · rename_i hc
      simp only [List.mem_singleton] at h
      exact .inr (.inr (.inr (.inr (.inr (.inr (.inr (.inr (.inr (.inr ⟨h, hc⟩)))))))))
    · simp at h

theorem LIMIT_append_ne (t s : String) (hs : s.data.take 2 ≠ [' ', 'L']) :
    " LIMIT " ++ t ≠ s := by
  intro h
  apply hs
  rw [← h, String.data_append]
  rfl


theorem keyword_mem_iff (q : Query) (kw : String) (vs : List Part)
    (hkw : kw.data.take 2 ≠ [' ', 'L'])
    (hmem : vs.length ≠ 0 → builder.partString kw ∈ Query.Build.parts q)
    (hcases : ∀ x, x ∈ Query.Build.parts q → x = builder.partString kw →
      vs ≠ [] ∨ x = builder.partString (" LIMIT " ++ Itoa q.limit)) :
    builder.partString kw ∈ Query.Build.parts q ↔ vs ≠ [] := by
  constructor
  · intro h
    rcases hcases _ h rfl with h | h
    · exact h
    · injection h with h
      exact absurd h.symm (LIMIT_append_ne _ _ hkw)
  · intro h
    exact hmem ((length_ne_zero_iff _).mpr h)

/-- C9: a statement whose with, join, where, group-by and order-by lists are
empty and whose limit is 0 renders `SELECT ` + select list joined by `, ` +
` FROM ` + the from text (its fragments rendering); and in every statement the
assembler adds the part ` WHERE `, ` GROUP BY `, ` ORDER BY ` exactly when the
clause has a fragment, and a part ` LIMIT ...` exactly when the limit is not 0. -/
theorem clause_omission (q : Query) (hf : Part.Build q.from_ ≠ none)
    (hS : ∀ p ∈ q.selectParts, Part.Build p ≠ none) :
    (q.withParts = [] → q.joinParts = [] → q.whereParts = [] → q.groupByParts = [] →
      q.orderByParts = [] → q.limit = 0 →
      Query.Build q
        = some ("SELECT " ++ ", ".intercalate (q.selectParts.map Part.text) ++ " FROM "
            ++ q.from_.text, (q.selectParts.map Part.params).flatten ++ q.from_.params))
    ∧ (builder.partString " WHERE " ∈ Query.Build.parts q ↔ q.whereParts ≠ [])
    ∧ (builder.partString " GROUP BY " ∈ Query.Build.parts q ↔ q.groupByParts ≠ [])
    ∧ (builder.partString " ORDER BY " ∈ Query.Build.parts q ↔ q.orderByParts ≠ [])
    ∧ ((∃ t : String, builder.partString (" LIMIT " ++ t) ∈ Query.Build.parts q)
        ↔ q.limit ≠ 0) := by
  refine ⟨?_, ?_, ?_, ?_, ?_⟩
  · intro hW hJ hP hG hO hL
    rw [Query_Build_some q hf (by simp [hW]) hS (by simp [hJ]) (by simp [hP]) (by simp [hG])
      (by simp [hO])]
    simp [hW, hJ, hP, hG, hO, hL, String_join_nil]
  · apply keyword_mem_iff q " WHERE " q.whereParts (by decide)
    · intro h
      rw [Query_Build_parts_eq, if_pos h]
      simp
    · intro x hx hxe
      subst hxe
      rcases mem_Query_Build_parts q _ hx with
        h | h | h | h | h | ⟨v, h⟩ | ⟨_, h⟩ | h | ⟨h, _⟩ | ⟨h, _⟩ | ⟨h, _⟩
      all_goals first
        | exact .inl h
        | exact .inr h
        | (injection h with h; exact absurd h (by decide))
        | exact absurd h (by simp)
  · apply keyword_mem_iff q " GROUP BY " q.groupByParts (by decide)
    · intro h
      rw [Query_Build_parts_eq, if_pos h]
      simp
    · intro x hx hxe
      subst hxe
      rcases mem_Query_Build_parts q _ hx with
        h | h | h | h | h | ⟨v, h⟩ | ⟨h, _⟩ | h | ⟨_, h⟩ | ⟨h, _⟩ | ⟨h, _⟩
      all_goals first
        | exact .inl h
        | exact .inr h
        | (injection h with h; exact absurd h (by decide))
        | exact absurd h (by simp)
  · apply keyword_mem_iff q " ORDER BY " q.orderByParts (by decide)
    · intro h
      rw [Query_Build_parts_eq, if_pos h]
      simp
    · intro x hx hxe
      subst hxe
      rcases mem_Query_Build_parts q _ hx with
        h | h | h | h | h | ⟨v, h⟩ | ⟨h, _⟩ | h | ⟨h, _⟩ | ⟨_, h⟩ | ⟨h, _⟩
      all_goals first
        | exact .inl h
        | exact .inr h
        | (injection h with h; exact absurd h (by decide))
        | exact absurd h (by simp)
  · constructor
    · rintro ⟨t, ht⟩
      rcases mem_Query_Build_parts q _ ht with
        h | h | h | h | h | ⟨v, h⟩ | ⟨h, _⟩ | h | ⟨h, _⟩ | ⟨h, _⟩ | ⟨_, h⟩
      all_goals first
        | exact h
        | (injection h with h; exact absurd h (LIMIT_append_ne _ _ (by decide)))
        | exact absurd h (by simp)
    · intro h
      refine ⟨Itoa q.limit, ?_⟩
      rw [Query_Build_parts_eq, if_pos h]
      simp

theorem Query_Build_nil_from (q : Query) (h : q.from_.builder = builder.nil) :
    Query.Build q = none := by
  have hf : Part.Build q.from_ = none := by
    rw [Part_Build_eq, h, builder_Build_nil]
  rw [Query_Build_eq, Query_Build_parts_Build, hf]
  simp [Built_cat_none_left, Built_cat_none_right]

/-- Witness of C9: the statement of the test `TestExists`. -/
theorem clause_omission_witness :
    Query.Build ((NewQuery.From (Table "table")).Select [All])
      = some ("SELECT * FROM table", []) := by
  have hT : Part.Build (Table "table") = some ("table", []) := by
    simp [Table, Part_Build_mk, builder_Build_partString]
  have hA : Part.Build All = some ("*", []) := by
    simp [All, cAll, Part_Build_mk, builder_Build_partString]
  have h := (clause_omission ((NewQuery.From (Table "table")).Select [All])
    (Part_Build_ne_none _ _ hT)
    (by
      intro p hp
      have hp : p = All := by simpa [Query.Select, Query.From, NewQuery] using hp
      rw [hp]
      exact Part_Build_ne_none _ _ hA)).1 rfl rfl rfl rfl rfl rfl
  have hs : ((NewQuery.From (Table "table")).Select [All]).selectParts = [All] := rfl
  have hfr : ((NewQuery.From (Table "table")).Select [All]).from_ = Table "table" := rfl
  rw [h, hs, hfr]
  simp only [List.map, Part_text_of_Build _ _ _ hT, Part_params_of_Build _ _ _ hT,
    Part_text_of_Build _ _ _ hA, Part_params_of_Build _ _ _ hA]
  decide

/-- C10: the code at the failing input. A statement made by `NewQuery` on which
`From` was never called holds the nil builder in `from`, and `Query.Build`
panics on it, whatever the other clauses hold: `NewQuery().Select(All()).Build()`
does not return. -/
theorem NewQuery_Build_panics :
    Query.Build (NewQuery.Select [All]) = none
    ∧ ∀ (S J P G O W : List Part) (n : Int),
        Query.Build ⟨NewQuery.from_, S, J, P, G, O, W, n⟩ = none := by
  refine ⟨Query_Build_nil_from _ rfl, ?_⟩
  intro S J P G O W n
  exact Query_Build_nil_from _ rfl

/-! ## Fragment trees -/

mutual
theorem builder_Build_leaves : ∀ b : builder, b.Build = parts.Build b.leaves
  | .parts ps => by rw [builder_Build_parts, builder.leaves, parts_Build_leavesList ps]
  | .ofPart p => by rw [builder_Build_ofPart, builder.leaves, Part_Build_leavesPart p]
  | .ValueBuilder ps => by rw [builder_Build_ValueBuilder, builder.leaves, parts_Build_leavesList ps]
  | .nil => by rw [builder.leaves, parts_Build_singleton]
  | .partByte b => by rw [builder.leaves, parts_Build_singleton]
  | .partString t => by rw [builder.leaves, parts_Build_singleton]
  | .partParam v => by rw [builder.leaves, parts_Build_singleton]
  | .partQuery s params => by rw [builder.leaves, parts_Build_singleton]
  | .ofQuery q => by rw [builder.leaves, parts_Build_singleton]
theorem Part_Build_leavesPart : ∀ p : PartOf builder, Part.Build p = parts.Build (leavesPart p)
  | ⟨b⟩ => by rw [Part_Build_mk, leavesPart, builder_Build_leaves b]
theorem parts_Build_leavesList : ∀ ps : List builder, parts.Build ps = parts.Build (leavesList ps)
  | [] => by rw [leavesList]
  | b :: bs => by
    rw [leavesList, parts_Build_cons, parts_Build_append, builder_Build_leaves b,
      parts_Build_leavesList bs]
end

mutual
theorem builder_countPlaceholders_leaves :
    ∀ b : builder, (b.leaves.filterMap placeholderValue).length = b.countPlaceholders
  | .parts ps => by
    rw [builder.leaves, builder.countPlaceholders, countPlaceholdersList_leaves ps]
  | .ofPart p => by
    rw [builder.leaves, builder.countPlaceholders, countPlaceholdersPart_leaves p]
  | .ValueBuilder ps => by
    rw [builder.leaves, builder.countPlaceholders, countPlaceholdersList_leaves ps]
  | .nil => by simp [builder.leaves, builder.countPlaceholders, placeholderValue]
  | .partByte b => by simp [builder.leaves, builder.countPlaceholders, placeholderValue]
  | .partString t => by simp [builder.leaves, builder.countPlaceholders, placeholderValue]
  | .partParam v => by simp [builder.leaves, builder.countPlaceholders, placeholderValue]
  | .partQuery s params => by
    simp [builder.leaves, builder.countPlaceholders, placeholderValue]
  | .ofQuery q => by simp [builder.leaves, builder.countPlaceholders, placeholderValue]
theorem countPlaceholdersPart_leaves :
    ∀ p : PartOf builder,
      ((leavesPart p).filterMap placeholderValue).length = countPlaceholdersPart p
  | ⟨b⟩ => by rw [leavesPart, countPlaceholdersPart, builder_countPlaceholders_leaves b]
theorem countPlaceholdersList_leaves :
    ∀ ps : List builder,
      ((leavesList ps).filterMap placeholderValue).length = countPlaceholdersList ps
  | [] => by simp [leavesList, countPlaceholdersList]
  | b :: bs => by
    rw [leavesList, countPlaceholdersList, List.filterMap_append, List.length_append,
      builder_countPlaceholders_leaves b, countPlaceholdersList_leaves bs]
end

theorem leaves_Build (ls : List builder) (h : ls.all isLeaf = true) :
    parts.Build ls
      = some (String.join (ls.map leafText), ls.filterMap placeholderValue) := by
  induction ls with
  | nil => simp [parts_Build_nil, Built.empty, String_join_nil]
  | cons l ls ih =>
    rw [List.all_cons, Bool.and_eq_true] at h
    rw [parts_Build_cons, ih h.2, List.map_cons, String_join_cons]
    cases l <;>
      simp_all [isLeaf, leafText, placeholderValue, builder_Build_partByte,
        builder_Build_partString, builder_Build_partParam, Built.cat]

/-- C2: for a fragment tree of byte literals, text literals, placeholders and
sequences, `Build` returns the concatenation of the leaves' texts, left to
right, and the values of the placeholder leaves, left to right; the number of
parameters is the number of placeholder nodes of the tree. -/
theorem fragment_tree_renders (b : builder) (h : b.isTree = true) :
    b.Build = some (String.join (b.leaves.map leafText), b.leaves.filterMap placeholderValue)
    ∧ (b.leaves.filterMap placeholderValue).length = b.countPlaceholders := by
  refine ⟨?_, builder_countPlaceholders_leaves b⟩
  rw [builder_Build_leaves b]
  exact leaves_Build _ h

/-- Witness of C2: `Alias("field_alias_1").In(Params([]interface{}{123, 456}))`. -/
theorem fragment_tree_renders_witness :
    (builder.ofPart ((Alias "field_alias_1").In (Params [Any.int 123, Any.int 456]))).Build
      = some ("field_alias_1 IN (?, ?)", [Any.int 123, Any.int 456])
    ∧ (builder.ofPart ((Alias "field_alias_1").In
        (Params [Any.int 123, Any.int 456]))).countPlaceholders = 2 := by
  have h := fragment_tree_renders
    (builder.ofPart ((Alias "field_alias_1").In (Params [Any.int 123, Any.int 456])))
    (by decide)
  refine ⟨?_, by decide⟩
  rw [h.1]
  decide

/-! ## Placeholders and parameters -/

mutual
theorem builder_Build_flat : ∀ b : builder, b.Build = parts.Build b.flat
  | .parts ps => by rw [builder_Build_parts, builder.flat, parts_Build_flatList ps]
  | .ofPart p => by
    rw [builder_Build_ofPart, builder.flat, Part_Build_eq, builder_Build_flat p.builder]
  | .ValueBuilder ps => by
    rw [builder_Build_ValueBuilder, builder.flat, parts_Build_flatList ps]
  | .ofQuery q => by
    rw [builder_Build_ofQuery, builder.flat, Query_Build_eq,
      parts_Build_flatList (Query.Build.parts q)]
  | .nil => by rw [builder.flat, parts_Build_singleton]
  | .partByte b => by rw [builder.flat, parts_Build_singleton]
  | .partString t => by rw [builder.flat, parts_Build_singleton]
  | .partParam v => by rw [builder.flat, parts_Build_singleton]
  | .partQuery s params => by rw [builder.flat, parts_Build_singleton]
termination_by b => b.weight
decreasing_by
  all_goals simp_wf
  all_goals simp only [builder.weight]
  · omega
  · rw [weightPart_eq]
    omega
  · omega
  · have := weightList_Query_parts q
    omega
theorem parts_Build_flatList : ∀ ps : List builder, parts.Build ps = parts.Build (flatList ps)
  | [] => by rw [flatList]
  | b :: bs => by
    rw [flatList, parts_Build_cons, parts_Build_append, builder_Build_flat b,
      parts_Build_flatList bs]
termination_by ps => 1 + weightList ps
decreasing_by
  all_goals simp_wf
  all_goals simp only [weightList]
  · have := builder_weight_pos b
    omega
  · have := builder_weight_pos b
    omega
end

theorem pairMarks_spec : ∀ (cs : List Char) (vs : List Any), cs.count '?' = vs.length →
    (pairMarks cs vs).map Prod.fst = cs ∧ (pairMarks cs vs).filterMap Prod.snd = vs
    ∧ ∀ m ∈ pairMarks cs vs, (m.1 = '?' ↔ m.2.isSome = true)
  | [], vs, h => by
    have : vs = [] := by
      cases vs with
      | nil => rfl
      | cons v vs => simp at h
    subst this
    simp [pairMarks]
  | c :: cs, [], h => by
    have hc : c ≠ '?' := by
      intro hc
      subst hc
      simp at h
    have h' : cs.count '?' = ([] : List Any).length := by
      rw [List.count_cons_of_ne (Ne.symm hc)] at h
      exact h
    obtain ⟨h1, h2, h3⟩ := pairMarks_spec cs [] h'
    refine ⟨by simp [pairMarks, h1], by simp [pairMarks, h2], ?_⟩
    intro m hm
    simp only [pairMarks, List.mem_cons] at hm
    rcases hm with rfl | hm
    · simp [hc]
    · exact h3 m hm
  | c :: cs, v :: vs, h => by
    by_cases hc : c = '?'
    · subst hc
      have h' : cs.count '?' = vs.length := by
        simp only [List.count_cons_self, List.length_cons] at h
        omega
      obtain ⟨h1, h2, h3⟩ := pairMarks_spec cs vs h'
      refine ⟨by simp [pairMarks, h1], by simp [pairMarks, h2], ?_⟩
      intro m hm
      simp only [pairMarks, if_true, List.mem_cons] at hm
      rcases hm with rfl | hm
      · simp
      · exact h3 m hm
    · have h' : cs.count '?' = (v :: vs).length := by
        rw [List.count_cons_of_ne (Ne.symm hc)] at h
        exact h
      obtain ⟨h1, h2, h3⟩ := pairMarks_spec cs (v :: vs) h'
      refine ⟨by simp [pairMarks, hc, h1], by simp [pairMarks, hc, h2], ?_⟩
      intro m hm
      simp only [pairMarks, hc, if_false, List.mem_cons] at hm
      rcases hm with rfl | hm
      · simp [hc]
      · exact h3 m hm

theorem leafPlain_marks (l : builder) (h : leafPlain l = true) :
    l.Build = some (String.mk ((leafMarks l).map Prod.fst), (leafMarks l).filterMap Prod.snd)
    ∧ ∀ m ∈ leafMarks l, (m.1 = '?' ↔ m.2.isSome = true) := by
  cases l with
  | partByte b =>
    simp only [leafPlain, bne_iff_ne, ne_eq] at h
    simp [leafMarks, builder_Build_partByte, String.singleton, h]
    rfl
  | partString t =>
    simp only [leafPlain, List.all_eq_true, bne_iff_ne, ne_eq] at h
    refine ⟨?_, ?_⟩
    · simp [leafMarks, builder_Build_partString, List.map_map, Function.comp_def,
        List.filterMap_map]
    · intro m hm
      simp only [leafMarks, List.mem_map] at hm
      obtain ⟨c, hc, rfl⟩ := hm
      simp [h c hc]
  | partParam v => simp [leafMarks, builder_Build_partParam]
  | partQuery s params =>
    simp only [leafPlain, beq_iff_eq] at h
    obtain ⟨h1, h2, h3⟩ := pairMarks_spec s.toList params h
    refine ⟨?_, h3⟩
    rw [builder_Build_partQuery, leafMarks, h1, h2]
    rfl
  | nil => simp [leafPlain] at h
  | parts ps => simp [leafPlain] at h
  | ofPart p => simp [leafPlain] at h
  | ofQuery q => simp [leafPlain] at h
  | ValueBuilder ps => simp [leafPlain] at h

theorem String_mk_append (a b : List Char) :
    String.mk a ++ String.mk b = String.mk (a ++ b) := by
  apply String.ext
  simp [String.data_append]

theorem leaves_plain_Build (ls : List builder) (h : ls.all leafPlain = true) :
    parts.Build ls
      = some (String.mk ((ls.flatMap leafMarks).map Prod.fst),
          (ls.flatMap leafMarks).filterMap Prod.snd)
    ∧ ∀ m ∈ ls.flatMap leafMarks, (m.1 = '?' ↔ m.2.isSome = true) := by
  induction ls with
  | nil => simp [parts_Build_nil, Built.empty]
  | cons l ls ih =>
    rw [List.all_cons, Bool.and_eq_true] at h
    obtain ⟨hb, hm⟩ := leafPlain_marks l h.1
    obtain ⟨ihb, ihm⟩ := ih h.2
    refine ⟨?_, ?_⟩
    · rw [parts_Build_cons, hb, ihb, List.flatMap_cons, Built_cat_some, String_mk_append]
      simp only [List.map_append, List.filterMap_append]
    · intro m hmem
      rw [List.flatMap_cons, List.mem_append] at hmem
      rcases hmem with hmem | hmem
      · exact hm m hmem
      · exact ihm m hmem

theorem marks_count (ms : List (Char × Option Any))
    (h : ∀ m ∈ ms, (m.1 = '?' ↔ m.2.isSome = true)) :
    (ms.map Prod.fst).count '?' = (ms.filterMap Prod.snd).length
    ∧ (ms.filter (fun m => m.1 == '?')).map Prod.snd = (ms.filterMap Prod.snd).map some := by
  induction ms with
  | nil => simp
  | cons m ms ih =>
    obtain ⟨ih1, ih2⟩ := ih (fun x hx => h x (List.mem_cons_of_mem _ hx))
    have hm := h m (List.mem_cons_self _ _)
    obtain ⟨c, o⟩ := m
    cases o with
    | none =>
      have hc : ¬ c = '?' := by simpa using hm
      simp [List.count_cons, hc, ih1, ih2]
    | some a =>
      have hc : c = '?' := by simpa using hm
      simp [List.count_cons, hc, ih1, ih2]

theorem plain_matchesMarks (b : builder) (h : b.plain = true) :
    Built.matchesMarks b.Build b.marks := by
  obtain ⟨hb, hm⟩ := leaves_plain_Build b.flat h
  obtain ⟨hc, hf⟩ := marks_count _ hm
  refine ⟨String.mk (b.marks.map Prod.fst), b.marks.filterMap Prod.snd, ?_, hc, rfl, hf⟩
  rw [builder_Build_flat b, hb]
  rfl

theorem mem_flatList (l : builder) (xs : List builder) :
    l ∈ flatList xs ↔ ∃ x ∈ xs, l ∈ x.flat := by
  induction xs with
  | nil => simp [flatList]
  | cons x xs ih => simp [flatList, ih]

theorem builder_flat_parts (ps : List builder) : (builder.parts ps).flat = flatList ps := by
  rw [builder.flat]

theorem builder_flat_ofPart (p : Part) : (builder.ofPart p).flat = p.builder.flat := by
  rw [builder.flat]

theorem builder_flat_ofQuery (q : Query) :
    (builder.ofQuery q).flat = flatList (Query.Build.parts q) := by
  rw [builder.flat]

theorem builder_flat_partString (t : String) :
    (builder.partString t).flat = [builder.partString t] := by
  rw [builder.flat]

theorem builder_flat_partByte (c : Fin 256) :
    (builder.partByte c).flat = [builder.partByte c] := by
  rw [builder.flat]

theorem builder_flat_partParam (v : Any) :
    (builder.partParam v).flat = [builder.partParam v] := by
  rw [builder.flat]

theorem builder_flat_partQuery (s : String) (ps : List Any) :
    (builder.partQuery s ps).flat = [builder.partQuery s ps] := by
  rw [builder.flat]

theorem flatList_nil : flatList [] = [] := by
  rw [flatList]

theorem flatList_cons (b : builder) (bs : List builder) :
    flatList (b :: bs) = b.flat ++ flatList bs := by
  rw [flatList]

theorem toDigitsCore_plain (fuel : Nat) :
    ∀ (n : Nat) (ds : List Char), (∀ c ∈ ds, c ≠ '?') →
      ∀ c ∈ Nat.toDigitsCore 10 fuel n ds, c ≠ '?' := by
  induction fuel with
  | zero => intro n ds h; simpa [Nat.toDigitsCore] using h
  | succ fuel ih =>
    intro n ds h
    have hd : Nat.digitChar (n % 10) ≠ '?' := by
      have : n % 10 < 10 := Nat.mod_lt _ (by decide)
      revert this
      generalize n % 10 = m
      revert m
      decide
    have hds : ∀ c ∈ Nat.digitChar (n % 10) :: ds, c ≠ '?' := by
      intro c hc
      rcases List.mem_cons.mp hc with rfl | hc
      · exact hd
      · exact h c hc
    rw [Nat.toDigitsCore]
    split
    · exact hds
    · exact ih _ _ hds

theorem Nat_repr_plain (n : Nat) : ∀ c ∈ (Nat.repr n).data, c ≠ '?' := by
  rw [Nat.repr, Nat.toDigits]
  exact toDigitsCore_plain _ _ _ (by simp)

theorem Int_toString_plain (n : Int) : ∀ c ∈ (toString n).data, c ≠ '?' := by
  cases n with
  | ofNat m => exact Nat_repr_plain m
  | negSucc m =>
    intro c hc
    have : toString (Int.negSucc m) = "-" ++ Nat.repr (m + 1) := rfl
    rw [this, String.data_append, List.mem_append] at hc
    rcases hc with hc | hc
    · have : c = '-' := by simpa using hc
      rw [this]; decide
    · exact Nat_repr_plain _ c hc

theorem Itoa_plain (n : Int) : (Itoa n).toList.all (fun c => c != '?') = true := by
  rw [List.all_eq_true]
  intro c hc
  simpa using Int_toString_plain n c hc

theorem ofPart_mem_Query_Build_parts (q : Query) (v : Part)
    (h : builder.ofPart v ∈ Query.Build.parts q) :
    v = q.from_ ∨ v ∈ q.withParts ∨ v ∈ q.selectParts ∨ v ∈ q.joinParts ∨ v ∈ q.whereParts
      ∨ v ∈ q.groupByParts ∨ v ∈ q.orderByParts := by
  have hsep : ∀ (sep : String) (i : Nat) (vs : List Part),
      builder.ofPart v ∈ rangeSep (builder.partString sep) i vs [] → v ∈ vs := by
    intro sep i vs hm
    rcases mem_rangeSep _ _ _ _ hm with hm | ⟨w, hw, hm⟩
    · exact absurd hm (by simp)
    · injection hm with hm
      rw [hm]
      exact hw
  have hjoin : builder.ofPart v ∈ rangeJoin q.joinParts [] → v ∈ q.joinParts := by
    intro hm
    rcases mem_rangeJoin _ _ hm with hm | ⟨w, hw, hm⟩
    · exact absurd hm (by simp)
    · injection hm with hm
      rw [hm]
      exact hw
  rw [Query_Build_parts_eq] at h
  simp only [List.mem_append, List.mem_cons, List.mem_singleton, List.not_mem_nil,
    or_false] at h
  rcases h with ((((((((h | h) | h) | h) | h) | h) | h) | h) | h)
  · split at h
    · simp only [List.mem_append, List.mem_cons, List.mem_singleton, List.not_mem_nil,
        or_false] at h
      rcases h with ((h | h) | h)
      · exact absurd h (by simp)
      · exact .inr (.inl (hsep _ _ _ h))
      · exact absurd h (by simp)
    · simp at h
  · exact absurd h (by simp)
  · exact .inr (.inr (.inl (hsep _ _ _ h)))
  · rcases h with h | h
    · exact absurd h (by simp)
    · injection h with h
      exact .inl h
  · exact .inr (.inr (.inr (.inl (hjoin h))))
  · split at h
    · simp only [List.mem_append, List.mem_cons, List.mem_singleton, List.not_mem_nil,
        or_false] at h
      rcases h with h | h
      · exact absurd h (by simp)
      · exact .inr (.inr (.inr (.inr (.inl (hsep _ _ _ h)))))
    · simp at h
  · split at h
    · simp only [List.mem_append, List.mem_cons, List.mem_singleton, List.not_mem_nil,
        or_false] at h
      rcases h with h | h
      · exact absurd h (by simp)
      · exact .inr (.inr (.inr (.inr (.inr (.inl (hsep _ _ _ h))))))
    · simp at h
  · split at h
    · simp only [List.mem_append, List.mem_cons, List.mem_singleton, List.not_mem_nil,
        or_false] at h
      rcases h with h | h
      · exact absurd h (by simp)
      · exact .inr (.inr (.inr (.inr (.inr (.inr (hsep _ _ _ h))))))
    · simp at h
  · split at h
    · simp at h
    · simp at h

theorem Query_plain_parts (q : Query) (hq : q.plain = true) :
    (builder.parts (Query.Build.parts q)).plain = true := by
  simp only [Query.plain, Bool.and_eq_true, List.all_eq_true] at hq
  obtain ⟨⟨⟨⟨⟨⟨hf, hW⟩, hS⟩, hJ⟩, hP⟩, hG⟩, hO⟩ := hq
  rw [builder.plain, builder_flat_parts, List.all_eq_true]
  intro l hl
  obtain ⟨x, hx, hlx⟩ := (mem_flatList l _).mp hl
  have hlit : ∀ t : String, t.toList.all (fun c => c != '?') = true →
      x = builder.partString t → leafPlain l = true := by
    intro t ht hxt
    rw [hxt, builder_flat_partString, List.mem_singleton] at hlx
    rw [hlx]
    exact ht
  have hpart : ∀ v : Part, (builder.ofPart v).plain = true → x = builder.ofPart v →
      leafPlain l = true := by
    intro v hv hxv
    rw [hxv] at hlx
    exact (List.all_eq_true.mp hv) l hlx
  rcases mem_Query_Build_parts q x hx with
    h | h | h | h | h | ⟨v, h⟩ | ⟨h, _⟩ | h | ⟨h, _⟩ | ⟨h, _⟩ | ⟨h, _⟩
  · exact hlit _ (by decide) h
  · exact hlit _ (by decide) h
  · rw [h, builder_flat_partByte, List.mem_singleton] at hlx
    rw [hlx]
    decide
  · exact hlit _ (by decide) h
  · exact hlit _ (by decide) h
  · rw [h] at hx
    rcases ofPart_mem_Query_Build_parts q v hx with hv | hv | hv | hv | hv | hv | hv
    · exact hpart v (by rw [hv]; exact hf) h
    · exact hpart v (hW v hv) h
    · exact hpart v (hS v hv) h
    · exact hpart v (hJ v hv) h
    · exact hpart v (hP v hv) h
    · exact hpart v (hG v hv) h
    · exact hpart v (hO v hv) h
  · exact hlit _ (by decide) h
  · exact hlit _ (by decide) h
  · exact hlit _ (by decide) h
  · exact hlit _ (by decide) h
  · refine hlit _ ?_ h
    have := Itoa_plain q.limit
    rw [List.all_eq_true] at this ⊢
    intro c hc
    have hc2 : c ∈ " LIMIT ".data ++ (Itoa q.limit).data := by
      simpa [String.toList, String.data_append] using hc
    rcases List.mem_append.mp hc2 with hc2 | hc2
    · have hk : ∀ d ∈ " LIMIT ".data, (d != '?') = true := by decide
      exact hk c hc2
    · exact this c hc2


theorem plain_of_parts (ps : List builder) (h : ∀ b ∈ ps, b.plain = true) :
    (builder.parts ps).plain = true := by
  rw [builder.plain, builder_flat_parts, List.all_eq_true]
  intro l hl
  obtain ⟨x, hx, hlx⟩ := (mem_flatList l _).mp hl
  exact (List.all_eq_true.mp (h x hx)) l hlx

theorem plain_ofPart (p : Part) (h : p.builder.plain = true) :
    (builder.ofPart p).plain = true := by
  rw [builder.plain, builder_flat_ofPart]
  exact h

theorem plain_ofQuery (q : Query) (hq : q.plain = true) : (builder.ofQuery q).plain = true := by
  have h := Query_plain_parts q hq
  rw [builder.plain, builder_flat_parts] at h
  rw [builder.plain, builder_flat_ofQuery]
  exact h

theorem plain_partByte (c : Char) (h : Char.ofNat (byte c).val ≠ '?') :
    (builder.partByte (byte c)).plain = true := by
  simp [builder.plain, builder_flat_partByte, leafPlain, h]

theorem Query_plain_matchesMarks (q : Query) (hq : q.plain = true) :
    Built.matchesMarks (Query.Build q) (builder.ofQuery q).marks := by
  have h := plain_matchesMarks _ (plain_ofQuery q hq)
  rw [builder_Build_ofQuery] at h
  exact h

/-- The fragment that `Query.Part` makes of a plain statement is plain. -/
theorem Query_Part_plain (q : Query) (hq : q.plain = true) :
    ∃ p, q.Part = some p ∧ (builder.ofPart p).plain = true := by
  obtain ⟨s, v, hb, hc, _, _⟩ := Query_plain_matchesMarks q hq
  refine ⟨⟨.parts [.partByte (byte '('), .partQuery s v, .partByte (byte ')')]⟩, ?_, ?_⟩
  · simp [Query.Part, hb]
  · apply plain_ofPart
    apply plain_of_parts
    intro b hmem
    simp only [List.mem_cons, List.mem_singleton, List.not_mem_nil, or_false] at hmem
    rcases hmem with rfl | rfl | rfl
    · exact plain_partByte _ (by decide)
    · simp only [builder.plain, builder_flat_partQuery, leafPlain, List.all_cons, List.all_nil,
        Bool.and_true, beq_iff_eq]
      exact hc
    · exact plain_partByte _ (by decide)

/-- The fragment that `Exists` makes of a plain statement is plain. -/
theorem Exists_plain (q : Query) (hq : q.plain = true) :
    ∃ p, Exists q = some p ∧ (builder.ofPart p).plain = true := by
  obtain ⟨p, hp, hpl⟩ := Query_Part_plain q hq
  refine ⟨⟨.parts [.partString "EXISTS", .ofPart p]⟩, by simp [Exists, hp], ?_⟩
  apply plain_ofPart
  apply plain_of_parts
  intro b hmem
  simp only [List.mem_cons, List.mem_singleton, List.not_mem_nil, or_false] at hmem
  rcases hmem with rfl | rfl
  · simp [builder.plain, builder_flat_partString, leafPlain]
  · exact hpl

/-- The fragment that `Union` makes of two plain statements is plain. -/
theorem Union_plain (l r : Query) (hl : l.plain = true) (hr : r.plain = true) :
    (builder.ofPart (Union l r)).plain = true := by
  apply plain_ofPart
  apply plain_of_parts
  intro b hmem
  simp only [List.mem_cons, List.mem_singleton, List.not_mem_nil, or_false] at hmem
  rcases hmem with rfl | rfl | rfl | rfl | rfl | rfl | rfl
  · exact plain_partByte _ (by decide)
  · exact plain_ofQuery l hl
  · exact plain_partByte _ (by decide)
  · simp [builder.plain, builder_flat_partString, leafPlain]
  · exact plain_partByte _ (by decide)
  · exact plain_ofQuery r hr
  · exact plain_partByte _ (by decide)

theorem innerQuery_plain : innerQuery.plain = true := by
  simp [innerQuery, Query.plain, NewQueryFrom, Query.Select, Query.Where, Table, All, cAll,
    Field, ParamInt, Part.Eq, Part.append, builder.plain, builder_flat_ofPart,
    builder_flat_parts, builder_flat_partString, builder_flat_partParam, flatList_cons,
    flatList_nil, leafPlain]

theorem outerQuery_plain : outerQuery.plain = true := by
  have h := Union_plain innerQuery innerQuery innerQuery_plain innerQuery_plain
  rw [builder.plain, builder_flat_ofPart] at h
  rw [List.all_eq_true] at h
  simp [outerQuery, Query.plain, NewQueryFrom, Query.Select, Query.Where, Query.With, Table,
    All, cAll, Field, ParamInt, Part.Eq, Part.append, builder.plain, builder_flat_ofPart,
    builder_flat_parts, builder_flat_partString, builder_flat_partParam, builder_flat_partByte,
    flatList_cons, flatList_nil, byte]
  exact ⟨⟨⟨by decide, by decide, h, by decide⟩, by decide⟩, by decide⟩


theorem pairMarks_marks : ∀ ms : List (Char × Option Any),
    (∀ m ∈ ms, (m.1 = '?' ↔ m.2.isSome = true)) →
    pairMarks (ms.map Prod.fst) (ms.filterMap Prod.snd) = ms
  | [], _ => by simp [pairMarks]
  | (c, none) :: ms, h => by
    have hc : c ≠ '?' := by
      have := h (c, none) (List.mem_cons_self _ _)
      simpa using this
    have ih := pairMarks_marks ms (fun m hm => h m (List.mem_cons_of_mem _ hm))
    simp only [List.map_cons, List.filterMap_cons_none]
    cases hv : ms.filterMap Prod.snd with
    | nil =>
      rw [hv] at ih
      simp only [pairMarks, ih]
    | cons v vs =>
      rw [hv] at ih
      simp only [pairMarks, hc, if_false, ih]
  | (c, some a) :: ms, h => by
    have hc : c = '?' := by
      have := h (c, some a) (List.mem_cons_self _ _)
      simpa using this
    have ih := pairMarks_marks ms (fun m hm => h m (List.mem_cons_of_mem _ hm))
    subst hc
    simp only [List.map_cons, List.filterMap_cons_some, pairMarks, if_true, ih]

theorem plain_Build_marks (b : builder) (h : b.plain = true) :
    b.Build = some (String.mk (b.marks.map Prod.fst), b.marks.filterMap Prod.snd)
    ∧ ∀ m ∈ b.marks, (m.1 = '?' ↔ m.2.isSome = true) := by
  obtain ⟨hb, hm⟩ := leaves_plain_Build b.flat h
  exact ⟨by rw [builder_Build_flat b, hb]; rfl, hm⟩

/-- The fragment that `Query.Part` makes of a plain statement is plain, and its
marks are those of the statement between the marks of the two parentheses. -/
theorem Query_Part_marks (q : Query) (hq : q.plain = true) :
    ∃ p, q.Part = some p ∧ (builder.ofPart p).plain = true
      ∧ (builder.ofPart p).marks
        = ('(', none) :: ((builder.ofQuery q).marks ++ [(')', none)]) := by
  obtain ⟨p, hp, hpl⟩ := Query_Part_plain q hq
  refine ⟨p, hp, hpl, ?_⟩
  obtain ⟨hb, hm⟩ := plain_Build_marks _ (plain_ofQuery q hq)
  rw [builder_Build_ofQuery] at hb
  simp only [Query.Part, hb, Option.some.injEq] at hp
  subst hp
  simp only [builder.marks, builder_flat_ofPart, builder_flat_parts, flatList_cons,
    flatList_nil, builder_flat_partByte, builder_flat_partQuery, List.flatMap_cons,
    List.flatMap_nil, List.append_nil, List.flatMap_append, leafMarks, List.singleton_append,
    List.cons_append, List.nil_append]
  have := pairMarks_marks _ hm
  simp only [builder.marks] at this
  simp only [String.toList, this]
  rfl

/-- C3, counterexample: the text literal of `ValueString("?")` renders a `?`
and no parameter, so the number of `?` in the text is not the number of
parameters. -/
theorem question_mark_literal_counterexample :
    Part.Build (ValueString "?") = some ("'?'", [])
    ∧ "'?'".toList.count '?' ≠ ([] : List Any).length :=
  ⟨by simp [ValueString, Part_Build_mk, builder_Build_partString], by decide⟩

/-- C3, amended: for a fragment that renders and in which no byte or text
literal holds the character `?`, and for a statement whose from fragment and
clause fragments are such fragments, `Build` returns a text with as many `?` as
parameters, and the `?` of the text are, in order, the characters bound to the
parameters: the i-th parameter is the value bound at the i-th `?`. Fragments
that hold statements are among them: a statement of such fragments held as a
builder, the fragment that `Query.Part` or `Exists` makes of it (its
pre-rendered text has as many `?` as it has parameters), and its `Union` with
another such statement are again such fragments, and the `?` of the
pre-rendered text are bound to the parameters they were bound to in the
statement. -/
theorem placeholders_match_params (b : builder) (q : Query) (hb : b.plain = true)
    (hq : q.plain = true) :
    Built.matchesMarks b.Build b.marks
    ∧ Built.matchesMarks (Query.Build q) (builder.ofQuery q).marks
    ∧ (builder.ofQuery q).plain = true
    ∧ (∃ p, q.Part = some p ∧ (builder.ofPart p).plain = true
      ∧ (builder.ofPart p).marks = ('(', none) :: ((builder.ofQuery q).marks ++ [(')', none)]))
    ∧ (∃ p, Exists q = some p ∧ (builder.ofPart p).plain = true)
    ∧ (∀ r : Query, r.plain = true → (builder.ofPart (Union q r)).plain = true) :=
  ⟨plain_matchesMarks b hb, Query_plain_matchesMarks q hq, plain_ofQuery q hq,
    Query_Part_marks q hq, Exists_plain q hq, fun r hr => Union_plain q r hq hr⟩


/-- Witness of C3: the union of two statements with a placeholder each, and a
statement that holds this union as the body of a `WITH` entry. -/
theorem placeholders_match_params_witness :
    Built.matchesMarks (builder.ofPart (Union innerQuery innerQuery)).Build
      (builder.ofPart (Union innerQuery innerQuery)).marks
    ∧ Built.matchesMarks (Query.Build outerQuery) (builder.ofQuery outerQuery).marks
    ∧ (builder.ofQuery outerQuery).plain = true
    ∧ (∃ p, outerQuery.Part = some p ∧ (builder.ofPart p).plain = true
      ∧ (builder.ofPart p).marks
        = ('(', none) :: ((builder.ofQuery outerQuery).marks ++ [(')', none)]))
    ∧ (∃ p, Exists outerQuery = some p ∧ (builder.ofPart p).plain = true)
    ∧ (∀ r : Query, r.plain = true → (builder.ofPart (Union outerQuery r)).plain = true) :=
  placeholders_match_params _ outerQuery
    (Union_plain innerQuery innerQuery innerQuery_plain innerQuery_plain) outerQuery_plain

/-! ## Operators -/

theorem Part_append_op_Build (p v : Part) (op : String) (hp : Part.Build p ≠ none)
    (hv : Part.Build v ≠ none) :
    Part.Build (p.append [builder.partString op, builder.ofPart v])
      = some (p.text ++ op ++ v.text, p.params ++ v.params) := by
  rw [Part_Build_append, parts_Build_cons, parts_Build_singleton, builder_Build_partString,
    builder_Build_ofPart, Part_Build_some p hp, Part_Build_some v hv]
  simp [Built.cat, String.append_assoc]

theorem Field_Build (name : String) : Part.Build (Field name) = some (name, []) := by
  simp [Field, Part_Build_mk, builder_Build_partString]

theorem ParamInt_Build (n : Int) : Part.Build (ParamInt n) = some ("?", [Any.int n]) := by
  simp [ParamInt, Part_Build_mk, builder_Build_partParam]

theorem ValueInt_Build (n : Int) : Part.Build (ValueInt n) = some (Itoa n, []) := by
  simp [ValueInt, Part_Build_mk, builder_Build_partString]

/-- C6: for a fragment `p` that renders, `p.In` of no candidates renders the
text of `p` followed by ` IN (NULL)` with the parameters of `p`, and so not the
text of `p` followed by the empty parenthesis pair ` IN ()`. -/
theorem In_empty_renders (p : Part) (hp : Part.Build p ≠ none) :
    Part.Build (p.In []) = some (p.text ++ " IN (NULL)", p.params)
    ∧ (p.In []).text ≠ p.text ++ " IN ()" := by
  have h : Part.Build (p.In []) = some (p.text ++ " IN (NULL)", p.params) := by
    rw [Part_In_Build, Part_Build_some p hp]
    simp [Built.cat]
  refine ⟨h, ?_⟩
  rw [Part_text_of_Build _ _ _ h]
  intro hc
  exact absurd (String_append_left_cancel _ _ _ hc) (by decide)

/-- Witness of C6: `Field("field_name").In([]Part{})`. -/
theorem In_empty_renders_witness :
    Part.Build ((Field "field_name").In []) = some ("field_name IN (NULL)", []) := by
  have h := (In_empty_renders (Field "field_name") (by simp [Field_Build])).1
  rw [Part_text_of_Build _ _ _ (Field_Build _),
    Part_params_of_Build _ _ _ (Field_Build _)] at h
  simpa using h

/-! ## Literal values -/

theorem ValueInt_neg_Build : Part.Build (ValueInt (-123)) = some ("-123", []) := by
  rw [ValueInt_Build]
  decide

theorem ValueBool_Build (v : Bool) :
    Part.Build (ValueBool v) = some (if v then "TRUE" else "FALSE", []) := by
  cases v <;>
    simp [ValueBool, True, False, cTrue, cFalse, Part_Build_mk, builder_Build_partString]

/-- C11, counterexample: `Value(-123)` is not the value `ValueInt(-123)`: it is
a `Part` that holds `ValueInt(-123)` in its `builder` field. -/
theorem Value_wraps_counterexample :
    Value (fun _ _ => "") (Any.int (-123)) ≠ some (ValueInt (-123)) := by
  simp [Value, ValueInt]

/-- C11, amended: `Value(v)` returns the `Part` that wraps `ValueString(v)`,
`ValueInt(v)`, `ValueTime(v)` or `ValueBool(v)` when the runtime type of `v` is
text, integer, timestamp or boolean, and that `Part` renders as the typed
result does (`Value(-123)` renders `-123`, `Value(true)` renders `TRUE`,
`Value(false)` renders `FALSE`); `Value(v)` panics if and only if `v` has
another runtime type, as nil, a struct or a slice have. -/
theorem Value_dispatch (Format : Time → String → String) (v : Any) :
    (∀ t : String, v = Any.string t →
      Value Format v = some ⟨builder.ofPart (ValueString t)⟩
      ∧ (Value Format v).bind Part.Build = Part.Build (ValueString t))
    ∧ (∀ t : Int, v = Any.int t →
      Value Format v = some ⟨builder.ofPart (ValueInt t)⟩
      ∧ (Value Format v).bind Part.Build = Part.Build (ValueInt t))
    ∧ (∀ t : Time, v = Any.time t →
      Value Format v = some ⟨builder.ofPart (ValueTime Format t)⟩
      ∧ (Value Format v).bind Part.Build = Part.Build (ValueTime Format t))
    ∧ (∀ t : Bool, v = Any.bool t →
      Value Format v = some ⟨builder.ofPart (ValueBool t)⟩
      ∧ (Value Format v).bind Part.Build = Part.Build (ValueBool t))
    ∧ (Value Format v = none ↔
      (∀ t, v ≠ Any.string t) ∧ (∀ t, v ≠ Any.int t) ∧ (∀ t, v ≠ Any.time t)
        ∧ (∀ t, v ≠ Any.bool t))
    ∧ Value Format Any.nil = none
    ∧ (∀ tag : Nat, Value Format (Any.other tag) = none)
    ∧ (Value Format (Any.int (-123))).bind Part.Build = some ("-123", [])
    ∧ (Value Format (Any.bool true)).bind Part.Build = some ("TRUE", [])
    ∧ (Value Format (Any.bool false)).bind Part.Build = some ("FALSE", []) := by
  refine ⟨?_, ?_, ?_, ?_, ?_, rfl, fun _ => rfl, ?_, ?_, ?_⟩
  · rintro t rfl
    simp [Value, Part_Build_mk, builder_Build_ofPart]
  · rintro t rfl
    simp [Value, Part_Build_mk, builder_Build_ofPart]
  · rintro t rfl
    simp [Value, Part_Build_mk, builder_Build_ofPart]
  · rintro t rfl
    simp [Value, Part_Build_mk, builder_Build_ofPart]
  · cases v <;> simp [Value]
  · simp [Value, Part_Build_mk, builder_Build_ofPart, ValueInt_neg_Build]
  · simp [Value, Part_Build_mk, builder_Build_ofPart, ValueBool_Build]
  · simp [Value, Part_Build_mk, builder_Build_ofPart, ValueBool_Build]

theorem utf8ByteSize_go_append (a b : List Char) :
    String.utf8ByteSize.go (a ++ b) = String.utf8ByteSize.go a + String.utf8ByteSize.go b := by
  induction a with
  | nil => simp [String.utf8ByteSize.go]
  | cons c a ih => simp [String.utf8ByteSize.go, ih]; omega

theorem String_utf8ByteSize_append (s t : String) :
    (s ++ t).utf8ByteSize = s.utf8ByteSize + t.utf8ByteSize := by
  have h : ∀ u : String, u.utf8ByteSize = String.utf8ByteSize.go u.data := by
    intro u
    cases u
    rfl
  rw [h, h, h, String.data_append, utf8ByteSize_go_append]

/-- C12: for every string `s`, `ValueString(s)` renders the text `'` + `s` +
`'` with no parameter; `s` is copied verbatim between the quotes, so the text
has the length of `s` plus 2, in characters and in bytes. -/
theorem ValueString_renders (s : String) :
    Part.Build (ValueString s) = some ("'" ++ s ++ "'", [])
    ∧ ("'" ++ s ++ "'").data = '\'' :: (s.data ++ ['\''])
    ∧ ("'" ++ s ++ "'").length = s.length + 2
    ∧ ("'" ++ s ++ "'").utf8ByteSize = s.utf8ByteSize + 2 := by
  have h1 : "'".length = 1 := by decide
  have h2 : "'".utf8ByteSize = 1 := by decide
  refine ⟨?_, ?_, ?_, ?_⟩
  · simp [ValueString, Part_Build_mk, builder_Build_partString]
  · simp [String.data_append]
  · rw [String.length_append, String.length_append, h1]
    omega
  · rw [String_utf8ByteSize_append, String_utf8ByteSize_append, h2]
    omega

/-! ## Parameter helpers -/

theorem ParamBools_eq_map (vs : List Bool) : ParamBools vs = vs.map ParamBool := by
  induction vs with
  | nil => rfl
  | cons v vs ih => simp [ParamBools, ih]

theorem ParamInts_eq_map (vs : List Int) : ParamInts vs = vs.map ParamInt := by
  induction vs with
  | nil => rfl
  | cons v vs ih => simp [ParamInts, ih]

theorem ParamStrings_eq_map (vs : List String) : ParamStrings vs = vs.map ParamString := by
  induction vs with
  | nil => rfl
  | cons v vs ih => simp [ParamStrings, ih]

theorem Params_eq_map (vs : List Any) : Params vs = vs.map Param := by
  induction vs with
  | nil => rfl
  | cons v vs ih => simp [Params, ih]

theorem Param_Build (v : Any) : Part.Build (Param v) = some ("?", [v]) := by
  simp [Param, Part_Build_mk, builder_Build_partParam]

/-- C13: `ParamBools`, `ParamInts`, `ParamStrings` and `Params` return a list
of the length of their input whose i-th element renders `?` with the one
parameter `vs[i]`; and `Params` on a list of booleans, integers or strings
returns the fragments of `ParamBool`, `ParamInt`, `ParamString` applied element
by element (and so on the mixed list of the test `TestParamParams`). -/
theorem batch_params_render (bs : List Bool) (ns : List Int) (ss : List String)
    (vs : List Any) :
    ((ParamBools bs).length = bs.length
      ∧ (ParamBools bs).map Part.Build = bs.map (fun v => some ("?", [Any.bool v])))
    ∧ ((ParamInts ns).length = ns.length
      ∧ (ParamInts ns).map Part.Build = ns.map (fun v => some ("?", [Any.int v])))
    ∧ ((ParamStrings ss).length = ss.length
      ∧ (ParamStrings ss).map Part.Build = ss.map (fun v => some ("?", [Any.string v])))
    ∧ ((Params vs).length = vs.length
      ∧ (Params vs).map Part.Build = vs.map (fun v => some ("?", [v])))
    ∧ Params (bs.map Any.bool) = bs.map ParamBool
    ∧ Params (ns.map Any.int) = ns.map ParamInt
    ∧ Params (ss.map Any.string) = ss.map ParamString
    ∧ Params [Any.bool true, Any.int 123, Any.string "string_1"]
        = [ParamBool true, ParamInt 123, ParamString "string_1"] := by
  have hb : ∀ v, Part.Build (ParamBool v) = some ("?", [Any.bool v]) := fun v => Param_Build _
  have hn : ∀ v, Part.Build (ParamInt v) = some ("?", [Any.int v]) := fun v => Param_Build _
  have hs : ∀ v, Part.Build (ParamString v) = some ("?", [Any.string v]) :=
    fun v => Param_Build _
  refine ⟨⟨?_, ?_⟩, ⟨?_, ?_⟩, ⟨?_, ?_⟩, ⟨?_, ?_⟩, ?_, ?_, ?_, rfl⟩
  · simp [ParamBools_eq_map]
  · simp [ParamBools_eq_map, Function.comp_def, hb]
  · simp [ParamInts_eq_map]
  · simp [ParamInts_eq_map, Function.comp_def, hn]
  · simp [ParamStrings_eq_map]
  · simp [ParamStrings_eq_map, Function.comp_def, hs]
  · simp [Params_eq_map]
  · simp [Params_eq_map, Function.comp_def, Param_Build]
  · simp [Params_eq_map, Function.comp_def, Param, ParamBool]
  · simp [Params_eq_map, Function.comp_def, Param, ParamInt]
  · simp [Params_eq_map, Function.comp_def, Param, ParamString]

/-! ## Limit, union, subqueries -/

theorem Query_Build_parts_Limit (q : Query) (n : Int) :
    Query.Build.parts (q.Limit n)
      = Query.Build.parts (q.Limit 0)
        ++ (if n ≠ 0 then [builder.partString (" LIMIT " ++ Itoa n)] else []) := by
  simp only [Query.Build.parts, Query.Limit]
  split <;> simp

theorem Query_Build_Limit (q : Query) (n : Int) :
    Query.Build (q.Limit n)
      = Built.cat (Query.Build (q.Limit 0))
          (if n ≠ 0 then some (" LIMIT " ++ Itoa n, []) else Built.empty) := by
  rw [Query_Build_eq, Query_Build_eq, Query_Build_parts_Limit, parts_Build_append]
  split
  · rw [parts_Build_singleton, builder_Build_partString]
  · rw [parts_Build_nil]

theorem no_LIMIT_part (q : Query) (h : q.limit = 0) :
    ¬ ∃ t : String, builder.partString (" LIMIT " ++ t) ∈ Query.Build.parts q := by
  rintro ⟨t, ht⟩
  rcases mem_Query_Build_parts q _ ht with
    h | h | h | h | h | ⟨v, h⟩ | ⟨h, _⟩ | h | ⟨h, _⟩ | ⟨h, _⟩ | ⟨_, hl⟩
  all_goals first
    | exact hl h
    | (injection h with h; exact absurd h (LIMIT_append_ne _ _ (by decide)))
    | exact absurd h (by simp)

/-- C14: for a statement `q` that renders `(s, v)` with limit 0: with limit 0
the assembler adds no ` LIMIT ` part; `q.Limit(n)` renders `(s, v)` when
`n = 0` and `s` + ` LIMIT ` + the decimal text of `n`, with the same parameters
`v`, when `n != 0`; and a later `Limit` call replaces the earlier value. -/
theorem Limit_renders (q : Query) (n : Int) (s : String) (v : List Any)
    (h : Query.Build (q.Limit 0) = some (s, v)) :
    (¬ ∃ t : String, builder.partString (" LIMIT " ++ t) ∈ Query.Build.parts (q.Limit 0))
    ∧ (n = 0 → Query.Build (q.Limit n) = some (s, v))
    ∧ (n ≠ 0 → Query.Build (q.Limit n) = some (s ++ " LIMIT " ++ Itoa n, v))
    ∧ (∀ m : Int, (q.Limit m).Limit n = q.Limit n ∧ ((q.Limit m).Limit n).limit = n) := by
  refine ⟨no_LIMIT_part _ rfl, ?_, ?_, fun m => ⟨rfl, rfl⟩⟩
  · intro hn
    rw [hn, h]
  · intro hn
    rw [Query_Build_Limit, h, if_pos hn]
    simp [Built.cat, String.append_assoc]

theorem Table_Build (name : String) : Part.Build (Table name) = some (name, []) := by
  simp [Table, Part_Build_mk, builder_Build_partString]

theorem All_Build : Part.Build All = some ("*", []) := by
  simp [All, cAll, Part_Build_mk, builder_Build_partString]

theorem select_all_Build (name : String) :
    Query.Build ((NewQuery.From (Table name)).Select [All])
      = some ("SELECT * FROM " ++ name, []) := by
  have hS : ∀ p ∈ ((NewQuery.From (Table name)).Select [All]).selectParts,
      Part.Build p ≠ none := by
    intro p hp
    have hp : p = All := by simpa [Query.Select, Query.From, NewQuery] using hp
    rw [hp]
    exact Part_Build_ne_none _ _ All_Build
  have hf : Part.Build ((NewQuery.From (Table name)).Select [All]).from_ ≠ none :=
    Part_Build_ne_none _ _ (Table_Build name)
  rw [Query_Build_some _ hf (by intro p hp; cases hp) hS (by intro p hp; cases hp)
    (by intro p hp; cases hp) (by intro p hp; cases hp) (by intro p hp; cases hp)]
  have hs : ((NewQuery.From (Table name)).Select [All]).selectParts = [All] := rfl
  have hfr : ((NewQuery.From (Table name)).Select [All]).from_ = Table name := rfl
  have e1 : ((NewQuery.From (Table name)).Select [All]).withParts = [] := rfl
  have e2 : ((NewQuery.From (Table name)).Select [All]).joinParts = [] := rfl
  have e3 : ((NewQuery.From (Table name)).Select [All]).whereParts = [] := rfl
  have e4 : ((NewQuery.From (Table name)).Select [All]).groupByParts = [] := rfl
  have e5 : ((NewQuery.From (Table name)).Select [All]).orderByParts = [] := rfl
  have e6 : ((NewQuery.From (Table name)).Select [All]).limit = 0 := rfl
  rw [hs, hfr, e1, e2, e3, e4, e5, e6]
  simp [Part_text_of_Build _ _ _ (Table_Build name), Part_params_of_Build _ _ _ (Table_Build name),
    Part_text_of_Build _ _ _ All_Build, Part_params_of_Build _ _ _ All_Build,
    String.intercalate, String.intercalate.go, String_join_nil, String.append_assoc]

/-- Witness of C14: `NewQuery().From(Table("table")).Select(All()).Limit(1)`. -/
theorem Limit_renders_witness :
    Query.Build (((NewQuery.From (Table "table")).Select [All]).Limit 1)
      = some ("SELECT * FROM table LIMIT 1", []) := by
  have h := (Limit_renders ((NewQuery.From (Table "table")).Select [All]) 1
    "SELECT * FROM table" [] (select_all_Build "table")).2.2.1 (by decide)
  rw [h]
  decide

/-- C15: for statements `lhs` and `rhs` that render `(sl, vl)` and `(sr, vr)`,
`Union(lhs, rhs)` renders the text `(` + `sl` + `) UNION (` + `sr` + `)` and the
parameters `vl ++ vr`. -/
theorem Union_renders (lhs rhs : Query) (sl sr : String) (vl vr : List Any)
    (hl : Query.Build lhs = some (sl, vl)) (hr : Query.Build rhs = some (sr, vr)) :
    Part.Build (Union lhs rhs) = some ("(" ++ sl ++ ") UNION (" ++ sr ++ ")", vl ++ vr) := by
  have hk : ") UNION (" = ")" ++ (" UNION " ++ "(") := by decide
  simp [Union, Part_Build_mk, builder_Build_parts, parts_Build_cons, parts_Build_nil,
    partByte_Build_open, partByte_Build_close, builder_Build_ofQuery, builder_Build_partString,
    hl, hr, Built.cat, Built.empty, String.append_assoc]
  rw [hk]
  simp only [String.append_assoc]

/-- Witness of C15: the union of two statements `SELECT * FROM ...`. -/
theorem Union_renders_witness :
    Part.Build (Union ((NewQuery.From (Table "a")).Select [All])
        ((NewQuery.From (Table "b")).Select [All]))
      = some ("(SELECT * FROM a) UNION (SELECT * FROM b)", []) := by
  have h := Union_renders _ _ _ _ _ _ (select_all_Build "a") (select_all_Build "b")
  rw [h]
  decide

/-- C16: for a statement `q` that renders `(s, v)`, `q.Part()` returns a
fragment that renders `(` + `s` + `)` with the parameters `v`, and `Exists(q)`
returns a fragment that renders `EXISTS` + `(` + `s` + `)` with the parameters
`v`. -/
theorem Query_Part_renders (q : Query) (s : String) (v : List Any)
    (h : Query.Build q = some (s, v)) :
    (∃ p : Part, q.Part = some p ∧ Part.Build p = some ("(" ++ s ++ ")", v))
    ∧ (∃ e : Part, Exists q = some e ∧ Part.Build e = some ("EXISTS" ++ ("(" ++ s ++ ")"), v)) := by
  have hp : Part.Build ⟨builder.parts [builder.partByte (byte '('), builder.partQuery s v,
      builder.partByte (byte ')')]⟩ = some ("(" ++ s ++ ")", v) := by
    simp [Part_Build_mk, builder_Build_parts, parts_Build_cons, parts_Build_nil,
      partByte_Build_open, partByte_Build_close, builder_Build_partQuery, Built.cat,
      Built.empty, String.append_assoc]
  refine ⟨⟨⟨builder.parts [builder.partByte (byte '('), builder.partQuery s v,
      builder.partByte (byte ')')]⟩, by simp [Query.Part, h], hp⟩,
    ⟨⟨builder.parts [builder.partString "EXISTS", builder.ofPart
      ⟨builder.parts [builder.partByte (byte '('), builder.partQuery s v,
        builder.partByte (byte ')')]⟩]⟩, by simp [Exists, Query.Part, h], ?_⟩⟩
  rw [Part_Build_mk, builder_Build_parts, parts_Build_cons, parts_Build_singleton,
    builder_Build_partString, builder_Build_ofPart, hp]
  simp [Built.cat]

/-- Witness of C16: the test `TestExists`. -/
theorem Query_Part_renders_witness :
    (Exists ((NewQuery.From (Table "table")).Select [All])).bind Part.Build
      = some ("EXISTS(SELECT * FROM table)", []) := by
  obtain ⟨e, he, hb⟩ := (Query_Part_renders _ _ _ (select_all_Build "table")).2
  rw [he, Option.some_bind, hb]
  decide

/-! ## DateOverlaps -/

theorem Null_Build : Part.Build Null = some ("NULL", []) := by
  simp [Null, cNull, Part_Build_mk, builder_Build_partString]

theorem Param_time_Build (t : Time) : Part.Build (Param (Any.time t)) = some ("?", [Any.time t]) := by
  simp [Param, Part_Build_mk, builder_Build_partParam]

theorem DateOverlaps_Build (startA endA : Part) (startB endB now₁ now₂ : Time)
    (hA : Part.Build startA ≠ none) (hE : Part.Build endA ≠ none) :
    Part.Build (DateOverlaps startA endA startB endB now₁ now₂)
      = some ("(" ++ startA.text ++ " IS NULL OR " ++ endA.text ++ " IS NULL OR ? <= "
            ++ endA.text ++ " AND ? >= " ++ startA.text ++ ")",
          startA.params ++ endA.params
            ++ [Any.time (if startB.Unix ≤ 0 then now₁ else startB)] ++ endA.params
            ++ [Any.time (if endB.Unix ≤ 0 then now₂ else endB)] ++ startA.params) := by
  have h1 : " IS NULL OR " = " IS " ++ ("NULL" ++ " OR ") := by decide
  have h2 : " IS NULL OR ? <= " = " IS " ++ ("NULL" ++ (" OR " ++ ("?" ++ " <= "))) := by decide
  have h3 : " AND ? >= " = " AND " ++ ("?" ++ " >= ") := by decide
  simp only [DateOverlaps, Cond, Or, And, Part.Is, Part.Lte, Part.Gte, Part_Build_mk,
    builder_Build_parts, parts_Build_cons, parts_Build_nil, builder_Build_ofPart,
    Part_Build_append, builder_Build_partString, partByte_Build_open, partByte_Build_close,
    Null_Build, Param_time_Build, Part_Build_some _ hA, Part_Build_some _ hE, Built.cat,
    Built.empty]
  rw [h1, h2, h3]
  simp only [String.append_assoc, List.append_assoc, String.append_empty, List.append_nil,
    List.nil_append, List.cons_append]

/-- C18, counterexample: the timestamp one nanosecond after the epoch is not at
or before the epoch, yet `DateOverlaps` binds the current time in its place,
not the timestamp itself; so it is on the elements of the slices, and so it is
with the slices held in backing arrays. -/
theorem DateOverlaps_after_epoch_counterexample :
    Time.atOrBeforeEpoch ⟨0, 1⟩ = false
    ∧ Part.Build (DateOverlaps (Field "a.starts_at") (Field "a.ends_at") ⟨0, 1⟩ ⟨0, 1⟩
        ⟨1000, 0⟩ ⟨1000, 0⟩)
      = some ("(a.starts_at IS NULL OR a.ends_at IS NULL OR ? <= a.ends_at AND ? >= a.starts_at)",
          [Any.time ⟨1000, 0⟩, Any.time ⟨1000, 0⟩])
    ∧ [Any.time ⟨1000, 0⟩, Any.time ⟨1000, 0⟩] ≠ [Any.time ⟨0, 1⟩, Any.time ⟨0, 1⟩]
    ∧ Mem.Part.Build
        (Mem.DateOverlaps Mem.growslice (Mem.Field "a.starts_at") (Mem.Field "a.ends_at")
          ⟨0, 1⟩ ⟨0, 1⟩ ⟨1000, 0⟩ ⟨1000, 0⟩ []).2 9
        (Mem.DateOverlaps Mem.growslice (Mem.Field "a.starts_at") (Mem.Field "a.ends_at")
          ⟨0, 1⟩ ⟨0, 1⟩ ⟨1000, 0⟩ ⟨1000, 0⟩ []).1
      = some ("(a.starts_at IS NULL OR a.ends_at IS NULL OR ? <= a.ends_at AND ? >= a.starts_at)",
          [Any.time ⟨1000, 0⟩, Any.time ⟨1000, 0⟩]) := by
  refine ⟨by decide, ?_, by decide, by decide⟩
  rw [DateOverlaps_Build _ _ _ _ _ _ (by simp [Field_Build]) (by simp [Field_Build]),
    Part_text_of_Build _ _ _ (Field_Build _), Part_params_of_Build _ _ _ (Field_Build _),
    Part_text_of_Build _ _ _ (Field_Build _), Part_params_of_Build _ _ _ (Field_Build _)]
  decide

/-! ## Fragments that share a backing array -/

/-- C19: the code at the failing input, with slices held in backing arrays.
For `p := List(Field("a"), Field("b"))`, `d1 := p.As("x")`, `d2 := p.As("y")`:
`d1` renders `a, b AS x` when it is made, and `a, b AS y` after `d2` is made,
whatever the growth of `append` is: `List` leaves one spare cell in the array
of `p`, and both calls of `As` write it. -/
theorem As_overwrites_earlier_fragment (grow : Nat → Nat → Nat) :
    Mem.Part.Build (Mem.asTwice grow "x" "y").afterD1 5 (Mem.asTwice grow "x" "y").d1
      = some ("a, b AS x", [])
    ∧ Mem.Part.Build (Mem.asTwice grow "x" "y").afterD2 5 (Mem.asTwice grow "x" "y").d1
      = some ("a, b AS y", [])
    ∧ Mem.Part.Build (Mem.asTwice grow "x" "y").afterD2 5 (Mem.asTwice grow "x" "y").d2
      = some ("a, b AS y", [])
    ∧ Mem.Part.Build (Mem.asTwice grow "x" "y").afterD2 5 (Mem.asTwice grow "x" "y").p
      = some ("a, b", []) :=
  ⟨rfl, rfl, rfl, rfl⟩

/-! ## Rendering in memory -/

theorem Mem_foldl_cat (build : Mem.builder → Built) (g : Built → Mem.builder → Built)
    (hg : ∀ acc p, g acc p = Built.cat acc (build p)) (ps : List Mem.builder) :
    ∀ acc : Built, List.foldl g acc ps = Built.cat acc (List.foldl g Built.empty ps) := by
  induction ps with
  | nil => intro acc; simp [Built_cat_empty]
  | cons p ps ih =>
    intro acc
    simp only [List.foldl_cons]
    rw [ih, ih (g Built.empty p), hg, hg, Built_empty_cat, Built_cat_assoc]

theorem Mem_range_nil (build : Mem.builder → Built) :
    Mem.parts.Build.range build [] = Built.empty := rfl

theorem Mem_range_cons (build : Mem.builder → Built) (p : Mem.builder) (ps : List Mem.builder) :
    Mem.parts.Build.range build (p :: ps) =
      Built.cat (build p) (Mem.parts.Build.range build ps) := by
  unfold Mem.parts.Build.range
  simp only [List.foldl_cons]
  rw [Mem_foldl_cat build _ (fun acc p => by cases acc <;> cases build p <;> rfl) ps]
  congr 1
  cases build p <;> rfl

theorem Mem_range_append (build : Mem.builder → Built) (a b : List Mem.builder) :
    Mem.parts.Build.range build (a ++ b) =
      Built.cat (Mem.parts.Build.range build a) (Mem.parts.Build.range build b) := by
  induction a with
  | nil => simp [Mem_range_nil, Built_empty_cat]
  | cons p ps ih => simp [Mem_range_cons, ih, Built_cat_assoc]

theorem Mem_range_congr (build build' : Mem.builder → Built) (ps : List Mem.builder)
    (h : ∀ p ∈ ps, build' p = build p) :
    Mem.parts.Build.range build' ps = Mem.parts.Build.range build ps := by
  induction ps with
  | nil => rfl
  | cons p ps ih =>
    rw [Mem_range_cons, Mem_range_cons, h p (List.mem_cons_self _ _),
      ih (fun x hx => h x (List.mem_cons_of_mem _ hx))]

theorem Built_cat_eq_some (a b : Built) (r : String × List Any) (h : Built.cat a b = some r) :
    ∃ x y, a = some x ∧ b = some y ∧ r = (x.1 ++ y.1, x.2 ++ y.2) := by
  cases a with
  | none => simp [Built.cat] at h
  | some x =>
    cases b with
    | none => simp [Built.cat] at h
    | some y =>
      refine ⟨x, y, rfl, rfl, ?_⟩
      simp [Built.cat] at h
      exact h.symm

theorem Mem_range_mono (build build' : Mem.builder → Built) (ps : List Mem.builder)
    (h : ∀ p ∈ ps, ∀ r, build p = some r → build' p = some r) :
    ∀ r, Mem.parts.Build.range build ps = some r → Mem.parts.Build.range build' ps = some r := by
  induction ps with
  | nil => intro r hr; exact hr
  | cons p ps ih =>
    intro r hr
    rw [Mem_range_cons] at hr ⊢
    obtain ⟨x, y, hx, hy, rfl⟩ := Built_cat_eq_some _ _ _ hr
    rw [h p (List.mem_cons_self _ _) x hx, ih (fun q hq => h q (List.mem_cons_of_mem _ hq)) y hy]
    rfl

theorem Mem_Build_mono (m : Mem.Memory) :
    ∀ (f : Nat) (b : Mem.builder) (r : String × List Any),
      Mem.builder.Build m f b = some r → Mem.builder.Build m (f + 1) b = some r := by
  intro f
  induction f with
  | zero => intro b r h; simp [Mem.builder.Build] at h
  | succ f ih =>
    intro b r h
    cases b with
    | nil => simp [Mem.builder.Build] at h
    | partByte c => simpa [Mem.builder.Build] using h
    | partString t => simpa [Mem.builder.Build] using h
    | partParam v => simpa [Mem.builder.Build] using h
    | partQuery s ps => simpa [Mem.builder.Build] using h
    | ofPart p =>
      simp only [Mem.builder.Build] at h ⊢
      exact ih _ _ h
    | parts s =>
      simp only [Mem.builder.Build] at h ⊢
      exact Mem_range_mono _ _ _ (fun p _ r hr => ih p r hr) r h
    | ofQuery q =>
      simp only [Mem.builder.Build] at h ⊢
      exact Mem_range_mono _ _ _ (fun p _ r hr => ih p r hr) r h
    | ValueBuilder s =>
      simp only [Mem.builder.Build] at h ⊢
      exact Mem_range_mono _ _ _ (fun p _ r hr => ih p r hr) r h

theorem Mem_Build_mono_le (m : Mem.Memory) (f F : Nat) (hF : f ≤ F) (b : Mem.builder)
    (r : String × List Any) (h : Mem.builder.Build m f b = some r) :
    Mem.builder.Build m F b = some r := by
  induction hF with
  | refl => exact h
  | step _ ih => exact Mem_Build_mono m _ b r ih

theorem Mem_Build_frame (m m' : Mem.Memory) :
    ∀ (f : Nat) (b : Mem.builder),
      (∀ t, Mem.Reads m b t → Mem.elems m' t = Mem.elems m t) →
      Mem.builder.Build m' f b = Mem.builder.Build m f b := by
  intro f
  induction f with
  | zero => intro b _; rfl
  | succ f ih =>
    intro b h
    cases b with
    | nil => rfl
    | partByte c => rfl
    | partString t => rfl
    | partParam v => rfl
    | partQuery s ps => rfl
    | ofPart p =>
      simp only [Mem.builder.Build]
      exact ih _ (fun t ht => h t (Mem.Reads.ofPart ht))
    | parts s =>
      simp only [Mem.builder.Build]
      rw [h s (Mem.Reads.parts s)]
      exact Mem_range_congr _ _ _
        (fun e he => ih e (fun t ht => h t (Mem.Reads.partsElem he ht)))
    | ofQuery q =>
      simp only [Mem.builder.Build]
      exact Mem_range_congr _ _ _
        (fun e he => ih e (fun t ht => h t (Mem.Reads.ofQuery he ht)))
    | ValueBuilder s =>
      simp only [Mem.builder.Build]
      rw [h s (Mem.Reads.valueBuilder s)]
      exact Mem_range_congr _ _ _
        (fun e he => ih e (fun t ht => h t (Mem.Reads.valueBuilderElem he ht)))

theorem Mem_Reads_frame (m m' : Mem.Memory) (b : Mem.builder) (t : Mem.Slice)
    (hr : Mem.Reads m' b t) :
    (∀ u, Mem.Reads m b u → Mem.elems m' u = Mem.elems m u) → Mem.Reads m b t := by
  induction hr with
  | parts s => intro _; exact Mem.Reads.parts s
  | partsElem he _ ih =>
    intro h
    rw [h _ (Mem.Reads.parts _)] at he
    exact Mem.Reads.partsElem he (ih (fun u hu => h u (Mem.Reads.partsElem he hu)))
  | ofPart _ ih =>
    intro h
    exact Mem.Reads.ofPart (ih (fun u hu => h u (Mem.Reads.ofPart hu)))
  | ofQuery he _ ih =>
    intro h
    exact Mem.Reads.ofQuery he (ih (fun u hu => h u (Mem.Reads.ofQuery he hu)))
  | valueBuilder s => intro _; exact Mem.Reads.valueBuilder s
  | valueBuilderElem he _ ih =>
    intro h
    rw [h _ (Mem.Reads.valueBuilder _)] at he
    exact Mem.Reads.valueBuilderElem he (ih (fun u hu => h u (Mem.Reads.valueBuilderElem he hu)))

theorem Mem_cells_append_lt (m : Mem.Memory) (x : List Mem.builder) (a : Nat) (h : a < m.length) :
    Mem.cells (m ++ [x]) a = Mem.cells m a := by
  simp [Mem.cells, List.getD_eq_getElem?_getD, List.getElem?_append_left h]

theorem Mem_cells_append_length (m : Mem.Memory) (x : List Mem.builder) :
    Mem.cells (m ++ [x]) m.length = x := by
  simp [Mem.cells, List.getD_eq_getElem?_getD]

theorem Mem_cells_ge (m : Mem.Memory) (a : Nat) (h : m.length ≤ a) : Mem.cells m a = [] := by
  simp [Mem.cells, List.getD_eq_getElem?_getD, List.getElem?_eq_none h]

theorem Mem_cells_set_ne (m : Mem.Memory) (x : List Mem.builder) (a b : Nat) (h : a ≠ b) :
    Mem.cells (m.set a x) b = Mem.cells m b := by
  simp [Mem.cells, List.getD_eq_getElem?_getD, List.getElem?_set_ne h]

theorem Mem_cells_set_self (m : Mem.Memory) (x : List Mem.builder) (a : Nat) (h : a < m.length) :
    Mem.cells (m.set a x) a = x := by
  simp [Mem.cells, List.getD_eq_getElem?_getD, List.getElem?_set_self h]

/-- An allocation keeps every valid slice. -/
theorem Mem_alloc_keeps (m : Mem.Memory) (x : List Mem.builder) (t : Mem.Slice)
    (ht : t.Valid m) : t.Valid (m ++ [x]) ∧ Mem.elems (m ++ [x]) t = Mem.elems m t := by
  by_cases h : t.array < m.length
  · simp only [Mem.Slice.Valid, Mem.elems, Mem_cells_append_lt m x _ h]
    exact ⟨ht, trivial⟩
  · have hc : Mem.cells m t.array = [] := Mem_cells_ge m _ (Nat.le_of_not_lt h)
    obtain ⟨h1, h2⟩ := ht
    rw [hc] at h2
    simp only [List.length_nil, Nat.le_zero_eq] at h2
    have hl : t.len = 0 := by omega
    refine ⟨⟨by omega, by omega⟩, ?_⟩
    simp [Mem.elems, hl]

theorem Mem_literal_keeps (vs : List Mem.builder) (m : Mem.Memory) (t : Mem.Slice)
    (ht : t.Valid m) :
    t.Valid (Mem.literal vs m).2 ∧ Mem.elems (Mem.literal vs m).2 t = Mem.elems m t :=
  Mem_alloc_keeps m vs t ht

theorem Mem_literal_elems (vs : List Mem.builder) (m : Mem.Memory) :
    (Mem.literal vs m).1.Valid (Mem.literal vs m).2 ∧
      Mem.elems (Mem.literal vs m).2 (Mem.literal vs m).1 = vs := by
  simp [Mem.literal, Mem.Slice.Valid, Mem.elems, Mem_cells_append_length]

theorem Mem_sliceAppend_elems (grow : Nat → Nat → Nat) (s : Mem.Slice) (vs : List Mem.builder)
    (m : Mem.Memory) (hs : s.Valid m) :
    (Mem.sliceAppend grow s vs m).1.Valid (Mem.sliceAppend grow s vs m).2 ∧
      Mem.elems (Mem.sliceAppend grow s vs m).2 (Mem.sliceAppend grow s vs m).1 =
        Mem.elems m s ++ vs := by
  obtain ⟨h1, h2⟩ := hs
  unfold Mem.sliceAppend
  by_cases hn : s.len + vs.length ≤ s.cap
  · simp only [hn, if_true]
    by_cases ha : s.array < m.length
    · simp only [Mem.Slice.Valid, Mem.elems, Mem_cells_set_self m _ _ ha]
      refine ⟨⟨hn, ?_⟩, ?_⟩
      · simp only [List.length_append, List.length_take, List.length_drop]
        omega
      · have hl : (List.take s.len (Mem.cells m s.array) ++ vs).length = s.len + vs.length := by
          simp only [List.length_append, List.length_take]
          omega
        rw [List.take_append_of_le_length (by omega), List.take_of_length_le (by omega)]
    · have hc : Mem.cells m s.array = [] := Mem_cells_ge m _ (Nat.le_of_not_lt ha)
      rw [hc] at h2
      simp only [List.length_nil, Nat.le_zero_eq] at h2
      have hv : vs = [] := List.eq_nil_of_length_eq_zero (by omega)
      have hl : s.len = 0 := by omega
      subst hv
      simp only [Mem.Slice.Valid, Mem.elems, hl]
      refine ⟨⟨by omega, by omega⟩, ?_⟩
      simp
  · simp only [hn, if_false]
    simp only [Mem.Slice.Valid, Mem.elems, Mem_cells_append_length]
    have hl : (List.take s.len (Mem.cells m s.array)).length = s.len := by
      simp only [List.length_take]
      omega
    refine ⟨⟨by omega, ?_⟩, ?_⟩
    · simp only [List.length_append, List.length_replicate, hl]
      omega
    · rw [List.take_append_of_le_length (by simp only [List.length_append, hl]; omega),
        List.take_of_length_le (by simp only [List.length_append, hl]; omega)]

/-- `append` keeps every valid slice that does not reach beyond the length of
the receiver on the receiver's backing array. -/
theorem Mem_sliceAppend_keeps (grow : Nat → Nat → Nat) (s : Mem.Slice) (vs : List Mem.builder)
    (m : Mem.Memory) (hs : s.Valid m) (t : Mem.Slice) (ht : t.Valid m)
    (hd : t.array = s.array → t.len ≤ s.len) :
    t.Valid (Mem.sliceAppend grow s vs m).2 ∧
      Mem.elems (Mem.sliceAppend grow s vs m).2 t = Mem.elems m t := by
  unfold Mem.sliceAppend
  by_cases hn : s.len + vs.length ≤ s.cap
  · simp only [hn, if_true]
    by_cases hta : t.array = s.array
    · have htl := hd hta
      obtain ⟨h1, h2⟩ := hs
      obtain ⟨h3, h4⟩ := ht
      by_cases ha : s.array < m.length
      · simp only [Mem.Slice.Valid, Mem.elems, hta, Mem_cells_set_self m _ _ ha]
        rw [hta] at h4
        refine ⟨⟨h3, ?_⟩, ?_⟩
        · simp only [List.length_append, List.length_take, List.length_drop]
          omega
        · rw [List.append_assoc, List.take_append_of_le_length
            (by simp only [List.length_take]; omega), List.take_take]
          congr 1
          omega
      · have hc : Mem.cells m s.array = [] := Mem_cells_ge m _ (Nat.le_of_not_lt ha)
        rw [hta, hc] at h4
        simp only [List.length_nil, Nat.le_zero_eq] at h4
        have hl : t.len = 0 := by omega
        simp only [Mem.Slice.Valid, Mem.elems, hl]
        refine ⟨⟨by omega, by omega⟩, ?_⟩
        simp
    · simp only [Mem.Slice.Valid, Mem.elems, Mem_cells_set_ne m _ _ _ (Ne.symm hta)]
      exact ⟨ht, trivial⟩
  · simp only [hn, if_false]
    exact Mem_alloc_keeps m _ t ht

/-- `append` past the capacity keeps every valid slice. -/
theorem Mem_sliceAppend_keeps_full (grow : Nat → Nat → Nat) (s : Mem.Slice)
    (vs : List Mem.builder) (m : Mem.Memory) (hn : s.cap < s.len + vs.length) (t : Mem.Slice)
    (ht : t.Valid m) :
    t.Valid (Mem.sliceAppend grow s vs m).2 ∧
      Mem.elems (Mem.sliceAppend grow s vs m).2 t = Mem.elems m t := by
  unfold Mem.sliceAppend
  simp only [Nat.not_le.mpr hn, if_false]
  exact Mem_alloc_keeps m _ t ht

theorem Mem_Extends_keeps (m m' : Mem.Memory) (h : Mem.Extends m m') (t : Mem.Slice)
    (ht : t.Valid m) : t.Valid m' ∧ Mem.elems m' t = Mem.elems m t := by
  by_cases ha : t.array < m.length
  · simp only [Mem.Slice.Valid, Mem.elems, h.2 _ ha]
    exact ⟨ht, trivial⟩
  · have hc : Mem.cells m t.array = [] := Mem_cells_ge m _ (Nat.le_of_not_lt ha)
    obtain ⟨h1, h2⟩ := ht
    rw [hc] at h2
    simp only [List.length_nil, Nat.le_zero_eq] at h2
    have hl : t.len = 0 := by omega
    refine ⟨⟨by omega, by omega⟩, ?_⟩
    simp [Mem.elems, hl]

theorem Mem_fill_rangeSep {σ τ : Type} (app₁ : σ → List Mem.builder → σ)
    (app₂ : τ → List Mem.builder → τ) (R : σ → τ → Prop)
    (hR : ∀ a b vs, vs ≠ [] → R a b → R (app₁ a vs) (app₂ b vs)) (sep : Mem.builder) :
    ∀ (vs : List Mem.Part) (i : Nat) (a : σ) (b : τ), R a b →
      R (Mem.Query.Build.rangeSep app₁ sep i vs a) (Mem.Query.Build.rangeSep app₂ sep i vs b) := by
  intro vs
  induction vs with
  | nil => intro i a b h; exact h
  | cons v vs ih =>
    intro i a b h
    simp only [Mem.Query.Build.rangeSep]
    apply ih
    apply hR _ _ _ (by simp)
    by_cases hi : i = 0
    · simpa [hi] using h
    · simpa [hi] using hR _ _ _ (by simp) h

theorem Mem_fill_rangeJoin {σ τ : Type} (app₁ : σ → List Mem.builder → σ)
    (app₂ : τ → List Mem.builder → τ) (R : σ → τ → Prop)
    (hR : ∀ a b vs, vs ≠ [] → R a b → R (app₁ a vs) (app₂ b vs)) :
    ∀ (vs : List Mem.Part) (a : σ) (b : τ), R a b →
      R (Mem.Query.Build.rangeJoin app₁ vs a) (Mem.Query.Build.rangeJoin app₂ vs b) := by
  intro vs
  induction vs with
  | nil => intro a b h; exact h
  | cons v vs ih =>
    intro a b h
    simp only [Mem.Query.Build.rangeJoin]
    exact ih _ _ (hR _ _ _ (by simp) h)

theorem Mem_fill_ite {σ τ : Type} (R : σ → τ → Prop) (c : Prop) [Decidable c] (a₁ a₂ : σ)
    (b₁ b₂ : τ) (h₁ : R a₁ b₁) (h₂ : R a₂ b₂) :
    R (if c then a₁ else a₂) (if c then b₁ else b₂) := by
  split <;> assumption

/-- What holds between two local slices of `Query.Build` at the start holds at
the end, when every `append` keeps it. -/
theorem Mem_fill_sim {σ τ : Type} (app₁ : σ → List Mem.builder → σ)
    (app₂ : τ → List Mem.builder → τ) (R : σ → τ → Prop)
    (hR : ∀ a b vs, vs ≠ [] → R a b → R (app₁ a vs) (app₂ b vs)) (q : Mem.Query)
    (a : σ) (b : τ) (h : R a b) :
    R (Mem.Query.Build.fill app₁ q a) (Mem.Query.Build.fill app₂ q b) := by
  have hS := Mem_fill_rangeSep app₁ app₂ R hR
  have hJ := Mem_fill_rangeJoin app₁ app₂ R hR
  have h1 : ∀ (x : Mem.builder) a b, R a b → R (app₁ a [x]) (app₂ b [x]) :=
    fun x a b h => hR a b [x] (by simp) h
  simp only [Mem.Query.Build.fill]
  repeat' first
    | exact h
    | with_reducible apply Mem_fill_ite R
    | with_reducible apply h1
    | with_reducible apply hS
    | with_reducible apply hJ

theorem Mem_Local_append (grow : Nat → Nat → Nat) (m : Mem.Memory) (l : List Mem.builder)
    (st : Mem.Slice × Mem.Memory) (vs : List Mem.builder) (hvs : vs ≠ [])
    (h : Mem.Local m l st) :
    Mem.Local m (l ++ vs) (Mem.sliceAppend grow st.1 vs st.2) := by
  obtain ⟨hv, he, ha, hx⟩ := h
  obtain ⟨h1, h2⟩ := Mem_sliceAppend_elems grow st.1 vs st.2 hv
  refine ⟨h1, by rw [h2, he], ?_, ?_⟩
  · unfold Mem.sliceAppend
    by_cases hn : st.1.len + vs.length ≤ st.1.cap
    · simp only [hn, if_true]
      have : 0 < vs.length := List.length_pos.mpr hvs
      rcases ha with ha | ha
      · omega
      · exact Or.inr ha
    · simp only [hn, if_false]
      exact Or.inr hx.1
  · unfold Mem.sliceAppend
    by_cases hn : st.1.len + vs.length ≤ st.1.cap
    · simp only [hn, if_true]
      have : 0 < vs.length := List.length_pos.mpr hvs
      have ha' : m.length ≤ st.1.array := by
        rcases ha with ha | ha
        · omega
        · exact ha
      refine ⟨by simpa using hx.1, fun a hlt => ?_⟩
      rw [Mem_cells_set_ne _ _ _ _ (by omega)]
      exact hx.2 a hlt
    · simp only [hn, if_false]
      refine ⟨by simp only [List.length_append, List.length_singleton]; have := hx.1; omega,
        fun a hlt => ?_⟩
      rw [Mem_cells_append_lt _ _ _ (Nat.lt_of_lt_of_le hlt hx.1)]
      exact hx.2 a hlt

theorem Mem_Query_Build_Local (grow : Nat → Nat → Nat) (q : Mem.Query) (m : Mem.Memory) :
    Mem.Local m (Mem.Query.Build.parts q)
      (Mem.Query.Build.fill (fun st vs => Mem.sliceAppend grow st.1 vs st.2) q (⟨0, 0, 0⟩, m)) := by
  unfold Mem.Query.Build.parts
  apply Mem_fill_sim (fun ps vs => ps ++ vs) (fun st vs => Mem.sliceAppend grow st.1 vs st.2)
    (Mem.Local m)
  · intro a b vs hvs h
    exact Mem_Local_append grow m a b vs hvs h
  · refine ⟨⟨Nat.le_refl _, Nat.zero_le _⟩, ?_, Or.inl rfl, Nat.le_refl _, fun _ _ => rfl⟩
    simp [Mem.elems]

/-- Rendering in a memory that keeps the slices read gives the same result. -/
theorem Mem_Build_Extends (m m' : Mem.Memory) (h : Mem.Extends m m') (b : Mem.builder)
    (hb : ∀ t, Mem.Reads m b t → t.Valid m) (f : Nat) :
    Mem.builder.Build m' f b = Mem.builder.Build m f b :=
  Mem_Build_frame m m' f b (fun t ht => (Mem_Extends_keeps m m' h t (hb t ht)).2)

theorem Mem_Query_Build_eq (grow : Nat → Nat → Nat) (q : Mem.Query) (fuel : Nat)
    (m : Mem.Memory) (hq : ∀ t, Mem.Reads m (.ofQuery q) t → t.Valid m) :
    (Mem.Query.Build grow q fuel m).1 = Mem.builder.Build m fuel (.ofQuery q) := by
  obtain ⟨_, he, _, hx⟩ := Mem_Query_Build_Local grow q m
  cases fuel with
  | zero => rfl
  | succ f =>
    simp only [Mem.Query.Build, Mem.builder.Build]
    rw [he]
    exact Mem_range_congr _ _ _ (fun e hm =>
      Mem_Build_Extends m _ hx e (fun t ht => hq t (Mem.Reads.ofQuery hm ht)) f)

theorem Mem_Reads_Extends (m m' : Mem.Memory) (h : Mem.Extends m m') (b : Mem.builder)
    (hb : ∀ t, Mem.Reads m b t → t.Valid m) (t : Mem.Slice) (ht : Mem.Reads m' b t) :
    Mem.Reads m b t ∧ t.Valid m' := by
  have h1 := Mem_Reads_frame m m' b t ht (fun u hu => (Mem_Extends_keeps m m' h u (hb u hu)).2)
  exact ⟨h1, (Mem_Extends_keeps m m' h t (hb t h1)).1⟩


/-! ### Renderings with enough fuel -/

theorem Mem_Renders_of_Build (m : Mem.Memory) (b : Mem.builder) (r : String × List Any)
    (f : Nat) (h : Mem.builder.Build m f b = some r) : Mem.Renders m b r :=
  ⟨f, fun F hF => Mem_Build_mono_le m f F hF b r h⟩

theorem Mem_Renders_partString (m : Mem.Memory) (t : String) :
    Mem.Renders m (.partString t) (t, []) :=
  Mem_Renders_of_Build m _ _ 1 rfl

theorem Mem_Renders_partByte (m : Mem.Memory) (c : Fin 256) :
    Mem.Renders m (.partByte c) (String.singleton (Char.ofNat c.val), []) :=
  Mem_Renders_of_Build m _ _ 1 rfl

theorem Mem_Renders_partParam (m : Mem.Memory) (v : Any) :
    Mem.Renders m (.partParam v) ("?", [v]) :=
  Mem_Renders_of_Build m _ _ 1 rfl

theorem Mem_Renders_ofPart (m : Mem.Memory) (p : Mem.Part) (r : String × List Any)
    (h : Mem.Renders m p.builder r) : Mem.Renders m (.ofPart p) r := by
  obtain ⟨f, hf⟩ := h
  refine ⟨f + 1, fun F hF => ?_⟩
  obtain ⟨k, rfl⟩ : ∃ k, F = k + 1 := ⟨F - 1, by omega⟩
  simp only [Mem.builder.Build]
  exact hf k (by omega)

theorem Mem_RendersAll_nil (m : Mem.Memory) : Mem.RendersAll m [] ("", []) :=
  ⟨0, fun _ _ => rfl⟩

theorem Mem_RendersAll_cons (m : Mem.Memory) (b : Mem.builder) (bs : List Mem.builder)
    (r r' : String × List Any) (h : Mem.Renders m b r) (h' : Mem.RendersAll m bs r') :
    Mem.RendersAll m (b :: bs) (r.1 ++ r'.1, r.2 ++ r'.2) := by
  obtain ⟨f, hf⟩ := h
  obtain ⟨f', hf'⟩ := h'
  refine ⟨max f f', fun F hF => ?_⟩
  rw [Mem_range_cons, hf F (by omega), hf' F (by omega)]
  rfl

theorem Mem_RendersAll_append (m : Mem.Memory) (as bs : List Mem.builder)
    (r r' : String × List Any) (h : Mem.RendersAll m as r) (h' : Mem.RendersAll m bs r') :
    Mem.RendersAll m (as ++ bs) (r.1 ++ r'.1, r.2 ++ r'.2) := by
  obtain ⟨f, hf⟩ := h
  obtain ⟨f', hf'⟩ := h'
  refine ⟨max f f', fun F hF => ?_⟩
  rw [Mem_range_append, hf F (by omega), hf' F (by omega)]
  rfl

theorem Mem_Renders_parts (m : Mem.Memory) (s : Mem.Slice) (r : String × List Any)
    (h : Mem.RendersAll m (Mem.elems m s) r) : Mem.Renders m (.parts s) r := by
  obtain ⟨f, hf⟩ := h
  refine ⟨f + 1, fun F hF => ?_⟩
  obtain ⟨k, rfl⟩ : ∃ k, F = k + 1 := ⟨F - 1, by omega⟩
  simp only [Mem.builder.Build]
  exact hf k (by omega)

theorem Mem_RendersAll_of_parts (m : Mem.Memory) (s : Mem.Slice) (r : String × List Any)
    (h : Mem.Renders m (.parts s) r) : Mem.RendersAll m (Mem.elems m s) r := by
  obtain ⟨f, hf⟩ := h
  refine ⟨f, fun F hF => ?_⟩
  have := hf (F + 1) (by omega)
  simpa only [Mem.builder.Build] using this

theorem Mem_RendersAll_singleton (m : Mem.Memory) (b : Mem.builder) (r : String × List Any)
    (h : Mem.Renders m b r) : Mem.RendersAll m [b] r := by
  have := Mem_RendersAll_cons m b [] r ("", []) h (Mem_RendersAll_nil m)
  simpa using this

theorem Mem_Part_base_parts (m : Mem.Memory) (p : Mem.Part) (s : Mem.Slice)
    (h : p.builder = .parts s) : Mem.Part.base m p = Mem.elems m s := by
  simp [Mem.Part.base, h]

theorem Mem_Part_base_else (m : Mem.Memory) (p : Mem.Part) (h : ∀ s, p.builder ≠ .parts s) :
    Mem.Part.base m p = [.ofPart p] := by
  unfold Mem.Part.base
  cases hb : p.builder <;> first | rfl | exact absurd hb (h _)

/-- The elements that `Part.append` starts from render what `p` renders. -/
theorem Mem_RendersAll_base (m : Mem.Memory) (p : Mem.Part) (r : String × List Any)
    (h : Mem.Renders m p.builder r) : Mem.RendersAll m (Mem.Part.base m p) r := by
  by_cases hs : ∃ s, p.builder = .parts s
  · obtain ⟨s, hs⟩ := hs
    rw [Mem_Part_base_parts m p s hs]
    rw [hs] at h
    exact Mem_RendersAll_of_parts m s r h
  · rw [Mem_Part_base_else m p (fun s hs' => hs ⟨s, hs'⟩)]
    exact Mem_RendersAll_singleton m _ r (Mem_Renders_ofPart m p r h)

theorem Mem_Reads_base (m : Mem.Memory) (p : Mem.Part) (e : Mem.builder) (t : Mem.Slice)
    (he : e ∈ Mem.Part.base m p) (ht : Mem.Reads m e t) : Mem.Reads m p.builder t := by
  by_cases hs : ∃ s, p.builder = .parts s
  · obtain ⟨s, hs⟩ := hs
    rw [Mem_Part_base_parts m p s hs] at he
    rw [hs]
    exact Mem.Reads.partsElem he ht
  · rw [Mem_Part_base_else m p (fun s hs' => hs ⟨s, hs'⟩)] at he
    simp only [List.mem_singleton] at he
    subst he
    cases ht with
    | ofPart h => exact h

theorem Mem_Reads_parts_inv (m : Mem.Memory) (s t : Mem.Slice) (h : Mem.Reads m (.parts s) t) :
    t = s ∨ ∃ e, e ∈ Mem.elems m s ∧ Mem.Reads m e t := by
  cases h with
  | parts => exact Or.inl rfl
  | partsElem he hr => exact Or.inr ⟨_, he, hr⟩

theorem Mem_Renders_frame (m m' : Mem.Memory) (b : Mem.builder) (r : String × List Any)
    (h : ∀ t, Mem.Reads m b t → Mem.elems m' t = Mem.elems m t) (hr : Mem.Renders m b r) :
    Mem.Renders m' b r := by
  obtain ⟨f, hf⟩ := hr
  exact ⟨f, fun F hF => by rw [Mem_Build_frame m m' F b h]; exact hf F hF⟩

theorem Mem_Live_keep (m m' : Mem.Memory) (b : Mem.builder) (r : String × List Any)
    (h : Mem.Live m b r)
    (hk : ∀ t, Mem.Reads m b t → t.Valid m' ∧ Mem.elems m' t = Mem.elems m t) :
    Mem.Live m' b r ∧ ∀ t, Mem.Reads m' b t → Mem.Reads m b t := by
  have hf : ∀ t, Mem.Reads m' b t → Mem.Reads m b t :=
    fun t ht => Mem_Reads_frame m m' b t ht (fun u hu => (hk u hu).2)
  exact ⟨⟨Mem_Renders_frame m m' b r (fun t ht => (hk t ht).2) h.1,
    fun t ht => (hk t (hf t ht)).1⟩, hf⟩

theorem Mem_Part_append_parts (grow : Nat → Nat → Nat) (p : Mem.Part) (vs : List Mem.builder)
    (m : Mem.Memory) (s : Mem.Slice) (h : p.builder = .parts s) :
    Mem.Part.append grow p vs m =
      (⟨.parts (Mem.sliceAppend grow s vs m).1⟩, (Mem.sliceAppend grow s vs m).2) := by
  simp [Mem.Part.append, h]

theorem Mem_Part_append_else (grow : Nat → Nat → Nat) (p : Mem.Part) (vs : List Mem.builder)
    (m : Mem.Memory) (h : ∀ s, p.builder ≠ .parts s) :
    Mem.Part.append grow p vs m =
      (⟨.parts (Mem.sliceAppend grow (Mem.literal [.ofPart p] m).1 vs
          (Mem.literal [.ofPart p] m).2).1⟩,
        (Mem.sliceAppend grow (Mem.literal [.ofPart p] m).1 vs (Mem.literal [.ofPart p] m).2).2) := by
  unfold Mem.Part.append
  cases hb : p.builder <;> first | rfl | exact absurd hb (h _)

theorem Mem_sliceAppend_array (grow : Nat → Nat → Nat) (s : Mem.Slice) (vs : List Mem.builder)
    (m : Mem.Memory) :
    (s.len + vs.length ≤ s.cap ∧ (Mem.sliceAppend grow s vs m).1.array = s.array) ∨
      (s.cap < s.len + vs.length ∧ (Mem.sliceAppend grow s vs m).1.array = m.length) := by
  by_cases hn : s.len + vs.length ≤ s.cap
  · refine Or.inl ⟨hn, ?_⟩
    unfold Mem.sliceAppend
    simp only [hn, if_true]
  · refine Or.inr ⟨by omega, ?_⟩
    unfold Mem.sliceAppend
    simp only [hn, if_false]

theorem Mem_sliceAppend_len (grow : Nat → Nat → Nat) (s : Mem.Slice) (vs : List Mem.builder)
    (m : Mem.Memory) : (Mem.sliceAppend grow s vs m).1.len = s.len + vs.length := by
  unfold Mem.sliceAppend
  by_cases hn : s.len + vs.length ≤ s.cap <;> simp only [hn, if_true, if_false]

/-- An `append` that finds its elements already in place leaves the memory as
it was. -/
theorem Mem_sliceAppend_same (grow : Nat → Nat → Nat) (s : Mem.Slice) (vs : List Mem.builder)
    (m : Mem.Memory) (hn : s.len + vs.length ≤ s.cap)
    (h : Mem.elems m ⟨s.array, s.len + vs.length, s.cap⟩ = Mem.elems m s ++ vs) :
    (Mem.sliceAppend grow s vs m).2 = m := by
  unfold Mem.sliceAppend
  simp only [hn, if_true]
  simp only [Mem.elems] at h
  rw [← h, List.take_append_drop]
  by_cases ha : s.array < m.length
  · simp only [Mem.cells, List.getD_eq_getElem?_getD, List.getElem?_eq_getElem ha,
      Option.getD_some]
    apply List.ext_getElem
    · simp
    · intro n h1 h2
      simp only [List.getElem_set]
      split
      · next h => subst h; rfl
      · rfl
  · exact List.set_eq_of_length_le (Nat.le_of_not_lt ha)

theorem Mem_Valid_array_lt (m : Mem.Memory) (s : Mem.Slice) (hs : s.Valid m) (h : 0 < s.cap) :
    s.array < m.length := by
  by_contra ha
  have hc : Mem.cells m s.array = [] := Mem_cells_ge m _ (Nat.le_of_not_lt ha)
  have := hs.2
  rw [hc] at this
  simp at this
  omega

/-- What `Part.append` does: the result holds a slice of the elements it starts
from and the new ones; every slice that does not reach into the cells it writes
is kept. -/
theorem Mem_Part_append_spec (grow : Nat → Nat → Nat) (p : Mem.Part) (vs : List Mem.builder)
    (m : Mem.Memory) (hp : Mem.builder.Sound m p.builder) :
    ∃ s', (Mem.Part.append grow p vs m).1 = ⟨.parts s'⟩ ∧
      s'.Valid (Mem.Part.append grow p vs m).2 ∧
      Mem.elems (Mem.Part.append grow p vs m).2 s' = Mem.Part.base m p ++ vs ∧
      ((∃ s, p.builder = .parts s ∧ s.len + vs.length ≤ s.cap ∧ s'.array = s.array ∧
          s'.len = s.len + vs.length) ∨ m.length ≤ s'.array) ∧
      (∀ t : Mem.Slice, t.Valid m →
        (∀ s, p.builder = .parts s → s.len + vs.length ≤ s.cap → t.array = s.array →
          t.len ≤ s.len) →
        t.Valid (Mem.Part.append grow p vs m).2 ∧
          Mem.elems (Mem.Part.append grow p vs m).2 t = Mem.elems m t) ∧
      (∀ s, p.builder = .parts s → s.len + vs.length ≤ s.cap →
        Mem.elems m ⟨s.array, s.len + vs.length, s.cap⟩ = Mem.elems m s ++ vs →
        (Mem.Part.append grow p vs m).2 = m) := by
  by_cases hs : ∃ s, p.builder = .parts s
  · obtain ⟨s, hs⟩ := hs
    have hv : s.Valid m := hp s (by rw [hs]; exact Mem.Reads.parts s)
    obtain ⟨h1, h2⟩ := Mem_sliceAppend_elems grow s vs m hv
    rw [Mem_Part_append_parts grow p vs m s hs, Mem_Part_base_parts m p s hs]
    refine ⟨_, rfl, h1, h2, ?_, ?_, ?_⟩
    · rcases Mem_sliceAppend_array grow s vs m with ⟨hn, ha⟩ | ⟨_, ha⟩
      · exact Or.inl ⟨s, hs, hn, ha, Mem_sliceAppend_len grow s vs m⟩
      · exact Or.inr (by simp only [ha]; exact Nat.le_refl _)
    · intro t ht hd
      by_cases hn : s.len + vs.length ≤ s.cap
      · exact Mem_sliceAppend_keeps grow s vs m hv t ht (hd s hs hn)
      · exact Mem_sliceAppend_keeps_full grow s vs m (by omega) t ht
    · intro s₂ hs₂ hn h
      rw [hs] at hs₂
      cases hs₂
      exact Mem_sliceAppend_same grow s vs m hn h
  · have hne : ∀ s, p.builder ≠ .parts s := fun s hs' => hs ⟨s, hs'⟩
    obtain ⟨hl1, hl2⟩ := Mem_literal_elems [Mem.builder.ofPart p] m
    obtain ⟨h1, h2⟩ := Mem_sliceAppend_elems grow _ vs _ hl1
    rw [Mem_Part_append_else grow p vs m hne, Mem_Part_base_else m p hne]
    refine ⟨_, rfl, h1, by rw [h2, hl2], Or.inr ?_, ?_, ?_⟩
    · rcases Mem_sliceAppend_array grow (Mem.literal [Mem.builder.ofPart p] m).1 vs
        (Mem.literal [Mem.builder.ofPart p] m).2 with ⟨_, ha⟩ | ⟨_, ha⟩
      · rw [ha]
        exact Nat.le_refl _
      · rw [ha]
        simp [Mem.literal]
    · intro t ht _
      obtain ⟨k1, k2⟩ := Mem_literal_keeps [Mem.builder.ofPart p] m t ht
      have := Mem_sliceAppend_keeps grow _ vs _ hl1 t k1 (by
        intro ha
        simp only [Mem.literal] at ha
        have hc : Mem.cells m t.array = [] := Mem_cells_ge m _ (by omega)
        have h3 := ht.1
        have h4 := ht.2
        rw [hc] at h4
        simp only [List.length_nil, Nat.le_zero_eq] at h4
        omega)
      exact ⟨this.1, by rw [this.2, k2]⟩
    · intro s hs' _ _
      exact absurd hs' (hne s)

theorem Mem_RendersAll_frame (m m' : Mem.Memory) (bs : List Mem.builder)
    (r : String × List Any)
    (h : ∀ e ∈ bs, ∀ t, Mem.Reads m e t → Mem.elems m' t = Mem.elems m t)
    (hr : Mem.RendersAll m bs r) : Mem.RendersAll m' bs r := by
  obtain ⟨f, hf⟩ := hr
  refine ⟨f, fun F hF => ?_⟩
  rw [Mem_range_congr (Mem.builder.Build m F) (Mem.builder.Build m' F) bs
    (fun e he => Mem_Build_frame m m' F e (h e he))]
  exact hf F hF

/-- A slice of live elements is live. -/
theorem Mem_Live_parts (m : Mem.Memory) (s : Mem.Slice) (r : String × List Any)
    (hs : s.Valid m) (hr : Mem.RendersAll m (Mem.elems m s) r)
    (he : ∀ e ∈ Mem.elems m s, Mem.builder.Sound m e) : Mem.Live m (.parts s) r := by
  refine ⟨Mem_Renders_parts m s r hr, fun t ht => ?_⟩
  rcases Mem_Reads_parts_inv m s t ht with rfl | ⟨e, hm, hr⟩
  · exact hs
  · exact he e hm t hr

theorem Mem_Live_ofPart (m : Mem.Memory) (p : Mem.Part) (r : String × List Any)
    (h : Mem.Live m p.builder r) : Mem.Live m (.ofPart p) r :=
  ⟨Mem_Renders_ofPart m p r h.1, fun t ht => by cases ht with | ofPart h' => exact h.2 t h'⟩

theorem Mem_Sound_partString (m : Mem.Memory) (t : String) :
    Mem.builder.Sound m (.partString t) := fun _ h => nomatch h

theorem Mem_Sound_partByte (m : Mem.Memory) (c : Fin 256) :
    Mem.builder.Sound m (.partByte c) := fun _ h => nomatch h

theorem Mem_Sound_partParam (m : Mem.Memory) (v : Any) :
    Mem.builder.Sound m (.partParam v) := fun _ h => nomatch h

/-- What keeping the slices read on `b` gives. -/
theorem Mem_Live_of_keeps (m m' : Mem.Memory)
    (hk : ∀ t : Mem.Slice, t.Valid m → t.Valid m' ∧ Mem.elems m' t = Mem.elems m t)
    (b : Mem.builder) (r : String × List Any) (h : Mem.Live m b r) : Mem.Live m' b r :=
  (Mem_Live_keep m m' b r h (fun t ht => hk t (h.2 t ht))).1

/-- The composite literal `parts{...}` of live elements is live, and every live
fragment stays live. -/
theorem Mem_Live_literal (vs : List Mem.builder) (m : Mem.Memory) (r : String × List Any)
    (hr : Mem.RendersAll m vs r) (hs : ∀ e ∈ vs, Mem.builder.Sound m e) :
    Mem.Live (Mem.literal vs m).2 (.parts (Mem.literal vs m).1) r ∧
      (∀ (b : Mem.builder) (r : String × List Any),
        Mem.Live m b r → Mem.Live (Mem.literal vs m).2 b r) := by
  have hk := Mem_literal_keeps vs m
  obtain ⟨hv, he⟩ := Mem_literal_elems vs m
  refine ⟨Mem_Live_parts _ _ r hv ?_ ?_, fun b r h => Mem_Live_of_keeps m _ hk b r h⟩
  · rw [he]
    exact Mem_RendersAll_frame m _ vs r (fun e hm t ht => (hk t (hs e hm t ht)).2) hr
  · rw [he]
    intro e hm t ht
    have h1 := Mem_Reads_frame m _ e t ht (fun u hu => (hk u (hs e hm u hu)).2)
    exact (hk t (hs e hm t h1)).1

/-- The result of `Part.append` on a live fragment with live new elements, none
of which is read in the cells that the call writes, is live and renders the
two renderings one after the other. -/
theorem Mem_Live_append (grow : Nat → Nat → Nat) (p : Mem.Part) (vs : List Mem.builder)
    (m : Mem.Memory) (rp rv : String × List Any)
    (hp : Mem.Live m p.builder rp) (hv : Mem.RendersAll m vs rv)
    (hvs : ∀ e ∈ vs, Mem.builder.Sound m e)
    (hup : Mem.Part.Unshared m p vs.length p.builder)
    (huv : ∀ e ∈ vs, Mem.Part.Unshared m p vs.length e) :
    ∃ s', (Mem.Part.append grow p vs m).1 = ⟨.parts s'⟩ ∧
      Mem.Live (Mem.Part.append grow p vs m).2 (.parts s') (rp.1 ++ rv.1, rp.2 ++ rv.2) ∧
      Mem.elems (Mem.Part.append grow p vs m).2 s' = Mem.Part.base m p ++ vs ∧
      (∀ t, Mem.Reads (Mem.Part.append grow p vs m).2 (.parts s') t →
        t = s' ∨ Mem.Reads m p.builder t ∨ ∃ e, e ∈ vs ∧ Mem.Reads m e t) ∧
      ((∃ s, p.builder = .parts s ∧ s.len + vs.length ≤ s.cap ∧ s'.array = s.array ∧
          s'.len = s.len + vs.length) ∨ m.length ≤ s'.array) ∧
      (∀ t : Mem.Slice, t.Valid m →
        (∀ s, p.builder = .parts s → s.len + vs.length ≤ s.cap → t.array = s.array →
          t.len ≤ s.len) →
        t.Valid (Mem.Part.append grow p vs m).2 ∧
          Mem.elems (Mem.Part.append grow p vs m).2 t = Mem.elems m t) ∧
      (∀ s, p.builder = .parts s → s.len + vs.length ≤ s.cap →
        Mem.elems m ⟨s.array, s.len + vs.length, s.cap⟩ = Mem.elems m s ++ vs →
        (Mem.Part.append grow p vs m).2 = m) := by
  obtain ⟨s', h1, h2, h3, h4, h5, h6⟩ := Mem_Part_append_spec grow p vs m hp.2
  have kb : ∀ e ∈ Mem.Part.base m p, ∀ t, Mem.Reads m e t →
      t.Valid (Mem.Part.append grow p vs m).2 ∧
        Mem.elems (Mem.Part.append grow p vs m).2 t = Mem.elems m t := by
    intro e he t ht
    have hr := Mem_Reads_base m p e t he ht
    exact h5 t (hp.2 t hr) (fun s hs hn => hup s hs hn t hr)
  have kv : ∀ e ∈ vs, ∀ t, Mem.Reads m e t →
      t.Valid (Mem.Part.append grow p vs m).2 ∧
        Mem.elems (Mem.Part.append grow p vs m).2 t = Mem.elems m t := by
    intro e he t ht
    exact h5 t (hvs e he t ht) (fun s hs hn => huv e he s hs hn t ht)
  have hreads : ∀ e ∈ Mem.Part.base m p ++ vs, ∀ t,
      Mem.Reads (Mem.Part.append grow p vs m).2 e t →
      (Mem.Reads m p.builder t ∨ ∃ e, e ∈ vs ∧ Mem.Reads m e t) ∧
        t.Valid (Mem.Part.append grow p vs m).2 := by
    intro e he t ht
    rcases List.mem_append.mp he with hb | hv'
    · have h := Mem_Reads_frame m _ e t ht (fun u hu => (kb e hb u hu).2)
      exact ⟨Or.inl (Mem_Reads_base m p e t hb h), (kb e hb t h).1⟩
    · have h := Mem_Reads_frame m _ e t ht (fun u hu => (kv e hv' u hu).2)
      exact ⟨Or.inr ⟨e, hv', h⟩, (kv e hv' t h).1⟩
  refine ⟨s', h1, Mem_Live_parts _ s' _ h2 ?_ ?_, h3, ?_, h4, h5, h6⟩
  · rw [h3]
    exact Mem_RendersAll_append _ _ _ rp rv
      (Mem_RendersAll_frame m _ _ rp (fun e he t ht => (kb e he t ht).2)
        (Mem_RendersAll_base m p rp hp.1))
      (Mem_RendersAll_frame m _ _ rv (fun e he t ht => (kv e he t ht).2) hv)
  · rw [h3]
    intro e he t ht
    exact (hreads e he t ht).2
  · intro t ht
    rcases Mem_Reads_parts_inv _ s' t ht with rfl | ⟨e, hm, hr⟩
    · exact Or.inl rfl
    · rw [h3] at hm
      exact Or.inr (hreads e hm t hr).1

theorem Mem_RendersAll_op (m : Mem.Memory) (op : String) (v : Mem.Part)
    (rv : String × List Any) (h : Mem.Renders m v.builder rv) :
    Mem.RendersAll m [.partString op, .ofPart v] (op ++ rv.1, rv.2) := by
  have := Mem_RendersAll_cons m _ _ _ _ (Mem_Renders_partString m op)
    (Mem_RendersAll_singleton m _ rv (Mem_Renders_ofPart m v rv h))
  simpa using this

theorem Mem_Sound_op (m : Mem.Memory) (op : String) (v : Mem.Part)
    (h : Mem.builder.Sound m v.builder) :
    ∀ e ∈ [Mem.builder.partString op, Mem.builder.ofPart v], Mem.builder.Sound m e := by
  intro e he
  simp only [List.mem_cons, List.mem_singleton, List.not_mem_nil, or_false] at he
  rcases he with rfl | rfl
  · exact Mem_Sound_partString m op
  · exact fun t ht => by cases ht with | ofPart h' => exact h t h'

theorem Mem_Unshared_op (m : Mem.Memory) (p : Mem.Part) (n : Nat) (op : String) (v : Mem.Part)
    (h : Mem.Part.Unshared m p n v.builder) :
    ∀ e ∈ [Mem.builder.partString op, Mem.builder.ofPart v], Mem.Part.Unshared m p n e := by
  intro e he
  simp only [List.mem_cons, List.mem_singleton, List.not_mem_nil, or_false] at he
  rcases he with rfl | rfl
  · exact fun _ _ _ _ ht => nomatch ht
  · exact fun s hs hn t ht => by cases ht with | ofPart h' => exact h s hs hn t h'

theorem Mem_Unshared_else (m : Mem.Memory) (p : Mem.Part) (n : Nat) (b : Mem.builder)
    (h : ∀ s, p.builder ≠ .parts s) : Mem.Part.Unshared m p n b :=
  fun s hs => absurd hs (h s)

/-- An operator method on a receiver that holds no slice: the result is live
and every live fragment stays live. -/
theorem Mem_Live_op_else (grow : Nat → Nat → Nat) (p v : Mem.Part) (op : String)
    (m : Mem.Memory) (rp rv : String × List Any) (hne : ∀ s, p.builder ≠ .parts s)
    (hp : Mem.Live m p.builder rp) (hv : Mem.Live m v.builder rv) :
    Mem.Live (Mem.Part.append grow p [.partString op, .ofPart v] m).2
        (Mem.Part.append grow p [.partString op, .ofPart v] m).1.builder
        (rp.1 ++ op ++ rv.1, rp.2 ++ rv.2) ∧
      (∀ (b : Mem.builder) (r : String × List Any), Mem.Live m b r →
        Mem.Live (Mem.Part.append grow p [.partString op, .ofPart v] m).2 b r) := by
  obtain ⟨s', h1, h2, _, _, _, h5, _⟩ := Mem_Live_append grow p [.partString op, .ofPart v] m rp
    (op ++ rv.1, rv.2) hp (Mem_RendersAll_op m op v rv hv.1) (Mem_Sound_op m op v hv.2)
    (Mem_Unshared_else m p _ _ hne) (fun e _ => Mem_Unshared_else m p _ e hne)
  refine ⟨?_, fun b r h => Mem_Live_of_keeps m _
    (fun t ht => h5 t ht (fun s hs => absurd hs (hne s))) b r h⟩
  rw [h1]
  simpa [String.append_assoc] using h2

theorem Mem_Live_lit3 (a b c : Mem.builder) (m : Mem.Memory) (ra rb rc : String × List Any)
    (ha : Mem.Live m a ra) (hb : Mem.Live m b rb) (hc : Mem.Live m c rc) :
    Mem.Live (Mem.literal [a, b, c] m).2 (.parts (Mem.literal [a, b, c] m).1)
        (ra.1 ++ rb.1 ++ rc.1, ra.2 ++ rb.2 ++ rc.2) ∧
      (∀ (x : Mem.builder) (r : String × List Any), Mem.Live m x r →
        Mem.Live (Mem.literal [a, b, c] m).2 x r) := by
  have hr := Mem_RendersAll_cons m _ _ _ _ ha.1
    (Mem_RendersAll_cons m _ _ _ _ hb.1 (Mem_RendersAll_singleton m _ rc hc.1))
  have hs : ∀ e ∈ [a, b, c], Mem.builder.Sound m e := by
    intro e he
    simp only [List.mem_cons, List.mem_singleton, List.not_mem_nil, or_false] at he
    rcases he with rfl | rfl | rfl
    · exact ha.2
    · exact hb.2
    · exact hc.2
  have := Mem_Live_literal [a, b, c] m _ hr hs
  simpa [String.append_assoc, List.append_assoc] using this

theorem Mem_Live_partString (m : Mem.Memory) (t : String) :
    Mem.Live m (.partString t) (t, []) :=
  ⟨Mem_Renders_partString m t, Mem_Sound_partString m t⟩

theorem Mem_Live_partByte (m : Mem.Memory) (c : Fin 256) :
    Mem.Live m (.partByte c) (String.singleton (Char.ofNat c.val), []) :=
  ⟨Mem_Renders_partByte m c, Mem_Sound_partByte m c⟩

theorem Mem_Live_partParam (m : Mem.Memory) (v : Any) :
    Mem.Live m (.partParam v) ("?", [v]) :=
  ⟨Mem_Renders_partParam m v, Mem_Sound_partParam m v⟩

/-- The function `Or` on live fragments. -/
theorem Mem_Live_Or (l r : Mem.Part) (m : Mem.Memory) (rl rr : String × List Any)
    (hl : Mem.Live m l.builder rl) (hr : Mem.Live m r.builder rr) :
    Mem.Live (Mem.Or l r m).2 (Mem.Or l r m).1.builder
        (rl.1 ++ " OR " ++ rr.1, rl.2 ++ rr.2) ∧
      (∀ (x : Mem.builder) (rx : String × List Any), Mem.Live m x rx →
        Mem.Live (Mem.Or l r m).2 x rx) := by
  have := Mem_Live_lit3 (.ofPart l) (.partString " OR ") (.ofPart r) m rl (" OR ", []) rr
    (Mem_Live_ofPart m l rl hl) (Mem_Live_partString m _) (Mem_Live_ofPart m r rr hr)
  simpa using this

/-- The function `And` on live fragments. -/
theorem Mem_Live_And (l r : Mem.Part) (m : Mem.Memory) (rl rr : String × List Any)
    (hl : Mem.Live m l.builder rl) (hr : Mem.Live m r.builder rr) :
    Mem.Live (Mem.And l r m).2 (Mem.And l r m).1.builder
        (rl.1 ++ " AND " ++ rr.1, rl.2 ++ rr.2) ∧
      (∀ (x : Mem.builder) (rx : String × List Any), Mem.Live m x rx →
        Mem.Live (Mem.And l r m).2 x rx) := by
  have := Mem_Live_lit3 (.ofPart l) (.partString " AND ") (.ofPart r) m rl (" AND ", []) rr
    (Mem_Live_ofPart m l rl hl) (Mem_Live_partString m _) (Mem_Live_ofPart m r rr hr)
  simpa using this

/-- The function `Cond` on a live fragment. -/
theorem Mem_Live_Cond (v : Mem.Part) (m : Mem.Memory) (rv : String × List Any)
    (hv : Mem.Live m v.builder rv) :
    Mem.Live (Mem.Cond v m).2 (Mem.Cond v m).1.builder ("(" ++ rv.1 ++ ")", rv.2) ∧
      (∀ (x : Mem.builder) (r : String × List Any), Mem.Live m x r →
        Mem.Live (Mem.Cond v m).2 x r) := by
  have := Mem_Live_lit3 (.partByte (byte '(')) (.ofPart v) (.partByte (byte ')')) m
    ("(", []) rv (")", []) (Mem_Live_partByte m _) (Mem_Live_ofPart m v rv hv)
    (Mem_Live_partByte m _)
  simpa using this

theorem Mem_elems_congr (m : Mem.Memory) (s t : Mem.Slice) (ha : s.array = t.array)
    (hl : s.len = t.len) : Mem.elems m s = Mem.elems m t := by
  simp [Mem.elems, ha, hl]

/-- Two calls of an operator method in a row, on `p` and then on `q`, with an
operand that holds no slice: when neither call writes a cell that is read on
`p` or on `q`, both results and both receivers are live afterwards. -/
theorem Mem_Live_op_twice (grow : Nat → Nat → Nat) (p q v : Mem.Part) (op : String)
    (m : Mem.Memory) (rp rq rv : String × List Any)
    (hp : Mem.Live m p.builder rp) (hq : Mem.Live m q.builder rq)
    (hvr : ∀ m', Mem.Renders m' v.builder rv) (hv0 : ∀ m' t, ¬ Mem.Reads m' v.builder t)
    (hpp : Mem.Part.Unshared m p 2 p.builder) (hpq : Mem.Part.Unshared m p 2 q.builder)
    (hqp : Mem.Part.Unshared m q 2 p.builder) (hqq : Mem.Part.Unshared m q 2 q.builder) :
    Mem.Live
        (Mem.Part.append grow q [.partString op, .ofPart v]
          (Mem.Part.append grow p [.partString op, .ofPart v] m).2).2
        (Mem.Part.append grow p [.partString op, .ofPart v] m).1.builder
        (rp.1 ++ op ++ rv.1, rp.2 ++ rv.2) ∧
      Mem.Live
        (Mem.Part.append grow q [.partString op, .ofPart v]
          (Mem.Part.append grow p [.partString op, .ofPart v] m).2).2
        (Mem.Part.append grow q [.partString op, .ofPart v]
          (Mem.Part.append grow p [.partString op, .ofPart v] m).2).1.builder
        (rq.1 ++ op ++ rv.1, rq.2 ++ rv.2) ∧
      Mem.Live
        (Mem.Part.append grow q [.partString op, .ofPart v]
          (Mem.Part.append grow p [.partString op, .ofPart v] m).2).2 p.builder rp ∧
      Mem.Live
        (Mem.Part.append grow q [.partString op, .ofPart v]
          (Mem.Part.append grow p [.partString op, .ofPart v] m).2).2 q.builder rq := by
  have hvS : ∀ m', Mem.builder.Sound m' v.builder := fun m' t ht => absurd ht (hv0 m' t)
  have hvU : ∀ m' (x : Mem.Part), Mem.Part.Unshared m' x 2 v.builder :=
    fun m' _ _ _ _ t ht => absurd ht (hv0 m' t)
  obtain ⟨s1, e1, L1, E1, R1, F1, K1, _⟩ := Mem_Live_append grow p
    [.partString op, .ofPart v] m rp (op ++ rv.1, rv.2) hp (Mem_RendersAll_op m op v rv (hvr m))
    (Mem_Sound_op m op v (hvS m)) hpp (Mem_Unshared_op m p 2 op v (hvU m p))
  have hp1 := Mem_Live_keep m _ p.builder rp hp
    (fun t ht => K1 t (hp.2 t ht) (fun s hs hn => hpp s hs hn t ht))
  have hq1 := Mem_Live_keep m _ q.builder rq hq
    (fun t ht => K1 t (hq.2 t ht) (fun s hs hn => hpq s hs hn t ht))
  have hqq1 : Mem.Part.Unshared (Mem.Part.append grow p [.partString op, .ofPart v] m).2 q 2
      q.builder := fun s hs hn t ht => hqq s hs hn t (hq1.2 t ht)
  obtain ⟨s2, e2, L2, _, _, _, K2, S2⟩ := Mem_Live_append grow q
    [.partString op, .ofPart v] _ rq (op ++ rv.1, rv.2) hq1.1
    (Mem_RendersAll_op _ op v rv (hvr _)) (Mem_Sound_op _ op v (hvS _)) hqq1
    (Mem_Unshared_op _ q 2 op v (hvU _ q))
  have hp2 := (Mem_Live_keep _ _ p.builder rp hp1.1
    (fun t ht => K2 t (hp1.1.2 t ht) (fun s hs hn => hqp s hs hn t (hp1.2 t ht)))).1
  have hq2 := (Mem_Live_keep _ _ q.builder rq hq1.1
    (fun t ht => K2 t (hq1.1.2 t ht) (fun s hs hn => hqq s hs hn t (hq1.2 t ht)))).1
  refine ⟨?_, ?_, hp2, hq2⟩
  · rw [e1]
    have L1' : Mem.Live (Mem.Part.append grow p [.partString op, .ofPart v] m).2 (.parts s1)
        (rp.1 ++ op ++ rv.1, rp.2 ++ rv.2) := by
      simpa [String.append_assoc] using L1
    by_cases hc : ∃ s, q.builder = .parts s ∧ s.len + 2 ≤ s.cap ∧ s1.array = s.array
    · obtain ⟨sq, hsq, hnq, hEq⟩ := hc
      have hvq : sq.Valid m := hq.2 sq (by rw [hsq]; exact Mem.Reads.parts sq)
      have hlt : sq.array < m.length := Mem_Valid_array_lt m sq hvq (by omega)
      rcases F1 with ⟨sp, hsp, hnp, hap, hlp⟩ | hfresh
      · have hle1 : sq.len ≤ sp.len :=
          hpq sp hsp hnp sq (by rw [hsq]; exact Mem.Reads.parts sq) (by rw [← hEq, hap])
        have hle2 : sp.len ≤ sq.len :=
          hqp sq hsq hnq sp (by rw [hsp]; exact Mem.Reads.parts sp) (by rw [← hap, hEq])
        have hlen : sq.len + 2 = s1.len := by
          simp only [List.length_cons, List.length_singleton, List.length_nil] at hlp
          omega
        have hsame := S2 sq hsq hnq (by
          have hk := K1 sq hvq (fun s hs _ _ => by
            rw [hsp] at hs
            cases hs
            exact hle1)
          rw [hk.2, Mem_elems_congr _ ⟨sq.array, sq.len + [Mem.builder.partString op,
              Mem.builder.ofPart v].length, sq.cap⟩ s1 (by simp [hEq])
            hlen,
            E1, Mem_Part_base_parts m p sp hsp,
            Mem_elems_congr m sq sp (by rw [← hEq, hap]) (by omega)])
        rw [hsame]
        exact L1'
      · omega
    · exact (Mem_Live_keep _ _ _ _ L1' (fun t ht => K2 t (L1'.2 t ht) (fun s hs hn hta => by
        rcases R1 t ht with rfl | hr | ⟨e, he, hr⟩
        · exact absurd ⟨s, hs, hn, hta⟩ hc
        · exact hqp s hs hn t hr hta
        · simp only [List.mem_cons, List.mem_singleton, List.not_mem_nil, or_false] at he
          rcases he with rfl | rfl
          · exact nomatch hr
          · cases hr with
            | ofPart h' => exact absurd h' (hv0 m t)))).1
  · rw [e2]
    simpa [String.append_assoc] using L2

theorem Mem_Null_Renders (m : Mem.Memory) : Mem.Renders m Mem.Null.builder ("NULL", []) :=
  Mem_Renders_partString m "NULL"

theorem Mem_Null_Reads (m : Mem.Memory) (t : Mem.Slice) : ¬ Mem.Reads m Mem.Null.builder t :=
  fun h => nomatch h

theorem Mem_Param_Live (m : Mem.Memory) (v : Any) :
    Mem.Live m (Mem.Param v).builder ("?", [v]) :=
  Mem_Live_partParam m v

theorem Mem_DateOverlaps_Live (grow : Nat → Nat → Nat) (startA endA : Mem.Part)
    (startB endB now₁ now₂ : Time) (m : Mem.Memory) (A E : String) (pA pE : List Any)
    (hA : Mem.Live m startA.builder (A, pA)) (hE : Mem.Live m endA.builder (E, pE))
    (hAA : Mem.Part.Unshared m startA 2 startA.builder)
    (hAE : Mem.Part.Unshared m startA 2 endA.builder)
    (hEA : Mem.Part.Unshared m endA 2 startA.builder)
    (hEE : Mem.Part.Unshared m endA 2 endA.builder) :
    Mem.Live (Mem.DateOverlaps grow startA endA startB endB now₁ now₂ m).2
      (Mem.DateOverlaps grow startA endA startB endB now₁ now₂ m).1.builder
      ("(" ++ A ++ " IS NULL OR " ++ E ++ " IS NULL OR ? <= " ++ E ++ " AND ? >= " ++ A ++ ")",
        pA ++ pE ++ [Any.time (if startB.Unix ≤ 0 then now₁ else startB)] ++ pE
          ++ [Any.time (if endB.Unix ≤ 0 then now₂ else endB)] ++ pA) ∧
    Mem.Live (Mem.DateOverlaps grow startA endA startB endB now₁ now₂ m).2 startA.builder
      (A, pA) ∧
    Mem.Live (Mem.DateOverlaps grow startA endA startB endB now₁ now₂ m).2 endA.builder
      (E, pE) := by
  obtain ⟨x1, x2, a2, e2⟩ := Mem_Live_op_twice grow startA endA Mem.Null " IS " m (A, pA) (E, pE)
    ("NULL", []) hA hE Mem_Null_Renders Mem_Null_Reads hAA hAE hEA hEE
  obtain ⟨o1, k3⟩ := Mem_Live_Or _ _ _ _ _ x1 x2
  obtain ⟨y1, k4⟩ := Mem_Live_op_else grow
    (Mem.Param (.time (if startB.Unix ≤ 0 then now₁ else startB))) endA " <= " _ _ _
    (fun s hs => nomatch hs) (Mem_Param_Live _ _) (k3 _ _ e2)
  obtain ⟨y2, k5⟩ := Mem_Live_op_else grow
    (Mem.Param (.time (if endB.Unix ≤ 0 then now₂ else endB))) startA " >= " _ _ _
    (fun s hs => nomatch hs) (Mem_Param_Live _ _) (k4 _ _ (k3 _ _ a2))
  obtain ⟨a1, k6⟩ := Mem_Live_And _ _ _ _ _ (k5 _ _ y1) y2
  obtain ⟨o2, k7⟩ := Mem_Live_Or _ _ _ _ _ (k6 _ _ (k5 _ _ (k4 _ _ o1))) a1
  obtain ⟨c, k8⟩ := Mem_Live_Cond _ _ _ o2
  have h1 : " IS NULL OR " = " IS " ++ ("NULL" ++ " OR ") := by decide
  have h2 : " IS NULL OR ? <= " = " IS " ++ ("NULL" ++ (" OR " ++ ("?" ++ " <= "))) := by decide
  have h3 : " AND ? >= " = " AND " ++ ("?" ++ " >= ") := by decide
  refine ⟨?_, k8 _ _ (k7 _ _ (k6 _ _ (k5 _ _ (k4 _ _ (k3 _ _ a2))))),
    k8 _ _ (k7 _ _ (k6 _ _ (k5 _ _ (k4 _ _ (k3 _ _ e2)))))⟩
  rw [h1, h2, h3]
  simp only [String.append_assoc, List.append_assoc, List.nil_append, List.append_nil,
    List.cons_append, List.singleton_append] at c ⊢
  exact c

/-- The rendering of the result of an `append`, by the elements it holds. -/
theorem Mem_sliceAppend_Build (grow : Nat → Nat → Nat) (s : Mem.Slice) (vs : List Mem.builder)
    (m : Mem.Memory) (hs : s.Valid m) (f : Nat) :
    Mem.builder.Build (Mem.sliceAppend grow s vs m).2 (f + 1)
        (.parts (Mem.sliceAppend grow s vs m).1)
      = Mem.parts.Build.range (Mem.builder.Build (Mem.sliceAppend grow s vs m).2 f)
          (Mem.elems m s ++ vs) := by
  rw [← (Mem_sliceAppend_elems grow s vs m hs).2]
  rfl

theorem Mem_Build_leaf (M : Mem.Memory) (f : Nat) :
    (∀ t, Mem.builder.Build M (f + 2) (.ofPart (Mem.Field t)) = some (t, [])) ∧
    (∀ t, Mem.builder.Build M (f + 1) (.partString t) = some (t, [])) ∧
    (∀ c, Mem.builder.Build M (f + 1) (.partByte c) =
      some (String.singleton (Char.ofNat c.val), [])) ∧
    (∀ p, Mem.builder.Build M (f + 1) (.ofPart p) = Mem.builder.Build M f p.builder) :=
  ⟨fun _ => rfl, fun _ => rfl, fun _ => rfl, fun _ => rfl⟩

/-- One `append`, with a slice `t` that it keeps. -/
theorem Mem_sliceAppend_step (grow : Nat → Nat → Nat) (s : Mem.Slice) (vs : List Mem.builder)
    (m : Mem.Memory) (t : Mem.Slice) (hs : s.Valid m) (ht : t.Valid m)
    (hd : t.array = s.array → t.len ≤ s.len) :
    (Mem.sliceAppend grow s vs m).1.Valid (Mem.sliceAppend grow s vs m).2 ∧
      Mem.elems (Mem.sliceAppend grow s vs m).2 (Mem.sliceAppend grow s vs m).1 =
        Mem.elems m s ++ vs ∧
      t.Valid (Mem.sliceAppend grow s vs m).2 ∧
      Mem.elems (Mem.sliceAppend grow s vs m).2 t = Mem.elems m t ∧
      (Mem.sliceAppend grow s vs m).1.len = s.len + vs.length :=
  ⟨(Mem_sliceAppend_elems grow s vs m hs).1, (Mem_sliceAppend_elems grow s vs m hs).2,
    (Mem_sliceAppend_keeps grow s vs m hs t ht hd).1,
    (Mem_sliceAppend_keeps grow s vs m hs t ht hd).2, Mem_sliceAppend_len grow s vs m⟩


theorem Mem_chain_eq :
    Mem.chain.1 = ⟨.parts ⟨3, 7, 12⟩⟩ ∧
    Mem.elems Mem.chain.2.2 ⟨3, 7, 12⟩ =
      [.ofPart (Mem.Field "a"), .partString " = ", .ofPart (Mem.Field "b"),
        .partString " AND ", .ofPart (Mem.Field "c"), .partString " AND ",
        .ofPart (Mem.Field "d")] ∧
    (⟨3, 7, 12⟩ : Mem.Slice).Valid Mem.chain.2.2 :=
  ⟨rfl, rfl, by decide, by decide⟩

/-- The only slice read on the `l` of `chain` is its own. -/
theorem Mem_chain_Reads (t : Mem.Slice) (h : Mem.Reads Mem.chain.2.2 Mem.chain.1.builder t) :
    t = ⟨3, 7, 12⟩ := by
  obtain ⟨h1, h2, _⟩ := Mem_chain_eq
  rw [h1] at h
  rcases Mem_Reads_parts_inv _ _ _ h with rfl | ⟨e, he, hr⟩
  · rfl
  · rw [h2] at he
    simp only [List.mem_cons, List.mem_singleton, List.not_mem_nil, or_false] at he
    rcases he with rfl | rfl | rfl | rfl | rfl | rfl | rfl
    all_goals exact nomatch hr

theorem Mem_chain_Live :
    Mem.Live Mem.chain.2.2 Mem.chain.1.builder ("a = b AND c AND d", []) := by
  refine ⟨Mem_Renders_of_Build _ _ _ 8 (by decide), fun t ht => ?_⟩
  rw [Mem_chain_Reads t ht]
  exact Mem_chain_eq.2.2

theorem Mem_chain_Unshared (n : Nat) :
    Mem.Part.Unshared Mem.chain.2.2 Mem.chain.1 n Mem.chain.1.builder := by
  intro s hs _ t ht _
  rw [Mem_chain_Reads t ht]
  rw [Mem_chain_eq.1] at hs
  cases hs
  exact Nat.le_refl _

theorem Mem_Field_Live (m : Mem.Memory) (name : String) :
    Mem.Live m (Mem.Field name).builder (name, []) :=
  Mem_Live_partString m name

theorem Mem_chainQuery_Sound : Mem.builder.Sound Mem.chain.2.2 (.ofQuery Mem.chainQuery) := by
  intro t ht
  cases ht with
  | ofQuery he hr =>
    have hp : Mem.Query.Build.parts Mem.chainQuery =
        [.partString "SELECT ", .ofPart ⟨.partString "*"⟩, .partString " FROM ",
          .ofPart (Mem.Field "t"), .partString " WHERE ", .ofPart Mem.chain.1,
          .partString " LIMIT 1"] := rfl
    rw [hp] at he
    simp only [List.mem_cons, List.mem_singleton, List.not_mem_nil, or_false] at he
    rcases he with rfl | rfl | rfl | rfl | rfl | rfl | rfl
    · exact nomatch hr
    · exact nomatch hr
    · exact nomatch hr
    · exact nomatch hr
    · exact nomatch hr
    · cases hr with
      | ofPart h' =>
        rw [Mem_chain_Reads t h']
        exact Mem_chain_eq.2.2
    · exact nomatch hr

theorem Mem_chainQuery_Reads :
    Mem.Reads Mem.chain.2.2 (.ofQuery Mem.chainQuery) ⟨3, 7, 12⟩ := by
  have hp : Mem.builder.ofPart Mem.chain.1 ∈ Mem.Query.Build.parts Mem.chainQuery := by
    have h : Mem.Query.Build.parts Mem.chainQuery =
        [.partString "SELECT ", .ofPart ⟨.partString "*"⟩, .partString " FROM ",
          .ofPart (Mem.Field "t"), .partString " WHERE ", .ofPart Mem.chain.1,
          .partString " LIMIT 1"] := rfl
    rw [h]
    simp
  exact Mem.Reads.ofQuery hp (Mem.Reads.ofPart (by
    rw [Mem_chain_eq.1]
    exact Mem.Reads.parts ⟨3, 7, 12⟩))

/-! ### The two embeddings of `Part.append` -/

/-- The two embeddings of `Part.append` agree where the call writes no cell
that is read on its operands: for a receiver and new elements that render the
same on the elements of the slices and in memory, the result renders the same,
the rendering of the receiver followed by that of the new elements. -/
theorem Part_append_agrees (grow : Nat → Nat → Nat) (p : Mem.Part) (vs : List Mem.builder)
    (m : Mem.Memory) (q : Part) (ws : List builder) (rp rv : String × List Any)
    (hp : Mem.Live m p.builder rp) (hv : Mem.RendersAll m vs rv)
    (hvs : ∀ e ∈ vs, Mem.builder.Sound m e)
    (hup : Mem.Part.Unshared m p vs.length p.builder)
    (huv : ∀ e ∈ vs, Mem.Part.Unshared m p vs.length e)
    (hq : Part.Build q = some rp) (hw : parts.Build ws = some rv) :
    Mem.Renders (Mem.Part.append grow p vs m).2 (Mem.Part.append grow p vs m).1.builder
        (rp.1 ++ rv.1, rp.2 ++ rv.2)
    ∧ Part.Build (q.append ws) = some (rp.1 ++ rv.1, rp.2 ++ rv.2) := by
  obtain ⟨s1, h1, h2, _⟩ := Mem_Live_append grow p vs m rp rv hp hv hvs hup huv
  refine ⟨?_, ?_⟩
  · rw [h1]
    exact h2.1
  · rw [Part_Build_append, hq, hw]
    rfl

/-! ## Operators on fragments that share a backing array -/

/-- C4: the code at the failing input, with slices held in backing arrays. For
`l := Field("a").Eq(Field("b")).And(Field("c")).And(Field("d"))` the slice of
`l` has length 7 and capacity 12, and `r := l.As("x")` is a window of length 8
on the same backing array. `And(l, r)` renders `l AND r`; `l.And(r)` writes
` AND ` into the cell that holds the last element of `r` and renders
`a = b AND c AND d AND a = b AND c AND d AND `: the two forms render different
texts. The same holds for `Or` and for `Xor`. -/
theorem method_form_differs_on_shared_array :
    Mem.andForms.free = some ("a = b AND c AND d AND a = b AND c AND d AS x", [])
    ∧ Mem.andForms.method = some ("a = b AND c AND d AND a = b AND c AND d AND ", [])
    ∧ Mem.andForms.method ≠ Mem.andForms.free
    ∧ Mem.orForms.free = some ("a = b AND c AND d OR a = b AND c AND d AS x", [])
    ∧ Mem.orForms.method = some ("a = b AND c AND d OR a = b AND c AND d OR ", [])
    ∧ Mem.orForms.method ≠ Mem.orForms.free
    ∧ Mem.xorForms.free = some ("a = b AND c AND d XOR a = b AND c AND d AS x", [])
    ∧ Mem.xorForms.method = some ("a = b AND c AND d XOR a = b AND c AND d XOR ", [])
    ∧ Mem.xorForms.method ≠ Mem.xorForms.free := by
  refine ⟨?_, ?_, ?_, ?_, ?_, ?_, ?_, ?_, ?_⟩ <;> decide

/-- C5: the code at the failing input, with slices held in backing arrays. For
`p := Field("a").Eq(Field("b")).And(Field("c")).And(Field("d"))` and
`v := p.As("x")`, `p` renders `a = b AND c AND d` and `v` renders
`a = b AND c AND d AS x`, yet `p.Eq(v)` renders
`a = b AND c AND d = a = b AND c AND d = `, not the text of `p`, ` = ` and the
text of `v`: the call writes ` = ` into the cell that holds the last element of
`v`. Each of the thirteen operator methods does the same with its operator
text. -/
theorem operator_overwrites_shared_operand :
    (Mem.opShared Mem.Part.Eq).left = some ("a = b AND c AND d", [])
    ∧ (Mem.opShared Mem.Part.Eq).right = some ("a = b AND c AND d AS x", [])
    ∧ (Mem.opShared Mem.Part.Eq).result
      = some ("a = b AND c AND d = a = b AND c AND d = ", [])
    ∧ (Mem.opShared Mem.Part.Eq).result
      ≠ some ("a = b AND c AND d" ++ " = " ++ "a = b AND c AND d AS x", [])
    ∧ (Mem.opShared Mem.Part.Ne).result
      = some ("a = b AND c AND d != a = b AND c AND d != ", [])
    ∧ (Mem.opShared Mem.Part.Lt).result
      = some ("a = b AND c AND d < a = b AND c AND d < ", [])
    ∧ (Mem.opShared Mem.Part.Lte).result
      = some ("a = b AND c AND d <= a = b AND c AND d <= ", [])
    ∧ (Mem.opShared Mem.Part.Gt).result
      = some ("a = b AND c AND d > a = b AND c AND d > ", [])
    ∧ (Mem.opShared Mem.Part.Gte).result
      = some ("a = b AND c AND d >= a = b AND c AND d >= ", [])
    ∧ (Mem.opShared Mem.Part.Add).result
      = some ("a = b AND c AND d + a = b AND c AND d + ", [])
    ∧ (Mem.opShared Mem.Part.Sub).result
      = some ("a = b AND c AND d - a = b AND c AND d - ", [])
    ∧ (Mem.opShared Mem.Part.Is).result
      = some ("a = b AND c AND d IS a = b AND c AND d IS ", [])
    ∧ (Mem.opShared Mem.Part.IsNot).result
      = some ("a = b AND c AND d IS NOT a = b AND c AND d IS NOT ", [])
    ∧ (Mem.opShared Mem.Part.And).result
      = some ("a = b AND c AND d AND a = b AND c AND d AND ", [])
    ∧ (Mem.opShared Mem.Part.Or).result
      = some ("a = b AND c AND d OR a = b AND c AND d OR ", [])
    ∧ (Mem.opShared Mem.Part.Xor).result
      = some ("a = b AND c AND d XOR a = b AND c AND d XOR ", []) := by
  refine ⟨?_, ?_, ?_, ?_, ?_, ?_, ?_, ?_, ?_, ?_, ?_, ?_, ?_, ?_, ?_, ?_⟩ <;> decide

/-- C7: the code at the failing input, with slices held in backing arrays. For
`p := List(Field("a"), Field("b"))` and `v := p.As("x")`, `p` renders `a, b`
and `v` renders `a, b AS x`, yet `p.In([]Part{v})` renders
`a, b IN (a, b IN ()`, not `a, b IN (a, b AS x)`, whatever the growth of
`append` is: `List` leaves one spare cell in the array of `p`, `v` holds it,
and `In` writes ` IN (` into it. -/
theorem In_overwrites_shared_candidate (grow : Nat → Nat → Nat) :
    (Mem.inShared grow).left = some ("a, b", [])
    ∧ (Mem.inShared grow).right = some ("a, b AS x", [])
    ∧ (Mem.inShared grow).result = some ("a, b IN (a, b IN ()", []) := by
  refine ⟨rfl, rfl, ?_⟩
  have hv := (Mem_sliceAppend_elems grow ⟨0, 4, 4⟩ [.ofPart ⟨.parts ⟨0, 4, 4⟩⟩]
      [[.ofPart (Mem.Field "a"), .partString ", ", .ofPart (Mem.Field "b"),
        .partString " IN ("]] ⟨by decide, by decide⟩).1
  have hk := Mem_sliceAppend_keeps grow _ [.partByte (byte ')')] _ hv ⟨0, 4, 4⟩
    (Mem_sliceAppend_keeps_full grow ⟨0, 4, 4⟩ [.ofPart ⟨.parts ⟨0, 4, 4⟩⟩] _ (by decide)
      ⟨0, 4, 4⟩ ⟨by decide, by decide⟩).1
    (fun h => by
      have h1 : (0 : Nat) = 1 := h
      omega)
  have hb := Mem_sliceAppend_Build grow _ [.partByte (byte ')')] _ hv 7
  show Mem.builder.Build _ 8 (.parts _) = _
  refine hb.trans ?_
  generalize (Mem.sliceAppend grow
      (Mem.sliceAppend grow ⟨0, 4, 4⟩ [.ofPart ⟨.parts ⟨0, 4, 4⟩⟩]
        [[.ofPart (Mem.Field "a"), .partString ", ", .ofPart (Mem.Field "b"),
          .partString " IN ("]]).1 [.partByte (byte ')')]
      (Mem.sliceAppend grow ⟨0, 4, 4⟩ [.ofPart ⟨.parts ⟨0, 4, 4⟩⟩]
        [[.ofPart (Mem.Field "a"), .partString ", ", .ofPart (Mem.Field "b"),
          .partString " IN ("]]).2).2 = M at hk ⊢
  have he : Mem.builder.Build M 6 (.parts ⟨0, 4, 4⟩) = some ("a, b IN (", []) := by
    simp only [Mem.builder.Build]
    rw [hk.2]
    rfl
  have hl := Mem_Build_leaf M
  have e3 : Mem.elems (Mem.sliceAppend grow ⟨0, 4, 4⟩ [.ofPart ⟨.parts ⟨0, 4, 4⟩⟩]
        [[.ofPart (Mem.Field "a"), .partString ", ", .ofPart (Mem.Field "b"),
          .partString " IN ("]]).2
      (Mem.sliceAppend grow ⟨0, 4, 4⟩ [.ofPart ⟨.parts ⟨0, 4, 4⟩⟩]
        [[.ofPart (Mem.Field "a"), .partString ", ", .ofPart (Mem.Field "b"),
          .partString " IN ("]]).1 =
      [.ofPart (Mem.Field "a"), .partString ", ", .ofPart (Mem.Field "b"),
        .partString " IN (", .ofPart ⟨.parts ⟨0, 4, 4⟩⟩] := rfl
  rw [e3]
  simp only [Mem_range_cons, Mem_range_nil, List.cons_append, List.nil_append,
    (hl 5).1, (hl 6).2.1, (hl 6).2.2.1, (hl 6).2.2.2, he]
  decide

/-- C8: the code at the failing input, with slices held in backing arrays. For
`p := List(Field("a"), Field("b"))` and `v := p.As("x")`, `p` renders `a, b`
and `v` renders `a, b AS x`, yet `p.NotIn([]Part{v})` renders
`a, b NOT IN (a, b NOT)`, not `a, b NOT IN (a, b AS x)`, whatever the growth of
`append` is: `NotIn` writes ` NOT` into the spare cell of the array of `p`,
which `v` holds. -/
theorem NotIn_overwrites_shared_candidate (grow : Nat → Nat → Nat) :
    (Mem.notInShared grow).left = some ("a, b", [])
    ∧ (Mem.notInShared grow).right = some ("a, b AS x", [])
    ∧ (Mem.notInShared grow).result = some ("a, b NOT IN (a, b NOT)", []) := by
  refine ⟨rfl, rfl, ?_⟩
  have key : ∀ (m3 : Mem.Memory) (s3 : Mem.Slice), s3.Valid m3 →
      Mem.elems m3 s3 = [.ofPart (Mem.Field "a"), .partString ", ", .ofPart (Mem.Field "b"),
        .partString " NOT", .partString " IN ("] →
      (⟨0, 4, 4⟩ : Mem.Slice).Valid m3 →
      Mem.elems m3 ⟨0, 4, 4⟩ = [.ofPart (Mem.Field "a"), .partString ", ",
        .ofPart (Mem.Field "b"), .partString " NOT"] →
      4 ≤ s3.len →
      Mem.builder.Build
        (Mem.sliceAppend grow (Mem.sliceAppend grow s3 [.ofPart ⟨.parts ⟨0, 4, 4⟩⟩] m3).1
          [.partByte (byte ')')] (Mem.sliceAppend grow s3 [.ofPart ⟨.parts ⟨0, 4, 4⟩⟩] m3).2).2 8
        (.parts (Mem.sliceAppend grow (Mem.sliceAppend grow s3 [.ofPart ⟨.parts ⟨0, 4, 4⟩⟩] m3).1
          [.partByte (byte ')')] (Mem.sliceAppend grow s3 [.ofPart ⟨.parts ⟨0, 4, 4⟩⟩] m3).2).1)
      = some ("a, b NOT IN (a, b NOT)", []) := by
    intro m3 s3 h1 h2 h3 h4 h5
    obtain ⟨a1, a2, a3, a4, a5⟩ := Mem_sliceAppend_step grow s3 [.ofPart ⟨.parts ⟨0, 4, 4⟩⟩] m3
      ⟨0, 4, 4⟩ h1 h3 (fun _ => h5)
    obtain ⟨b1, b2, b3, b4, _⟩ := Mem_sliceAppend_step grow _ [.partByte (byte ')')] _
      ⟨0, 4, 4⟩ a1 a3 (fun _ => by rw [a5]; exact Nat.le_trans h5 (Nat.le_add_right _ _))
    rw [Mem_sliceAppend_Build grow _ _ _ a1 7, a2, h2]
    generalize (Mem.sliceAppend grow (Mem.sliceAppend grow s3 [.ofPart ⟨.parts ⟨0, 4, 4⟩⟩] m3).1
      [.partByte (byte ')')] (Mem.sliceAppend grow s3 [.ofPart ⟨.parts ⟨0, 4, 4⟩⟩] m3).2).2 = M
      at b4 ⊢
    have he : Mem.builder.Build M 6 (.parts ⟨0, 4, 4⟩) = some ("a, b NOT", []) := by
      simp only [Mem.builder.Build]
      rw [b4, a4, h4]
      rfl
    have hl := Mem_Build_leaf M
    simp only [Mem_range_cons, Mem_range_nil, List.cons_append, List.nil_append,
      (hl 5).1, (hl 6).2.1, (hl 6).2.2.1, (hl 6).2.2.2, he]
    decide
  obtain ⟨c1, c2, c3, c4, _⟩ := Mem_sliceAppend_step grow ⟨0, 4, 4⟩ [.partString " IN ("]
    [[.ofPart (Mem.Field "a"), .partString ", ", .ofPart (Mem.Field "b"),
      .partString " NOT"]] ⟨0, 4, 4⟩ ⟨by decide, by decide⟩ ⟨by decide, by decide⟩
    (fun _ => Nat.le_refl _)
  exact key _ _ c1 c2 c3 c4 (Nat.le_add_right 4 1)

/-! ## Repeated rendering -/

/-- C17: `Query.Build` as it runs in memory, on a statement whose fragments
hold slices that lie within their backing arrays. The call leaves every backing
array of the memory as it was, so every slice read on the from fragment and on
the clause fragments holds the same elements after the call; a second call
returns the same text and the same parameters; what the call returns is what
the elements that its body assembles render, whatever `append` does on the
local slice; and a fragment renders the same in any two memories that agree on
the slices read on it. The statement itself is only read: the body assigns to
no field of `q` and appends to no clause list. -/
theorem Build_leaves_memory (grow : Nat → Nat → Nat) (q : Mem.Query) (fuel : Nat)
    (m : Mem.Memory) (hq : Mem.builder.Sound m (.ofQuery q)) :
    (∀ a, a < m.length → Mem.cells (Mem.Query.Build grow q fuel m).2 a = Mem.cells m a)
    ∧ (∀ t, Mem.Reads m (.ofQuery q) t →
      Mem.elems (Mem.Query.Build grow q fuel m).2 t = Mem.elems m t)
    ∧ (Mem.Query.Build grow q fuel (Mem.Query.Build grow q fuel m).2).1
      = (Mem.Query.Build grow q fuel m).1
    ∧ (Mem.Query.Build grow q fuel m).1 = Mem.builder.Build m fuel (.ofQuery q)
    ∧ (∀ (b : Mem.builder) (m₁ m₂ : Mem.Memory) (f : Nat),
      (∀ t, Mem.Reads m₁ b t → Mem.elems m₂ t = Mem.elems m₁ t) →
      Mem.builder.Build m₂ f b = Mem.builder.Build m₁ f b) := by
  obtain ⟨_, _, _, hx⟩ := Mem_Query_Build_Local grow q m
  have hx1 : Mem.Extends m (Mem.Query.Build grow q fuel m).2 := hx
  refine ⟨hx1.2, fun t ht => (Mem_Extends_keeps m _ hx1 t (hq t ht)).2, ?_,
    Mem_Query_Build_eq grow q fuel m hq, fun b m₁ m₂ f h => Mem_Build_frame m₁ m₂ f b h⟩
  rw [Mem_Query_Build_eq grow q fuel _
    (fun t ht => (Mem_Reads_Extends m _ hx1 _ hq t ht).2),
    Mem_Query_Build_eq grow q fuel m hq]
  exact Mem_Build_Extends m _ hx1 _ hq fuel

/-- Witness of C17: the statement `SELECT * FROM t WHERE l LIMIT 1`, with `l`
the fragment of `chain`, a slice of length 7 and capacity 12, in the memory
that `chain` leaves. -/
theorem Build_leaves_memory_witness :
    Mem.builder.Sound Mem.chain.2.2 (.ofQuery Mem.chainQuery)
    ∧ (Mem.Query.Build Mem.growslice Mem.chainQuery 9 Mem.chain.2.2).1
      = some ("SELECT * FROM t WHERE a = b AND c AND d LIMIT 1", [])
    ∧ (Mem.Query.Build Mem.growslice Mem.chainQuery 9
        (Mem.Query.Build Mem.growslice Mem.chainQuery 9 Mem.chain.2.2).2).1
      = (Mem.Query.Build Mem.growslice Mem.chainQuery 9 Mem.chain.2.2).1
    ∧ Mem.elems (Mem.Query.Build Mem.growslice Mem.chainQuery 9 Mem.chain.2.2).2 ⟨3, 7, 12⟩
      = Mem.elems Mem.chain.2.2 ⟨3, 7, 12⟩ :=
  ⟨Mem_chainQuery_Sound, by decide,
    (Build_leaves_memory Mem.growslice Mem.chainQuery 9 Mem.chain.2.2 Mem_chainQuery_Sound).2.2.1,
    (Build_leaves_memory Mem.growslice Mem.chainQuery 9 Mem.chain.2.2 Mem_chainQuery_Sound).2.1
      ⟨3, 7, 12⟩ Mem_chainQuery_Reads⟩

/-! ## DateOverlaps in memory -/

/-- C18, amended: `DateOverlaps` as it runs in memory. For fragments `startA`
and `endA` that render `A` and `E`, hold slices that lie within their backing
arrays, and are such that neither `startA.Is(Null())` nor `endA.Is(Null())`
writes a cell that is read on `startA` or on `endA`, `DateOverlaps` renders
`(` + A + ` IS NULL OR ` + E + ` IS NULL OR ? <= ` + E + ` AND ? >= ` + A + `)`
with the parameters of `startA`, `endA`, the first timestamp, `endA`, the
second timestamp and `startA`; with no parameters in `startA` and `endA` these
are the two timestamps. Each timestamp is replaced by the current time read at
its substitution exactly when its `Unix()` seconds are at most 0, as they are
for the zero value and for every timestamp at or before the epoch, and is
unchanged otherwise. -/
theorem DateOverlaps_renders_unshared (grow : Nat → Nat → Nat) (startA endA : Mem.Part)
    (startB endB now₁ now₂ : Time) (m : Mem.Memory) (A E : String) (pA pE : List Any)
    (hA : Mem.Live m startA.builder (A, pA)) (hE : Mem.Live m endA.builder (E, pE))
    (hAA : Mem.Part.Unshared m startA 2 startA.builder)
    (hAE : Mem.Part.Unshared m startA 2 endA.builder)
    (hEA : Mem.Part.Unshared m endA 2 startA.builder)
    (hEE : Mem.Part.Unshared m endA 2 endA.builder) :
    Mem.Renders (Mem.DateOverlaps grow startA endA startB endB now₁ now₂ m).2
      (Mem.DateOverlaps grow startA endA startB endB now₁ now₂ m).1.builder
      ("(" ++ A ++ " IS NULL OR " ++ E ++ " IS NULL OR ? <= " ++ E ++ " AND ? >= " ++ A ++ ")",
        pA ++ pE ++ [Any.time (if startB.Unix ≤ 0 then now₁ else startB)] ++ pE
          ++ [Any.time (if endB.Unix ≤ 0 then now₂ else endB)] ++ pA)
    ∧ (pA = [] → pE = [] →
      Mem.Renders (Mem.DateOverlaps grow startA endA startB endB now₁ now₂ m).2
        (Mem.DateOverlaps grow startA endA startB endB now₁ now₂ m).1.builder
        ("(" ++ A ++ " IS NULL OR " ++ E ++ " IS NULL OR ? <= " ++ E ++ " AND ? >= " ++ A
            ++ ")",
          [Any.time (if startB.Unix ≤ 0 then now₁ else startB),
            Any.time (if endB.Unix ≤ 0 then now₂ else endB)]))
    ∧ Time.zero.Unix ≤ 0
    ∧ (∀ t : Time, t.atOrBeforeEpoch = true → t.Unix ≤ 0) := by
  have h := (Mem_DateOverlaps_Live grow startA endA startB endB now₁ now₂ m A E pA pE hA hE
    hAA hAE hEA hEE).1.1
  refine ⟨h, ?_, by decide, ?_⟩
  · intro h1 h2
    subst h1 h2
    exact h
  · intro t ht
    simp only [Time.atOrBeforeEpoch, Bool.or_eq_true, decide_eq_true_eq, Bool.and_eq_true,
      beq_iff_eq] at ht
    simp only [Time.Unix]
    omega

/-- Witness of C18: `startA` the fragment `l` of `chain`, a slice of length 7
and capacity 12 into which `Is` writes in place, `endA` the field `a.ends_at`,
both timestamps the zero value. -/
theorem DateOverlaps_renders_unshared_witness :
    Mem.Live Mem.chain.2.2 Mem.chain.1.builder ("a = b AND c AND d", [])
    ∧ Mem.Renders
      (Mem.DateOverlaps Mem.growslice Mem.chain.1 (Mem.Field "a.ends_at") Time.zero Time.zero
        ⟨1000, 0⟩ ⟨1001, 0⟩ Mem.chain.2.2).2
      (Mem.DateOverlaps Mem.growslice Mem.chain.1 (Mem.Field "a.ends_at") Time.zero Time.zero
        ⟨1000, 0⟩ ⟨1001, 0⟩ Mem.chain.2.2).1.builder
      ("(" ++ "a = b AND c AND d" ++ " IS NULL OR " ++ "a.ends_at" ++ " IS NULL OR ? <= "
          ++ "a.ends_at" ++ " AND ? >= " ++ "a = b AND c AND d" ++ ")",
        [Any.time (if Time.zero.Unix ≤ 0 then ⟨1000, 0⟩ else Time.zero),
          Any.time (if Time.zero.Unix ≤ 0 then ⟨1001, 0⟩ else Time.zero)]) :=
  ⟨Mem_chain_Live, (DateOverlaps_renders_unshared Mem.growslice Mem.chain.1
    (Mem.Field "a.ends_at") Time.zero Time.zero ⟨1000, 0⟩ ⟨1001, 0⟩ Mem.chain.2.2 _ _ _ _
    Mem_chain_Live (Mem_Field_Live _ _) (Mem_chain_Unshared 2)
    (fun _ _ _ _ ht => nomatch ht)
    (fun _ hs => nomatch hs) (fun _ hs => nomatch hs)).2.1 rfl rfl⟩

/-! ## Clause methods -/

/-- C20: `Select`, `Where` and `GroupBy` append their arguments, in order, to
the end of their own clause list and leave the from fragment, the limit and
every other clause list as they were; so two calls in a row give the same
statement, and the same rendering, as one call with the concatenated
arguments. -/
theorem clause_methods_append (q : Query) (xs ys : List Part) :
    ((q.Select xs).selectParts = q.selectParts ++ xs
      ∧ (q.Select xs).from_ = q.from_ ∧ (q.Select xs).limit = q.limit
      ∧ (q.Select xs).joinParts = q.joinParts ∧ (q.Select xs).whereParts = q.whereParts
      ∧ (q.Select xs).groupByParts = q.groupByParts
      ∧ (q.Select xs).orderByParts = q.orderByParts ∧ (q.Select xs).withParts = q.withParts)
    ∧ ((q.Where xs).whereParts = q.whereParts ++ xs
      ∧ (q.Where xs).from_ = q.from_ ∧ (q.Where xs).limit = q.limit
      ∧ (q.Where xs).selectParts = q.selectParts ∧ (q.Where xs).joinParts = q.joinParts
      ∧ (q.Where xs).groupByParts = q.groupByParts
      ∧ (q.Where xs).orderByParts = q.orderByParts ∧ (q.Where xs).withParts = q.withParts)
    ∧ ((q.GroupBy xs).groupByParts = q.groupByParts ++ xs
      ∧ (q.GroupBy xs).from_ = q.from_ ∧ (q.GroupBy xs).limit = q.limit
      ∧ (q.GroupBy xs).selectParts = q.selectParts ∧ (q.GroupBy xs).joinParts = q.joinParts
      ∧ (q.GroupBy xs).whereParts = q.whereParts
      ∧ (q.GroupBy xs).orderByParts = q.orderByParts ∧ (q.GroupBy xs).withParts = q.withParts)
    ∧ ((q.Select xs).Select ys = q.Select (xs ++ ys)
      ∧ Query.Build ((q.Select xs).Select ys) = Query.Build (q.Select (xs ++ ys)))
    ∧ ((q.Where xs).Where ys = q.Where (xs ++ ys)
      ∧ Query.Build ((q.Where xs).Where ys) = Query.Build (q.Where (xs ++ ys)))
    ∧ ((q.GroupBy xs).GroupBy ys = q.GroupBy (xs ++ ys)
      ∧ Query.Build ((q.GroupBy xs).GroupBy ys) = Query.Build (q.GroupBy (xs ++ ys))) := by
  have h1 : (q.Select xs).Select ys = q.Select (xs ++ ys) := by
    simp [Query.Select, List.append_assoc]
  have h2 : (q.Where xs).Where ys = q.Where (xs ++ ys) := by
    simp [Query.Where, List.append_assoc]
  have h3 : (q.GroupBy xs).GroupBy ys = q.GroupBy (xs ++ ys) := by
    simp [Query.GroupBy, List.append_assoc]
  exact ⟨⟨rfl, rfl, rfl, rfl, rfl, rfl, rfl, rfl⟩, ⟨rfl, rfl, rfl, rfl, rfl, rfl, rfl, rfl⟩,
    ⟨rfl, rfl, rfl, rfl, rfl, rfl, rfl, rfl⟩, ⟨h1, by rw [h1]⟩, ⟨h2, by rw [h2]⟩,
    ⟨h3, by rw [h3]⟩⟩

/-! ## Joins and ordering -/

theorem join_entry_Build (kw : String) (table cond : Part) (ht : Part.Build table ≠ none)
    (hc : Part.Build cond ≠ none) :
    Part.Build ⟨builder.parts [builder.partString kw, builder.ofPart table,
        builder.partString " ON ", builder.ofPart cond]⟩
      = some (kw ++ table.text ++ " ON " ++ cond.text, table.params ++ cond.params) := by
  simp [Part_Build_mk, builder_Build_parts, parts_Build_cons, parts_Build_nil,
    builder_Build_partString, builder_Build_ofPart, Part_Build_some _ ht, Part_Build_some _ hc,
    Built.cat, Built.empty, String.append_assoc]

/-- C21: for fragments `table` and `cond` that render, `q.InnerJoin(table, cond)`
appends to the end of the join list one entry, which renders `INNER JOIN ` +
the text of `table` + ` ON ` + the text of `cond` with the parameters of `table`
followed by those of `cond`, and leaves every other field of the statement as
it was; `q.LeftJoin(table, cond)` does the same with `LEFT JOIN `. -/
theorem join_appends_entry (q : Query) (table cond : Part) (ht : Part.Build table ≠ none)
    (hc : Part.Build cond ≠ none) :
    (∃ e : Part, (q.InnerJoin table cond).joinParts = q.joinParts ++ [e]
      ∧ Part.Build e = some ("INNER JOIN " ++ table.text ++ " ON " ++ cond.text,
          table.params ++ cond.params))
    ∧ ((q.InnerJoin table cond).from_ = q.from_
      ∧ (q.InnerJoin table cond).selectParts = q.selectParts
      ∧ (q.InnerJoin table cond).whereParts = q.whereParts
      ∧ (q.InnerJoin table cond).groupByParts = q.groupByParts
      ∧ (q.InnerJoin table cond).orderByParts = q.orderByParts
      ∧ (q.InnerJoin table cond).withParts = q.withParts
      ∧ (q.InnerJoin table cond).limit = q.limit)
    ∧ (∃ e : Part, (q.LeftJoin table cond).joinParts = q.joinParts ++ [e]
      ∧ Part.Build e = some ("LEFT JOIN " ++ table.text ++ " ON " ++ cond.text,
          table.params ++ cond.params))
    ∧ ((q.LeftJoin table cond).from_ = q.from_
      ∧ (q.LeftJoin table cond).selectParts = q.selectParts
      ∧ (q.LeftJoin table cond).whereParts = q.whereParts
      ∧ (q.LeftJoin table cond).groupByParts = q.groupByParts
      ∧ (q.LeftJoin table cond).orderByParts = q.orderByParts
      ∧ (q.LeftJoin table cond).withParts = q.withParts
      ∧ (q.LeftJoin table cond).limit = q.limit) :=
  ⟨⟨_, rfl, join_entry_Build _ table cond ht hc⟩, ⟨rfl, rfl, rfl, rfl, rfl, rfl, rfl⟩,
    ⟨_, rfl, join_entry_Build _ table cond ht hc⟩, ⟨rfl, rfl, rfl, rfl, rfl, rfl, rfl⟩⟩

theorem Field_Eq_Field_Build (l r : String) :
    Part.Build ((Field l).Eq (Field r)) = some (l ++ " = " ++ r, []) := by
  have h := Part_append_op_Build (Field l) (Field r) " = " (by simp [Field_Build])
    (by simp [Field_Build])
  rw [Part_text_of_Build _ _ _ (Field_Build _), Part_params_of_Build _ _ _ (Field_Build _),
    Part_text_of_Build _ _ _ (Field_Build _), Part_params_of_Build _ _ _ (Field_Build _)] at h
  simpa [Part.Eq] using h

/-- Witness of C21: the test `TestQuery_InnerJoin`. -/
theorem join_appends_entry_witness :
    (((NewQueryFrom (Table "table_name")).InnerJoin (Table "table_name_2")
        ((Field "table_name.id").Eq (Field "table_name_2.eid"))).InnerJoin (Table "table_name_3")
        ((Field "table_name_2.id").Eq (Field "table_name_3.eid"))).joinParts.map Part.Build
      = [some ("INNER JOIN table_name_2 ON table_name.id = table_name_2.eid", []),
          some ("INNER JOIN table_name_3 ON table_name_2.id = table_name_3.eid", [])] := by
  have hT : ∀ name : String, Part.Build (Table name) ≠ none := by
    intro name
    simp [Table_Build]
  have hE : ∀ l r : String, Part.Build ((Field l).Eq (Field r)) ≠ none := by
    intro l r
    simp [Field_Eq_Field_Build]
  obtain ⟨e1, h1, hb1⟩ := (join_appends_entry (NewQueryFrom (Table "table_name"))
    (Table "table_name_2") ((Field "table_name.id").Eq (Field "table_name_2.eid"))
    (hT _) (hE _ _)).1
  obtain ⟨e2, h2, hb2⟩ := (join_appends_entry ((NewQueryFrom (Table "table_name")).InnerJoin
    (Table "table_name_2") ((Field "table_name.id").Eq (Field "table_name_2.eid")))
    (Table "table_name_3") ((Field "table_name_2.id").Eq (Field "table_name_3.eid"))
    (hT _) (hE _ _)).1
  rw [h2, h1]
  have h0 : (NewQueryFrom (Table "table_name")).joinParts = [] := rfl
  rw [h0]
  simp only [List.nil_append, List.cons_append, List.map, hb1, hb2,
    Part_text_of_Build _ _ _ (Table_Build _), Part_params_of_Build _ _ _ (Table_Build _),
    Part_text_of_Build _ _ _ (Field_Eq_Field_Build _ _),
    Part_params_of_Build _ _ _ (Field_Eq_Field_Build _ _)]
  decide

theorem order_entry_Build (v : Part) (suffix : String) (hv : Part.Build v ≠ none) :
    Part.Build ⟨builder.parts [builder.ofPart v, builder.partString suffix]⟩
      = some (v.text ++ suffix, v.params) := by
  simp [Part_Build_mk, builder_Build_parts, parts_Build_cons, parts_Build_nil,
    builder_Build_partString, builder_Build_ofPart, Part_Build_some _ hv, Built.cat,
    Built.empty]

/-- C22: for a fragment `v` that renders and a direction that is ascending or
descending, `q.OrderBy(v, dir)` appends to the end of the order-by list one
entry, which renders the text of `v` + ` ASC` when `dir` is ascending and the
text of `v` + ` DESC` when `dir` is descending, with the parameters of `v`, and
leaves every other field of the statement as it was. -/
theorem OrderBy_appends_entry (q : Query) (v : Part) (dir : OrderDirection)
    (hv : Part.Build v ≠ none) (hdir : dir = OrderDirectionAsc ∨ dir = OrderDirectionDesc) :
    (∃ e : Part, (q.OrderBy v dir).orderByParts = q.orderByParts ++ [e]
      ∧ (dir = OrderDirectionAsc → Part.Build e = some (v.text ++ " ASC", v.params))
      ∧ (dir = OrderDirectionDesc → Part.Build e = some (v.text ++ " DESC", v.params)))
    ∧ (q.OrderBy v dir).from_ = q.from_
    ∧ (q.OrderBy v dir).selectParts = q.selectParts
    ∧ (q.OrderBy v dir).joinParts = q.joinParts
    ∧ (q.OrderBy v dir).whereParts = q.whereParts
    ∧ (q.OrderBy v dir).groupByParts = q.groupByParts
    ∧ (q.OrderBy v dir).withParts = q.withParts
    ∧ (q.OrderBy v dir).limit = q.limit := by
  have hne : OrderDirectionDesc ≠ OrderDirectionAsc := by decide
  rcases hdir with h | h
  · subst h
    refine ⟨⟨_, by simp [Query.OrderBy], fun _ => order_entry_Build v _ hv,
      fun hd => absurd hd.symm hne⟩, ?_⟩
    simp [Query.OrderBy]
  · subst h
    refine ⟨⟨_, by simp [Query.OrderBy, hne], fun hd => absurd hd hne,
      fun _ => order_entry_Build v _ hv⟩, ?_⟩
    simp [Query.OrderBy, hne]

/-- Witness of C22: the test `TestQuery_OrderBy`. -/
theorem OrderBy_appends_entry_witness :
    (((NewQueryFrom (Table "table_name")).OrderBy (Field "field_name_1")
        OrderDirectionAsc).OrderBy (Field "field_name_2")
        OrderDirectionDesc).orderByParts.map Part.Build
      = [some ("field_name_1 ASC", []), some ("field_name_2 DESC", [])] := by
  have hF : ∀ name : String, Part.Build (Field name) ≠ none := by
    intro name
    simp [Field_Build]
  obtain ⟨e1, h1, hb1, _⟩ := (OrderBy_appends_entry (NewQueryFrom (Table "table_name"))
    (Field "field_name_1") OrderDirectionAsc (hF _) (.inl rfl)).1
  obtain ⟨e2, h2, _, hb2⟩ := (OrderBy_appends_entry
    ((NewQueryFrom (Table "table_name")).OrderBy (Field "field_name_1") OrderDirectionAsc)
    (Field "field_name_2") OrderDirectionDesc (hF _) (.inr rfl)).1
  rw [h2, h1]
  have h0 : (NewQueryFrom (Table "table_name")).orderByParts = [] := rfl
  rw [h0]
  simp only [List.nil_append, List.cons_append, List.map, hb1 rfl, hb2 rfl,
    Part_text_of_Build _ _ _ (Field_Build _), Part_params_of_Build _ _ _ (Field_Build _)]
  decide

/-! ## Nesting of operators -/

theorem And_Build (l r : Part) :
    Part.Build (And l r)
      = Built.cat (Part.Build l) (Built.cat (some (" AND ", [])) (Part.Build r)) := by
  simp [And, Part_Build_mk, builder_Build_parts, parts_Build_cons, parts_Build_nil,
    builder_Build_partString, builder_Build_ofPart, Built_cat_empty]

theorem Or_Build (l r : Part) :
    Part.Build (Or l r)
      = Built.cat (Part.Build l) (Built.cat (some (" OR ", [])) (Part.Build r)) := by
  simp [Or, Part_Build_mk, builder_Build_parts, parts_Build_cons, parts_Build_nil,
    builder_Build_partString, builder_Build_ofPart, Built_cat_empty]

theorem Cond_Build (v : Part) :
    Part.Build (Cond v)
      = Built.cat (some ("(", [])) (Built.cat (Part.Build v) (some (")", []))) := by
  simp [Cond, Part_Build_mk, builder_Build_parts, parts_Build_cons, parts_Build_nil,
    partByte_Build_open, partByte_Build_close, builder_Build_ofPart, Built_cat_empty]

/-- C23: for fragments `a`, `b`, `c` that render, `And(Or(a, b), c)` and
`Or(a, And(b, c))` (and the method chains `a.Or(b).And(c)`, `a.Or(b.And(c))`)
render the same text, the text of `a` + ` OR ` + the text of `b` + ` AND ` +
the text of `c`, and the same parameters: no parenthesis is added and the
nesting does not show. Wrapped with `Cond` the group is rendered in
parentheses, and that text differs from the text without `Cond`. -/
theorem nesting_not_rendered (a b c : Part) (ha : Part.Build a ≠ none)
    (hb : Part.Build b ≠ none) (hc : Part.Build c ≠ none) :
    Part.Build (And (Or a b) c)
      = some (a.text ++ " OR " ++ b.text ++ " AND " ++ c.text, a.params ++ b.params ++ c.params)
    ∧ Part.Build (Or a (And b c))
      = some (a.text ++ " OR " ++ b.text ++ " AND " ++ c.text, a.params ++ b.params ++ c.params)
    ∧ Part.Build ((a.Or b).And c)
      = some (a.text ++ " OR " ++ b.text ++ " AND " ++ c.text, a.params ++ b.params ++ c.params)
    ∧ Part.Build (a.Or (b.And c))
      = some (a.text ++ " OR " ++ b.text ++ " AND " ++ c.text, a.params ++ b.params ++ c.params)
    ∧ Part.Build (And (Cond (Or a b)) c)
      = some ("(" ++ a.text ++ " OR " ++ b.text ++ ")" ++ " AND " ++ c.text,
          a.params ++ b.params ++ c.params)
    ∧ Part.Build (Or a (Cond (And b c)))
      = some (a.text ++ " OR " ++ "(" ++ b.text ++ " AND " ++ c.text ++ ")",
          a.params ++ b.params ++ c.params)
    ∧ (And (Cond (Or a b)) c).text ≠ (And (Or a b) c).text
    ∧ (Or a (Cond (And b c))).text ≠ (Or a (And b c)).text := by
  have h1 : Part.Build (And (Or a b) c)
      = some (a.text ++ " OR " ++ b.text ++ " AND " ++ c.text,
          a.params ++ b.params ++ c.params) := by
    simp [And_Build, Or_Build, Part_Build_some _ ha, Part_Build_some _ hb, Part_Build_some _ hc,
      Built.cat, String.append_assoc]
  have h2 : Part.Build (Or a (And b c))
      = some (a.text ++ " OR " ++ b.text ++ " AND " ++ c.text,
          a.params ++ b.params ++ c.params) := by
    simp [And_Build, Or_Build, Part_Build_some _ ha, Part_Build_some _ hb, Part_Build_some _ hc,
      Built.cat, String.append_assoc]
  have h3 : Part.Build (And (Cond (Or a b)) c)
      = some ("(" ++ a.text ++ " OR " ++ b.text ++ ")" ++ " AND " ++ c.text,
          a.params ++ b.params ++ c.params) := by
    simp only [And_Build, Or_Build, Cond_Build, Part_Build_some _ ha, Part_Build_some _ hb,
      Part_Build_some _ hc, Built_cat_some, String.append_assoc, List.append_assoc,
      List.nil_append, List.append_nil]
  have h4 : Part.Build (Or a (Cond (And b c)))
      = some (a.text ++ " OR " ++ "(" ++ b.text ++ " AND " ++ c.text ++ ")",
          a.params ++ b.params ++ c.params) := by
    simp only [And_Build, Or_Build, Cond_Build, Part_Build_some _ ha, Part_Build_some _ hb,
      Part_Build_some _ hc, Built_cat_some, String.append_assoc, List.append_assoc,
      List.nil_append, List.append_nil]
  refine ⟨h1, h2, ?_, ?_, h3, h4, ?_, ?_⟩
  · simp [Part.And, Part.Or, Part_Build_append, parts_Build_cons, parts_Build_nil,
      builder_Build_partString, builder_Build_ofPart, Part_Build_some _ ha,
      Part_Build_some _ hb, Part_Build_some _ hc, Built.cat, Built.empty, String.append_assoc]
  · simp [Part.And, Part.Or, Part_Build_append, parts_Build_cons, parts_Build_nil,
      builder_Build_partString, builder_Build_ofPart, Part_Build_some _ ha,
      Part_Build_some _ hb, Part_Build_some _ hc, Built.cat, Built.empty, String.append_assoc]
  · rw [Part_text_of_Build _ _ _ h3, Part_text_of_Build _ _ _ h1]
    intro h
    have hl := congrArg String.length h
    simp only [String.length_append] at hl
    have e1 : "(".length = 1 := by decide
    have e2 : ")".length = 1 := by decide
    omega
  · rw [Part_text_of_Build _ _ _ h4, Part_text_of_Build _ _ _ h2]
    intro h
    have hl := congrArg String.length h
    simp only [String.length_append] at hl
    have e1 : "(".length = 1 := by decide
    have e2 : ")".length = 1 := by decide
    omega

/-- Witness of C23: the fields `a`, `b`, `c`. -/
theorem nesting_not_rendered_witness :
    Part.Build (And (Or (Field "a") (Field "b")) (Field "c")) = some ("a OR b AND c", [])
    ∧ Part.Build (Or (Field "a") (And (Field "b") (Field "c"))) = some ("a OR b AND c", [])
    ∧ Part.Build (And (Cond (Or (Field "a") (Field "b"))) (Field "c"))
      = some ("(a OR b) AND c", []) := by
  have hF : ∀ name : String, Part.Build (Field name) ≠ none := by
    intro name
    simp [Field_Build]
  obtain ⟨h1, h2, _, _, h3, _⟩ :=
    nesting_not_rendered (Field "a") (Field "b") (Field "c") (hF _) (hF _) (hF _)
  simp only [Part_text_of_Build _ _ _ (Field_Build _),
    Part_params_of_Build _ _ _ (Field_Build _)] at h1 h2 h3
  rw [h1, h2, h3]
  decide

end QueryBuilder
